import Mathlib

/-!
# Password-policy engine of the Keycloak login theme (`Main.js`)

A shallow embedding of the reactive store (`State`), the rule table and
`Validator`, the hint view (`PasswordPolicyHint`) and the form controller
(`FormUpdate`) of `catenax-shared-portal/login/resources/js/Main.js`.

JavaScript strings are sequences of UTF-16 code units; the regular
expressions of the rule table carry no flag, so they work on code units.
-/

namespace PortalIam

/-! ## Strings and values -/

/-- A JavaScript string: its UTF-16 code units. `length` is `List.length`. -/
abbrev JSString := List Nat

/-- UTF-16 code units of one Unicode scalar value. -/
def utf16Char (c : Char) : List Nat :=
  if c.toNat < 65536 then [c.toNat]
  else [55296 + (c.toNat - 65536) / 1024, 56320 + (c.toNat - 65536) % 1024]

/-- UTF-16 code units of a string literal. -/
def utf16 (s : String) : JSString :=
  s.toList.flatMap utf16Char

/-- The values the store holds: `undefined`, a string, or an array of booleans.
An array is an object: it carries the identity it was allocated with. -/
inductive Value where
  | undefined
  | str (s : JSString)
  | arr (id : Nat) (elems : List Bool)
  deriving DecidableEq, Repr

/-- Strict equality `===`: strings by content, arrays by identity. -/
def strictEq : Value → Value → Bool
  | .undefined, .undefined => true
  | .str a, .str b => a == b
  | .arr i _, .arr j _ => i == j
  | _, _ => false

/-! ## Regular expressions (the fragment used by the rule table) -/

/-- One-character atoms. -/
inductive Atom where
  /-- The dot: any code unit but a line terminator. -/
  | dot
  /-- The escape for a decimal digit. -/
  | digit
  /-- A character class, negated or not, of inclusive code-unit ranges. -/
  | cls (negated : Bool) (ranges : List (Nat × Nat))
  deriving DecidableEq, Repr

/-- Terms of a pattern. -/
inductive Term where
  /-- The caret: start of input. -/
  | bol
  /-- The dollar: end of input. -/
  | eol
  | atom (a : Atom)
  /-- An atom with a bounded quantifier, min to max times. -/
  | rep (a : Atom) (min max : Nat)
  deriving DecidableEq, Repr

/-- A pattern is a sequence of terms. -/
abbrev Pattern := List Term

/-- Line terminators: LF, CR, LS, PS. Without the `s` flag `.` does not match them. -/
def isLineTerminator (c : Nat) : Bool :=
  c == 10 || c == 13 || c == 8232 || c == 8233

/-- Whether a code unit lies in one of the ranges. -/
def inRanges (ranges : List (Nat × Nat)) (c : Nat) : Bool :=
  ranges.any (fun r => decide (r.1 ≤ c) && decide (c ≤ r.2))

/-- Whether an atom matches one code unit. -/
def Atom.test : Atom → Nat → Bool
  | .dot, c => !isLineTerminator c
  | .digit, c => decide (48 ≤ c) && decide (c ≤ 57)
  | .cls negated ranges, c => if negated then !inRanges ranges c else inRanges ranges c

/-- Greedy bounded repetition of an atom followed by the continuation `k`.
`idx` is the position in the input, `s` the rest of the input. -/
def repeatAtom (a : Atom) (k : Nat → JSString → Bool) : Nat → Nat → Nat → JSString → Bool
  | min, 0, idx, s => min == 0 && k idx s
  | min, max + 1, idx, s =>
    (match s with
      | [] => false
      | c :: s1 => a.test c && repeatAtom a k (min - 1) max (idx + 1) s1)
    || (min == 0 && k idx s)

/-- Backtracking matcher: does the pattern match at position `idx`, where `s`
is the input from `idx` on? No `m` flag: `^` holds at position 0 only and `$`
at the end of the input only. -/
def matchTerms : Pattern → Nat → JSString → Bool
  | [], _, _ => true
  | .bol :: rest, idx, s => idx == 0 && matchTerms rest idx s
  | .eol :: rest, idx, s => s.isEmpty && matchTerms rest idx s
  | .atom a :: rest, idx, s =>
    (match s with
      | [] => false
      | c :: s1 => a.test c && matchTerms rest (idx + 1) s1)
  | .rep a min max :: rest, idx, s => repeatAtom a (matchTerms rest) min max idx s

/-- The search loop of `RegExp.prototype.exec` on a non-global pattern: try
every start position from `idx` up to and including the end of the input. -/
def execFrom (p : Pattern) : Nat → JSString → Bool
  | idx, [] => matchTerms p idx []
  | idx, c :: s => matchTerms p idx (c :: s) || execFrom p (idx + 1) s

/-- The truth value of `!!s.match(p)`: whether the pattern matches somewhere. -/
def regexMatch (p : Pattern) (s : JSString) : Bool :=
  execFrom p 0 s

/-! ## Objects of the page -/

/-- Objects registered as listeners of the store. The three classes of the
theme that subscribe, and any other object, given by the names of the methods
it has (methods that do nothing). -/
inductive Listener where
  | validator
  | hint
  | form
  | other (id : Nat) (methods : List String)
  deriving DecidableEq, Repr

/-- The argument of `addListener`: one listener or an array of listeners. -/
inductive ListenerArg where
  | one (l : Listener)
  | many (ls : List Listener)
  deriving DecidableEq, Repr

/-- A list item of the hint view: its text and its class, if set. -/
structure Hint where
  text : Option String
  className : Option String
  deriving DecidableEq, Repr

/-- The state of the page: the `State` singleton (`atts`, `listener`), the
`Validator` singleton and its fields, the items of `PasswordPolicyHint`, the
submit button of `FormUpdate` (`none` while `this.button` is unassigned,
`some d` with `d` telling whether the attribute `disabled` is present), and
the identity the next allocated array receives. -/
structure Page where
  atts : List (String × Value)
  listener : List (String × List Listener)
  validatorInstance : Bool
  validatorPassword : Value
  validatorConfirm : Value
  hints : List Hint
  button : Option Bool
  nextId : Nat
  deriving DecidableEq, Repr

/-- What a call lets one observe: assignments `this.atts[att] = value` (see
`Page.store` for their effect) and listener calls. -/
inductive Event where
  | stored (att : String) (value : Value)
  | called (l : Listener) (method : String) (value : Value)
  deriving DecidableEq, Repr

/-- The reference a call returns. -/
inductive Ret where
  | undefined
  | state
  | validator
  | hint
  | form
  deriving DecidableEq, Repr

/-- How a call ends: it returns, it throws a `TypeError`, or the nesting
budget of the interpreter ran out (shown below never to happen). -/
inductive Completion where
  | returned (r : Ret)
  | typeError
  | unfinished
  deriving DecidableEq, Repr

/-- Whether a completion is abrupt. -/
def Completion.isAbrupt : Completion → Bool
  | .returned _ => false
  | _ => true

/-- The result of running a piece of code: the page it leaves, the events it
produced in order, and how it ended. -/
structure Outcome where
  page : Page
  trace : List Event
  completion : Completion
  deriving DecidableEq, Repr

/-- Sequencing of statements: an abrupt completion skips what follows. -/
def Outcome.andThen (o : Outcome) (f : Page → Outcome) : Outcome :=
  if o.completion.isAbrupt then o
  else ⟨(f o.page).page, o.trace ++ (f o.page).trace, (f o.page).completion⟩

/-- A call made as a statement: its value is dropped. -/
def Outcome.discard (o : Outcome) : Outcome :=
  if o.completion.isAbrupt then o else ⟨o.page, o.trace, .returned .undefined⟩

/-- Property assignment on an object used as a map. -/
def assign {α : Type} (k : String) (v : α) : List (String × α) → List (String × α)
  | [] => [(k, v)]
  | e :: m => if e.1 = k then (k, v) :: m else e :: assign k v m

/-- The property names every object inherits from `Object.prototype`. What is
found under them is a function, or `Object.prototype` itself under
`__proto__`: never `undefined`, a string or an array of the page. -/
def objectPrototypeNames : List String :=
  ["constructor", "__defineGetter__", "__defineSetter__", "hasOwnProperty",
   "__lookupGetter__", "__lookupSetter__", "isPrototypeOf", "propertyIsEnumerable",
   "toString", "valueOf", "__proto__", "toLocaleString"]

/-- The property names of `Array.prototype` (ECMAScript 2023); what is found
under them is a function or a number. -/
def arrayPrototypeNames : List String :=
  ["at", "concat", "constructor", "copyWithin", "entries", "every", "fill", "filter", "find",
   "findIndex", "findLast", "findLastIndex", "flat", "flatMap", "forEach", "includes",
   "indexOf", "join", "keys", "lastIndexOf", "length", "map", "pop", "push", "reduce",
   "reduceRight", "reverse", "shift", "slice", "some", "sort", "splice", "toLocaleString",
   "toReversed", "toSorted", "toSpliced", "toString", "unshift", "values", "with"]

/-- The number a string of decimal digits denotes. -/
def decimal (cs : List Char) : Nat :=
  cs.foldl (fun n c => 10 * n + (c.toNat - '0'.toNat)) 0

/-- Whether the property name `att` is an index of an array of length `n`: a
decimal numeral without leading zero, below `n`. -/
def isIndexBelow (att : String) (n : Nat) : Bool :=
  match att.toList with
  | [] => false
  | c :: cs =>
    (c :: cs).all Char.isDigit && (c != '0' || cs.isEmpty) && decide (decimal (c :: cs) < n)

/-- The value stored under a field: the own property `att` of `atts`, and
`undefined` when there is none. In `atts` the entry under `__proto__`, if
any, is not an own property but the prototype of the object, once it was
replaced by an array (see `Page.store`); without such an entry the prototype is
`Object.prototype`. -/
def Page.att (pg : Page) (att : String) : Value :=
  (pg.atts.lookup att).getD .undefined

/-- Whether `atts` has no own property `att` but inherits one: from
`Object.prototype`, or, when the prototype of `atts` is an array, from that
array (`length`, its indices) and from `Array.prototype`. What is inherited
is a function, a number, a boolean or `Object.prototype`. -/
def Page.inherits (pg : Page) (att : String) : Bool :=
  decide (att ∈ objectPrototypeNames) ||
    match pg.atts.lookup "__proto__" with
    | some (.arr _ elems) =>
      att == "length" || isIndexBelow att elems.length || decide (att ∈ arrayPrototypeNames)
    | _ => false

/-- The test `this.atts[att] === value`, for `value` one of the values of the
page. An own property is compared; without one the property is looked up
along the prototype chain, where what is found is never equal to `value`, and
reads `undefined` when nothing is found. Under `__proto__` the prototype
itself is read. -/
def Page.holds (pg : Page) (att : String) (value : Value) : Bool :=
  match pg.atts.lookup att with
  | some v => strictEq v value
  | none => !pg.inherits att && strictEq .undefined value

/-- The assignment `this.atts[att] = value`. It creates or updates the own
property `att`, also when a property of that name is inherited. The name
`__proto__` is an accessor of `Object.prototype` instead: assigning an array
makes it the prototype of `atts`, assigning `undefined` or a string does
nothing. -/
def Page.store (att : String) (value : Value) (atts : List (String × Value)) :
    List (String × Value) :=
  if att = "__proto__" then
    match value with
    | .arr _ _ => assign att value atts
    | _ => atts
  else assign att value atts

/-- The state `new State()` creates, on a page where nothing else exists yet. -/
def State.new : Page where
  atts := [("username", .undefined), ("password", .undefined), ("confirm", .undefined),
    ("valid", .arr 0 [false])]
  listener := [("username", []), ("password", []), ("confirm", []), ("valid", [])]
  validatorInstance := false
  validatorPassword := .undefined
  validatorConfirm := .undefined
  hints := []
  button := none
  nextId := 1

/-- The method `State.addListener`. -/
def State.addListener (att : String) (listener : ListenerArg) (pg : Page) : Outcome :=
  match pg.listener.lookup att with
  | none => ⟨pg, [], .typeError⟩
  | some ls =>
    match listener with
    | .many xs => ⟨{ pg with listener := assign att (ls ++ xs) pg.listener }, [], .returned .state⟩
    | .one l => ⟨{ pg with listener := assign att (ls ++ [l]) pg.listener }, [], .returned .state⟩

/-- The method `State.addPasswordListener`. -/
def State.addPasswordListener (listener : ListenerArg) (pg : Page) : Outcome :=
  (State.addListener "password" listener pg).discard

/-- The method `State.addConfirmListener`. -/
def State.addConfirmListener (listener : ListenerArg) (pg : Page) : Outcome :=
  (State.addListener "confirm" listener pg).discard

/-- The method `State.addValidListener`. -/
def State.addValidListener (listener : ListenerArg) (pg : Page) : Outcome :=
  (State.addListener "valid" listener pg).discard

/-! ## Rule table and validator -/

/-- The table `Messages.en`. -/
def Messages.en : List (String × String) :=
  [("OK_LENGTH", "has a minimum length of 15 characters"),
   ("HAS_LOWER", "contains lower case characters [a-z]"),
   ("HAS_UPPER", "contains upper case characters [A-Z]"),
   ("HAS_NUMBER", "contains numbers [0-9]"),
   ("HAS_SPECIAL", "contains characters other than [a-z] [A-Z] [0-9]"),
   ("OK_CONFIRM", "confirmation and password are equal")]

/-- The check of a rule: a regular expression, a function (it may read the
page), or anything else. -/
inductive Check where
  | regExp (p : Pattern)
  | function (f : Page → Value → Bool)
  | other

/-- A rule: its name and its check. -/
abbrev Rule := String × Check

/-- The check of `OK_CONFIRM`:
`(expr) => expr !== '' && expr === State.getInstance().atts.confirm`. -/
def okConfirm (pg : Page) (expr : Value) : Bool :=
  !(strictEq expr (.str [])) && strictEq expr (pg.att "confirm")

/-- The pattern `/^.{15,200}$/`. -/
def reOkLength : Pattern := [.bol, .rep .dot 15 200, .eol]

/-- The pattern `/[a-z]/`. -/
def reHasLower : Pattern := [.atom (.cls false [('a'.toNat, 'z'.toNat)])]

/-- The pattern `/[A-Z]/`. -/
def reHasUpper : Pattern := [.atom (.cls false [('A'.toNat, 'Z'.toNat)])]

/-- The pattern `/\d/`. -/
def reHasNumber : Pattern := [.atom .digit]

/-- The pattern `/[^a-zA-Z0-9]/`. -/
def reHasSpecial : Pattern :=
  [.atom (.cls true [('a'.toNat, 'z'.toNat), ('A'.toNat, 'Z'.toNat), ('0'.toNat, '9'.toNat)])]

/-- The field `Validator.rules`. -/
def Validator.rules : List Rule :=
  [("OK_LENGTH", .regExp reOkLength),
   ("HAS_LOWER", .regExp reHasLower),
   ("HAS_UPPER", .regExp reHasUpper),
   ("HAS_NUMBER", .regExp reHasNumber),
   ("HAS_SPECIAL", .regExp reHasSpecial),
   ("OK_CONFIRM", .function okConfirm)]

/-- The method `Validator.checkRule`. `this.password.match` exists on strings
only: on any other value the call throws, reported as `none`. -/
def Validator.checkRule (pg : Page) (rule : Rule) : Option Bool :=
  match rule.2 with
  | .regExp p =>
    match pg.validatorPassword with
    | .str s => some (regexMatch p s)
    | _ => none
  | .function f => some (f pg pg.validatorPassword)
  | .other => some false

/-- The call `rules.map(f)`: in order, stopping at the first throw. -/
def mapRules (f : Rule → Option Bool) : List Rule → Option (List Bool)
  | [] => some []
  | r :: rs =>
    match f r with
    | none => none
    | some b =>
      match mapRules f rs with
      | none => none
      | some bs => some (b :: bs)

/-! ## Hint view and form controller -/

/-- The loop of `PasswordPolicyHint.validChanged`:
`valid.forEach((v, i) => this.hints[i].className = v ? 'valid' : 'invalid')`,
from index `i` on. Assigning to a property of the missing `this.hints[i]` throws. -/
def classify : List Bool → Nat → Page → Outcome
  | [], _, pg => ⟨pg, [], .returned .undefined⟩
  | v :: vs, i, pg =>
    match pg.hints[i]? with
    | none => ⟨pg, [], .typeError⟩
    | some h =>
      classify vs (i + 1)
        { pg with hints := pg.hints.set i { h with className := some (if v then "valid" else "invalid") } }

/-- The method `PasswordPolicyHint.validChanged`. -/
def PasswordPolicyHint.validChanged (valid : Value) (pg : Page) : Outcome :=
  match valid with
  | .arr _ elems => classify elems 0 pg
  | _ => ⟨pg, [], .typeError⟩

/-- The call `valid.reduce((a, o) => a && o)`: no initial value, so the empty
array throws, reported as `none`. -/
def reduceAnd : List Bool → Option Bool
  | [] => none
  | a :: rest => some (rest.foldl (fun a o => a && o) a)

/-- The method `FormUpdate.validChanged`. -/
def FormUpdate.validChanged (valid : Value) (pg : Page) : Outcome :=
  match valid with
  | .arr _ elems =>
    match reduceAnd elems with
    | none => ⟨pg, [], .typeError⟩
    | some b =>
      match pg.button with
      | none => ⟨pg, [], .typeError⟩
      | some _ =>
        if b then ⟨{ pg with button := some false }, [], .returned .undefined⟩
        else ⟨{ pg with button := some true }, [], .returned .undefined⟩
  | _ => ⟨pg, [], .typeError⟩

/-! ## Notification and `setValue` -/

/-- The method `Validator.checkValid`, with the store's `setValue` as `sv`:
`this.state.setValid(this.rules.map(this.checkRule.bind(this)))`. The mapped
array is a new object. -/
def Validator.checkValid (sv : String → Value → Page → Outcome) (pg : Page) : Outcome :=
  match mapRules (Validator.checkRule pg) Validator.rules with
  | none => ⟨pg, [], .typeError⟩
  | some vec => (sv "valid" (.arr pg.nextId vec) { pg with nextId := pg.nextId + 1 }).discard

/-- The method `Validator.passwordChanged`. -/
def Validator.passwordChanged (sv : String → Value → Page → Outcome) (value : Value)
    (pg : Page) : Outcome :=
  Validator.checkValid sv { pg with validatorPassword := value }

/-- The method `Validator.confirmChanged`. -/
def Validator.confirmChanged (sv : String → Value → Page → Outcome) (value : Value)
    (pg : Page) : Outcome :=
  Validator.checkValid sv { pg with validatorConfirm := value }

/-- A method body entered through a listener call: the call is recorded first. -/
def entered (l : Listener) (method : String) (value : Value) (o : Outcome) : Outcome :=
  ⟨o.page, .called l method value :: o.trace, o.completion⟩

/-- The call `listener[method](value)`. A listener without such a method makes
the call throw before anything runs. -/
def invoke (sv : String → Value → Page → Outcome) (l : Listener) (method : String)
    (value : Value) (pg : Page) : Outcome :=
  match l with
  | .validator =>
    if method = "passwordChanged" then
      entered l method value (Validator.passwordChanged sv value pg)
    else if method = "confirmChanged" then
      entered l method value (Validator.confirmChanged sv value pg)
    else ⟨pg, [], .typeError⟩
  | .hint =>
    if method = "validChanged" then
      entered l method value (PasswordPolicyHint.validChanged value pg)
    else ⟨pg, [], .typeError⟩
  | .form =>
    if method = "validChanged" then
      entered l method value (FormUpdate.validChanged value pg)
    else ⟨pg, [], .typeError⟩
  | .other _ methods =>
    if method ∈ methods then ⟨pg, [.called l method value], .returned .undefined⟩
    else ⟨pg, [], .typeError⟩

/-- The call `array.forEach(cb)`: in order, a throw ends the loop. -/
def forEach (cb : Listener → Page → Outcome) : List Listener → Page → Outcome
  | [], pg => ⟨pg, [], .returned .undefined⟩
  | l :: rest, pg => (cb l pg).andThen (forEach cb rest)

/-- The method `State.setValue`, with a budget for nested calls of itself
(a listener may call `setValue` again). Without an own property `att`,
`this.listener[att]` is `undefined` or something inherited from
`Object.prototype`, which has no `forEach`: the call throws either way. -/
def State.setValueN : Nat → String → Value → Page → Outcome
  | 0, _, _, pg => ⟨pg, [], .unfinished⟩
  | n + 1, att, value, pg =>
    if pg.holds att value then ⟨pg, [], .returned .undefined⟩
    else
      (⟨{ pg with atts := Page.store att value pg.atts }, [.stored att value],
          .returned .undefined⟩ : Outcome).andThen fun pg1 =>
        match pg1.listener.lookup att with
        | none => ⟨pg1, [], .typeError⟩
        | some ls =>
          ((forEach (fun l => invoke (State.setValueN n) l (att ++ "Changed") value) ls
            pg1).andThen fun pg2 => ⟨pg2, [], .returned .state⟩)

/-- The method `State.setValue`. Nesting never goes deeper than two calls
(see `setValueN_stable`). -/
def State.setValue (att : String) (value : Value) (pg : Page) : Outcome :=
  State.setValueN 2 att value pg

/-- The method `State.setUsername`. -/
def State.setUsername (value : Value) (pg : Page) : Outcome :=
  (State.setValue "username" value pg).discard

/-- The method `State.setPassword`. -/
def State.setPassword (value : Value) (pg : Page) : Outcome :=
  (State.setValue "password" value pg).discard

/-- The method `State.setConfirm`. -/
def State.setConfirm (value : Value) (pg : Page) : Outcome :=
  (State.setValue "confirm" value pg).discard

/-- The method `State.setValid`. -/
def State.setValid (value : Value) (pg : Page) : Outcome :=
  (State.setValue "valid" value pg).discard

/-! ## Construction of the objects -/

/-- The constructor of `Validator`. -/
def Validator.new (pg : Page) : Outcome :=
  (State.addPasswordListener (.one .validator) pg).andThen
    (State.addConfirmListener (.one .validator))

/-- The method `Validator.getInstance`:
`Validator.instance ?? (Validator.instance = new Validator())`. -/
def Validator.getInstance (pg : Page) : Outcome :=
  if pg.validatorInstance then ⟨pg, [], .returned .validator⟩
  else
    (Validator.new pg).andThen fun pg1 =>
      ⟨{ pg1 with validatorInstance := true }, [], .returned .validator⟩

/-- The constructor of `PasswordPolicyHint`. -/
def PasswordPolicyHint.new (pg : Page) : Outcome :=
  (Validator.getInstance pg).andThen fun pg1 =>
    State.addValidListener (.one .hint)
      { pg1 with hints := Validator.rules.map fun rule => ⟨Messages.en.lookup rule.1, none⟩ }

/-- The constructor of `FormUpdate`, up to the deferred wiring. -/
def FormUpdate.new (pg : Page) : Outcome :=
  State.addValidListener (.one .form) pg

/-- The method `FormUpdate.setItems`; `username` is what the page's username
field holds (the empty string when there is none). -/
def FormUpdate.setItems (username : JSString) (pg : Page) : Outcome :=
  (PasswordPolicyHint.new pg).andThen fun pg1 =>
    (State.setUsername (.str username) { pg1 with button := some true }).andThen fun pg2 =>
      (Validator.getInstance pg2).andThen fun pg3 => ⟨pg3, [], .returned .form⟩

/-- The method `FormUpdate.checkPolicy`, as far as the store is concerned:
`State.getInstance().setValue(att, value)`. -/
def FormUpdate.checkPolicy (att : String) (value : JSString) (pg : Page) : Outcome :=
  (State.setValue att (.str value) pg).discard

/-- The page once the update-password form is wired: `new FormUpdate(form)` on a
fresh store, then `setItems()`, which the constructor defers by 300 ms. -/
def wiredPage (username : JSString) : Page :=
  (FormUpdate.setItems username (FormUpdate.new State.new).page).page

/-- The page after a sequence of `setValue` calls with string values. -/
def runCalls : List (String × JSString) → Page → Page
  | [], pg => pg
  | (att, value) :: rest, pg => runCalls rest (State.setValue att (.str value) pg).page

/-! ## Auxiliary notions for the statements -/

/-- The vector `rules.map(checkRule)` yields when the validator holds the
string `p` as password and the store holds `c` as confirm. -/
def ruleVector (p : JSString) (c : Value) : List Bool :=
  [regexMatch reOkLength p, regexMatch reHasLower p, regexMatch reHasUpper p,
   regexMatch reHasNumber p, regexMatch reHasSpecial p,
   !(strictEq (.str p) (.str [])) && strictEq (.str p) c]

/-- The classes `PasswordPolicyHint.validChanged` gives the items for a vector. -/
def classesOf (vec : List Bool) : List (Option String) :=
  vec.map fun v => some (if v then "valid" else "invalid")

/-- A page with the listeners of the wired update-password form, and any
values, hint items and button state. -/
def wiredWith (u p c : Value) (vid : Nat) (vec : List Bool) (vp vc : Value)
    (hints : List Hint) (d : Bool) (next : Nat) : Page where
  atts := [("username", u), ("password", p), ("confirm", c), ("valid", .arr vid vec)]
  listener := [("username", []), ("password", [.validator]), ("confirm", [.validator]),
    ("valid", [.form, .hint])]
  validatorInstance := true
  validatorPassword := vp
  validatorConfirm := vc
  hints := hints
  button := some d
  nextId := next

/-- The elements of an array value (none for other values). -/
def Value.elems : Value → List Bool
  | .arr _ e => e
  | _ => []

/-- The wired page before any password was set. -/
def Unset (pg : Page) : Prop :=
  ∃ u c vid vec vc hints d next,
    pg = wiredWith u .undefined c vid vec .undefined vc hints d next ∧ vid < next ∧
      hints.length = 6

/-- The wired page once a password `s` is set: the stored vector is the one of
the stored pair, and hints and button reflect it. -/
def SetTo (s : JSString) (c : Value) (pg : Page) : Prop :=
  ∃ u vid vc hints next,
    pg = wiredWith u (.str s) c vid (ruleVector s c) (.str s) vc hints
        (!(ruleVector s c).all fun b => b) next ∧
      vid < next ∧ hints.length = 6 ∧
      hints.map (fun h => h.className) = classesOf (ruleVector s c)

/-- Whether an event is a call of the given method. -/
def Event.isCall (method : String) : Event → Bool
  | .called _ m _ => m == method
  | .stored _ _ => false

/-- The calls of the method `<att>Changed` in a trace, in order. -/
def callsOf (att : String) (tr : List Event) : List Event :=
  tr.filter (Event.isCall (att ++ "Changed"))

/-- Whether an event belongs to an update of `valid`: the store into `valid`
or a call of `validChanged`. -/
def Event.ofValid : Event → Bool
  | .stored a _ => a == "valid"
  | .called _ m _ => m == "validChanged"

/-- A completion that is neither `unfinished` nor a returned reference other
than `undefined`. -/
def Completion.plain (c : Completion) : Prop :=
  c = .returned .undefined ∨ c = .typeError

/-! ## Further notions for the statements -/

/-- Repeated calls of `Validator.getInstance()`: how each call ended, in order,
and the page they leave. -/
def Validator.getInstanceTimes : Nat → Page → List Completion × Page
  | 0, pg => ([], pg)
  | n + 1, pg =>
    ((Validator.getInstance pg).completion ::
        (Validator.getInstanceTimes n (Validator.getInstance pg).page).1,
      (Validator.getInstanceTimes n (Validator.getInstance pg).page).2)

/-- Whether `listener[method]` is a function. -/
def Listener.hasMethod : Listener → String → Bool
  | .validator, m => m == "passwordChanged" || m == "confirmChanged"
  | .hint, m => m == "validChanged"
  | .form, m => m == "validChanged"
  | .other _ ms, m => decide (m ∈ ms)

/-- The call `listener[att + 'Changed'](value)` that `setValue(att, value)` makes
on one listener. -/
def notify (att : String) (value : Value) (l : Listener) (pg : Page) : Outcome :=
  invoke State.setValue l (att ++ "Changed") value pg

/-- The page on which the entry at index `i` of `ls` is called by the loop of
`setValue(att, value)` that starts on `pg`: the page the calls of the
entries before it have left, one after the other. -/
def pageBefore (att : String) (value : Value) (ls : List Listener) (i : Nat) (pg : Page) :
    Page :=
  (ls.take i).foldl (fun p l => (notify att value l p).page) pg

/-- The wired page on which no password was ever set: the vector is still the
initial `[false]`, the button disabled, no hint classed. -/
def Pristine (pg : Page) : Prop :=
  ∃ u c vc hints,
    pg = wiredWith u .undefined c 0 [false] .undefined vc hints true 1 ∧
      hints.length = 6 ∧ ∀ h ∈ hints, h.className = none

/-! ## The part of the document the form controller moves -/

/-- The document as far as the reposition step goes: the child nodes of the
form, in order, and the child nodes of any other parent. A node is a number
and has at most one parent. -/
structure Dom where
  form : List Nat
  elsewhere : List Nat
  deriving DecidableEq, Repr

/-- The helper `remove`: `n.parentElement.removeChild(n)`; on a node without
parent the call throws, which is caught and ignored. -/
def remove (n : Nat) (d : Dom) : Dom :=
  ⟨d.form.filter (fun x => x != n), d.elsewhere.filter (fun x => x != n)⟩

/-- A child list with `n` put right before the first `ref`. -/
def insertBeforeIn (n ref : Nat) : List Nat → List Nat
  | [] => []
  | x :: xs => if x = ref then n :: x :: xs else x :: insertBeforeIn n ref xs

/-- The call `form.insertBefore(n, ref)` for `n` other than `ref`: it throws
(`none`) when `ref` is not a child of the form; otherwise `n` leaves its
former parent and becomes the child right before `ref`. -/
def Dom.insertBefore (n ref : Nat) (d : Dom) : Option Dom :=
  if ref ∈ d.form then
    some ⟨insertBeforeIn n ref (d.form.filter (fun x => x != n)),
      d.elsewhere.filter (fun x => x != n)⟩
  else none

/-- The first statement of `FormUpdate.checkPolicy`:
`form.insertBefore(remove(this.section.policy), this.section.submit)`. -/
def FormUpdate.reposition (policy submit : Nat) (d : Dom) : Option Dom :=
  (remove policy d).insertBefore policy submit

/-- The calls made on a given listener in a trace, in order. -/
def callsTo (l : Listener) (tr : List Event) : List Event :=
  tr.filter fun e =>
    match e with
    | .called l2 _ _ => l2 == l
    | .stored _ _ => false

/-- The stores into a given field in a trace, in order. -/
def storesOf (att : String) (tr : List Event) : List Event :=
  tr.filter fun e =>
    match e with
    | .stored a _ => a == att
    | .called _ _ _ => false

/-- Two wired pages that differ at most in the stored username. -/
def Alike (pg1 pg2 : Page) : Prop :=
  ∃ u1 u2 p c vid vec vp vc hints d next,
    pg1 = wiredWith u1 p c vid vec vp vc hints d next ∧
      pg2 = wiredWith u2 p c vid vec vp vc hints d next ∧
      vid < next ∧ hints.length = 6 ∧ (vp = .undefined ∨ ∃ s, vp = .str s)

/-! ## The engine of the second theme variant

The classes `State`, `Validator`, `PasswordPolicyHint` and `FormUpdate` of
`catenax-shared/login/resources/js/Main.js`, embedded from that file over the
same page type and the same semantics of the language (strict equality,
regular expressions, `map`, `forEach`, `reduce`). -/

namespace Shared

/-- The table `Messages.en`. -/
def Messages.en : List (String × String) :=
  [("OK_LENGTH", "has a minimum length of 15 characters"),
   ("HAS_LOWER", "contains lower case characters [a-z]"),
   ("HAS_UPPER", "contains upper case characters [A-Z]"),
   ("HAS_NUMBER", "contains numbers [0-9]"),
   ("HAS_SPECIAL", "contains characters other than [a-z] [A-Z] [0-9]"),
   ("OK_CONFIRM", "confirmation and password are equal")]

/-- The state `new State()` creates. -/
def State.new : Page where
  atts := [("username", .undefined), ("password", .undefined), ("confirm", .undefined),
    ("valid", .arr 0 [false])]
  listener := [("username", []), ("password", []), ("confirm", []), ("valid", [])]
  validatorInstance := false
  validatorPassword := .undefined
  validatorConfirm := .undefined
  hints := []
  button := none
  nextId := 1

/-- The method `State.addListener`. -/
def State.addListener (att : String) (listener : ListenerArg) (pg : Page) : Outcome :=
  match pg.listener.lookup att with
  | none => ⟨pg, [], .typeError⟩
  | some ls =>
    match listener with
    | .many xs => ⟨{ pg with listener := assign att (ls ++ xs) pg.listener }, [], .returned .state⟩
    | .one l => ⟨{ pg with listener := assign att (ls ++ [l]) pg.listener }, [], .returned .state⟩

/-- The method `State.addPasswordListener`. -/
def State.addPasswordListener (listener : ListenerArg) (pg : Page) : Outcome :=
  (State.addListener "password" listener pg).discard

/-- The method `State.addConfirmListener`. -/
def State.addConfirmListener (listener : ListenerArg) (pg : Page) : Outcome :=
  (State.addListener "confirm" listener pg).discard

/-- The method `State.addValidListener`. -/
def State.addValidListener (listener : ListenerArg) (pg : Page) : Outcome :=
  (State.addListener "valid" listener pg).discard

/-- The check of `OK_CONFIRM`:
`(expr) => expr !== '' && expr === State.getInstance().atts.confirm`. -/
def okConfirm (pg : Page) (expr : Value) : Bool :=
  !(strictEq expr (.str [])) && strictEq expr (pg.att "confirm")

/-- The field `Validator.rules`, with the patterns `/^.{15,200}$/`, `/[a-z]/`,
`/[A-Z]/`, `/\d/` and `/[^a-zA-Z0-9]/`. -/
def Validator.rules : List Rule :=
  [("OK_LENGTH", .regExp [.bol, .rep .dot 15 200, .eol]),
   ("HAS_LOWER", .regExp [.atom (.cls false [('a'.toNat, 'z'.toNat)])]),
   ("HAS_UPPER", .regExp [.atom (.cls false [('A'.toNat, 'Z'.toNat)])]),
   ("HAS_NUMBER", .regExp [.atom .digit]),
   ("HAS_SPECIAL", .regExp
      [.atom (.cls true [('a'.toNat, 'z'.toNat), ('A'.toNat, 'Z'.toNat), ('0'.toNat, '9'.toNat)])]),
   ("OK_CONFIRM", .function okConfirm)]

/-- The method `Validator.checkRule`. -/
def Validator.checkRule (pg : Page) (rule : Rule) : Option Bool :=
  match rule.2 with
  | .regExp p =>
    match pg.validatorPassword with
    | .str s => some (regexMatch p s)
    | _ => none
  | .function f => some (f pg pg.validatorPassword)
  | .other => some false

/-- The loop of `PasswordPolicyHint.validChanged`. -/
def classify : List Bool → Nat → Page → Outcome
  | [], _, pg => ⟨pg, [], .returned .undefined⟩
  | v :: vs, i, pg =>
    match pg.hints[i]? with
    | none => ⟨pg, [], .typeError⟩
    | some h =>
      classify vs (i + 1)
        { pg with hints := pg.hints.set i { h with className := some (if v then "valid" else "invalid") } }

/-- The method `PasswordPolicyHint.validChanged`. -/
def PasswordPolicyHint.validChanged (valid : Value) (pg : Page) : Outcome :=
  match valid with
  | .arr _ elems => classify elems 0 pg
  | _ => ⟨pg, [], .typeError⟩

/-- The method `FormUpdate.validChanged`. -/
def FormUpdate.validChanged (valid : Value) (pg : Page) : Outcome :=
  match valid with
  | .arr _ elems =>
    match reduceAnd elems with
    | none => ⟨pg, [], .typeError⟩
    | some b =>
      match pg.button with
      | none => ⟨pg, [], .typeError⟩
      | some _ =>
        if b then ⟨{ pg with button := some false }, [], .returned .undefined⟩
        else ⟨{ pg with button := some true }, [], .returned .undefined⟩
  | _ => ⟨pg, [], .typeError⟩

/-- The method `Validator.checkValid`, with the store's `setValue` as `sv`. -/
def Validator.checkValid (sv : String → Value → Page → Outcome) (pg : Page) : Outcome :=
  match mapRules (Validator.checkRule pg) Validator.rules with
  | none => ⟨pg, [], .typeError⟩
  | some vec => (sv "valid" (.arr pg.nextId vec) { pg with nextId := pg.nextId + 1 }).discard

/-- The method `Validator.passwordChanged`. -/
def Validator.passwordChanged (sv : String → Value → Page → Outcome) (value : Value)
    (pg : Page) : Outcome :=
  Validator.checkValid sv { pg with validatorPassword := value }

/-- The method `Validator.confirmChanged`. -/
def Validator.confirmChanged (sv : String → Value → Page → Outcome) (value : Value)
    (pg : Page) : Outcome :=
  Validator.checkValid sv { pg with validatorConfirm := value }

/-- The call `listener[method](value)`. -/
def invoke (sv : String → Value → Page → Outcome) (l : Listener) (method : String)
    (value : Value) (pg : Page) : Outcome :=
  match l with
  | .validator =>
    if method = "passwordChanged" then
      entered l method value (Validator.passwordChanged sv value pg)
    else if method = "confirmChanged" then
      entered l method value (Validator.confirmChanged sv value pg)
    else ⟨pg, [], .typeError⟩
  | .hint =>
    if method = "validChanged" then
      entered l method value (PasswordPolicyHint.validChanged value pg)
    else ⟨pg, [], .typeError⟩
  | .form =>
    if method = "validChanged" then
      entered l method value (FormUpdate.validChanged value pg)
    else ⟨pg, [], .typeError⟩
  | .other _ methods =>
    if method ∈ methods then ⟨pg, [.called l method value], .returned .undefined⟩
    else ⟨pg, [], .typeError⟩

/-- The method `State.setValue`, with a budget for nested calls of itself. -/
def State.setValueN : Nat → String → Value → Page → Outcome
  | 0, _, _, pg => ⟨pg, [], .unfinished⟩
  | n + 1, att, value, pg =>
    if pg.holds att value then ⟨pg, [], .returned .undefined⟩
    else
      (⟨{ pg with atts := Page.store att value pg.atts }, [.stored att value],
          .returned .undefined⟩ : Outcome).andThen fun pg1 =>
        match pg1.listener.lookup att with
        | none => ⟨pg1, [], .typeError⟩
        | some ls =>
          ((forEach (fun l => invoke (State.setValueN n) l (att ++ "Changed") value) ls
            pg1).andThen fun pg2 => ⟨pg2, [], .returned .state⟩)

/-- The method `State.setValue`. -/
def State.setValue (att : String) (value : Value) (pg : Page) : Outcome :=
  State.setValueN 2 att value pg

/-- The method `State.setUsername`. -/
def State.setUsername (value : Value) (pg : Page) : Outcome :=
  (State.setValue "username" value pg).discard

/-- The constructor of `Validator`. -/
def Validator.new (pg : Page) : Outcome :=
  (State.addPasswordListener (.one .validator) pg).andThen
    (State.addConfirmListener (.one .validator))

/-- The method `Validator.getInstance`. -/
def Validator.getInstance (pg : Page) : Outcome :=
  if pg.validatorInstance then ⟨pg, [], .returned .validator⟩
  else
    (Validator.new pg).andThen fun pg1 =>
      ⟨{ pg1 with validatorInstance := true }, [], .returned .validator⟩

/-- The constructor of `PasswordPolicyHint`. -/
def PasswordPolicyHint.new (pg : Page) : Outcome :=
  (Validator.getInstance pg).andThen fun pg1 =>
    State.addValidListener (.one .hint)
      { pg1 with hints := Validator.rules.map fun rule => ⟨Messages.en.lookup rule.1, none⟩ }

/-- The constructor of `FormUpdate`, up to the deferred wiring: after
`this.form = form` it subscribes to `valid`. -/
def FormUpdate.new (pg : Page) : Outcome :=
  State.addValidListener (.one .form) pg

/-- The method `FormUpdate.setItems`. -/
def FormUpdate.setItems (username : JSString) (pg : Page) : Outcome :=
  (PasswordPolicyHint.new pg).andThen fun pg1 =>
    (State.setUsername (.str username) { pg1 with button := some true }).andThen fun pg2 =>
      (Validator.getInstance pg2).andThen fun pg3 => ⟨pg3, [], .returned .form⟩

/-- The page of this variant once the update-password form is wired. -/
def wiredPage (username : JSString) : Page :=
  (FormUpdate.setItems username (FormUpdate.new State.new).page).page

end Shared

/-- The outcomes, in order, of a sequence of `setValue` calls with string
values, `sv` being the `setValue` of the variant. -/
def runOutcomes (sv : String → Value → Page → Outcome) :
    List (String × JSString) → Page → List Outcome
  | [], _ => []
  | (att, value) :: rest, pg =>
    sv att (.str value) pg :: runOutcomes sv rest (sv att (.str value) pg).page

/-! # Properties -/

/-! ## Property reads and assignments along the prototype chain -/

/-- None of the four fields is a property name the field map could inherit. -/
theorem inherits_field (pg : Page) (att : String)
    (h : att = "username" ∨ att = "password" ∨ att = "confirm" ∨ att = "valid") :
    pg.inherits att = false := by
  rcases h with rfl | rfl | rfl | rfl <;>
    · simp only [Page.inherits]
      split <;> rfl

/-- On the four fields the test of `setValue` compares the stored value. -/
theorem holds_field (pg : Page) (att : String) (value : Value)
    (h : att = "username" ∨ att = "password" ∨ att = "confirm" ∨ att = "valid") :
    pg.holds att value = strictEq (pg.att att) value := by
  simp only [Page.holds, Page.att]
  cases pg.atts.lookup att with
  | some v => rfl
  | none => simp [inherits_field pg att h]

theorem holds_own (pg : Page) (att : String) (value v : Value)
    (h : pg.atts.lookup att = some v) : pg.holds att value = strictEq v value := by
  simp [Page.holds, h]

theorem store_other (att : String) (value : Value) (atts : List (String × Value))
    (h : att ≠ "__proto__") : Page.store att value atts = assign att value atts := by
  simp [Page.store, h]

theorem field_ne_proto (att : String)
    (h : att = "username" ∨ att = "password" ∨ att = "confirm" ∨ att = "valid") :
    att ≠ "__proto__" := by
  rcases h with rfl | rfl | rfl | rfl <;> decide

/-- One step of `setValue` on one of the four fields. -/
theorem setValueN_field (n : Nat) (att : String) (value : Value) (pg : Page)
    (h : att = "username" ∨ att = "password" ∨ att = "confirm" ∨ att = "valid") :
    State.setValueN (n + 1) att value pg
      = if strictEq (pg.att att) value then ⟨pg, [], .returned .undefined⟩
        else
          (⟨{ pg with atts := assign att value pg.atts }, [.stored att value],
              .returned .undefined⟩ : Outcome).andThen fun pg1 =>
            match pg1.listener.lookup att with
            | none => ⟨pg1, [], .typeError⟩
            | some ls =>
              ((forEach (fun l => invoke (State.setValueN n) l (att ++ "Changed") value) ls
                pg1).andThen fun pg2 => ⟨pg2, [], .returned .state⟩) := by
  rw [State.setValueN, holds_field pg att value h, store_other att value _ (field_ne_proto att h)]

/-! ## The patterns of the rule table -/

theorem execFrom_atom (a : Atom) (idx : Nat) (s : JSString) :
    execFrom [.atom a] idx s = s.any a.test := by
  induction s generalizing idx with
  | nil => simp [execFrom, matchTerms]
  | cons c s ih => simp [execFrom, matchTerms, ih]

theorem regexMatch_atom (a : Atom) (s : JSString) :
    regexMatch [.atom a] s = s.any a.test :=
  execFrom_atom a 0 s

theorem repeat_dot_eol (k : Nat → JSString → Bool) (hk : ∀ i t, k i t = t.isEmpty)
    (min max idx : Nat) (s : JSString) :
    repeatAtom .dot k min max idx s
      = (decide (min ≤ s.length ∧ s.length ≤ max) && s.all fun c => !isLineTerminator c) := by
  induction max generalizing min idx s with
  | zero =>
    cases s with
    | nil => cases min <;> simp [repeatAtom, hk]
    | cons c s => simp [repeatAtom, hk]
  | succ max ih =>
    cases s with
    | nil => cases min <;> simp [repeatAtom, hk]
    | cons c s =>
      simp only [repeatAtom, ih, hk, List.isEmpty_cons, Bool.and_false,
        Bool.or_false, Atom.test, List.length_cons, List.all_cons]
      rw [Bool.eq_iff_iff]
      simp only [Bool.and_eq_true, decide_eq_true_eq]
      constructor
      · rintro ⟨h1, ⟨h2, h3⟩, h4⟩
        exact ⟨⟨by omega, by omega⟩, h1, h4⟩
      · rintro ⟨⟨h2, h3⟩, h1, h4⟩
        exact ⟨h1, ⟨by omega, by omega⟩, h4⟩

theorem execFrom_okLength_pos (idx : Nat) (s : JSString) :
    execFrom reOkLength (idx + 1) s = false := by
  induction s generalizing idx with
  | nil => simp [execFrom, matchTerms, reOkLength]
  | cons c s ih =>
    have := ih (idx + 1)
    simp [execFrom, this]
    simp [matchTerms, reOkLength]

theorem regexMatch_okLength (s : JSString) :
    regexMatch reOkLength s
      = (decide (15 ≤ s.length ∧ s.length ≤ 200) && s.all fun c => !isLineTerminator c) := by
  have h : matchTerms reOkLength 0 s
      = (decide (15 ≤ s.length ∧ s.length ≤ 200) && s.all fun c => !isLineTerminator c) := by
    simp only [reOkLength, matchTerms]
    rw [repeat_dot_eol _ (fun i t => by simp [matchTerms])]
    simp
  cases s with
  | nil => simpa [regexMatch, execFrom] using h
  | cons c s =>
    simp only [regexMatch, execFrom, execFrom_okLength_pos, Bool.or_false]
    exact h


theorem mapRules_checkRule (pg : Page) (p : JSString) (h : pg.validatorPassword = .str p) :
    mapRules (Validator.checkRule pg) Validator.rules = some (ruleVector p (pg.att "confirm")) := by
  simp [mapRules, Validator.rules, Validator.checkRule, h, okConfirm, ruleVector]

theorem mapRules_checkRule_undefined (pg : Page) (h : pg.validatorPassword = .undefined) :
    mapRules (Validator.checkRule pg) Validator.rules = none := by
  simp [mapRules, Validator.rules, Validator.checkRule, h]

theorem ruleVector_length (p : JSString) (c : Value) : (ruleVector p c).length = 6 := rfl

/-- The loop of the hint view on a vector no longer than the items left: the
items it reaches get their class, the others stay. -/
theorem classify_ok (vec : List Bool) (pre hs : List Hint) (pg : Page)
    (hh : pg.hints = pre ++ hs) (hlen : vec.length ≤ hs.length) :
    classify vec pre.length pg
      = ⟨{ pg with hints := pre ++ (List.zipWith
            (fun h v => { h with className := some (if v then "valid" else "invalid") }) hs vec
            ++ hs.drop vec.length) }, [], .returned .undefined⟩ := by
  induction vec generalizing pre hs pg with
  | nil => simp [classify, ← hh]
  | cons v vs ih =>
    cases hs with
    | nil => simp at hlen
    | cons h hs =>
      have h1 : pg.hints[pre.length]? = some h := by
        rw [hh, List.getElem?_append_right (le_refl _)]; simp
      simp only [classify, h1]
      have := ih (pre ++ [Hint.mk h.text (some (if v then "valid" else "invalid"))]) hs
        (Page.mk pg.atts pg.listener pg.validatorInstance pg.validatorPassword pg.validatorConfirm
          (pg.hints.set pre.length (Hint.mk h.text (some (if v then "valid" else "invalid"))))
          pg.button pg.nextId)
        (by simp [hh]) (by simpa using hlen)
      simp only [List.length_append, List.length_singleton] at this
      rw [this]
      simp

theorem valid_notify (u p c : Value) (vid : Nat) (vec0 : List Bool) (vp vc : Value)
    (hints : List Hint) (d : Bool) (next : Nat) (n : Nat) (vec : List Bool) (b : Bool)
    (hid : vid < next) (hlen : hints.length = vec.length) (hred : reduceAnd vec = some b) :
    State.setValueN (n + 1) "valid" (.arr next vec)
        (wiredWith u p c vid vec0 vp vc hints d (next + 1))
      = ⟨wiredWith u p c next vec vp vc
            (List.zipWith (fun h v => { h with className := some (if v then "valid" else "invalid") }) hints vec)
            (!b) (next + 1),
          [.stored "valid" (.arr next vec), .called .form "validChanged" (.arr next vec),
            .called .hint "validChanged" (.arr next vec)],
          .returned .state⟩ := by
  have hne : (vid == next) = false := by simp; omega
  have hc := fun pg hh => classify_ok vec [] hints pg hh (by omega)
  simp only [List.length_nil, List.nil_append] at hc
  cases b <;>
  simp [State.setValueN, Page.holds, Page.store,
    wiredWith, Page.att, List.lookup, strictEq, hne, assign, forEach, invoke,
    Outcome.andThen, entered, FormUpdate.validChanged, hred, PasswordPolicyHint.validChanged,
    Completion.isAbrupt, hc, hlen]


theorem foldl_and (a : Bool) (rest : List Bool) :
    rest.foldl (fun a o => a && o) a = (a && rest.all fun b => b) := by
  induction rest generalizing a with
  | nil => simp
  | cons o rest ih => simp [ih, Bool.and_assoc]

theorem reduceAnd_cons (a : Bool) (rest : List Bool) :
    reduceAnd (a :: rest) = some ((a :: rest).all fun b => b) := by
  simp [reduceAnd, foldl_and]

theorem reduceAnd_ruleVector (p : JSString) (c : Value) :
    reduceAnd (ruleVector p c) = some ((ruleVector p c).all fun b => b) :=
  reduceAnd_cons _ _

/-- A new password on a wired page: the validator stores the vector of the new
pair, the form sets the button and the hint view the classes. -/
theorem password_step (u p0 c : Value) (vid : Nat) (vec0 : List Bool) (vp vc : Value)
    (hints : List Hint) (d : Bool) (next : Nat) (s : JSString)
    (hid : vid < next) (hlen : hints.length = 6) (hp : strictEq p0 (.str s) = false) :
    State.setValue "password" (.str s) (wiredWith u p0 c vid vec0 vp vc hints d next)
      = ⟨wiredWith u (.str s) c next (ruleVector s c) (.str s) vc
            (List.zipWith (fun h v => { h with className := some (if v then "valid" else "invalid") })
              hints (ruleVector s c))
            (!(ruleVector s c).all fun b => b) (next + 1),
          [.stored "password" (.str s), .called .validator "passwordChanged" (.str s),
            .stored "valid" (.arr next (ruleVector s c)),
            .called .form "validChanged" (.arr next (ruleVector s c)),
            .called .hint "validChanged" (.arr next (ruleVector s c))],
          .returned .state⟩ := by
  have hne : ∀ a b, strictEq (.arr vid a) (.arr next b) = false := by
    intro a b; simp [strictEq]; omega
  have hc := fun pg hh => classify_ok (ruleVector s c) [] hints pg hh (by simp [hlen, ruleVector_length])
  simp only [List.length_nil, List.nil_append] at hc
  have hm := fun pg h => mapRules_checkRule pg s h
  have hred := reduceAnd_ruleVector s c
  cases hb : (ruleVector s c).all fun b => b <;> rw [hb] at hred <;>
  simp [State.setValue, State.setValueN, Page.holds, Page.store,
    wiredWith, Page.att, List.lookup, hp, hne, assign,
    forEach, invoke, Outcome.andThen, Outcome.discard, entered, FormUpdate.validChanged, hred,
    PasswordPolicyHint.validChanged, Validator.passwordChanged, Validator.checkValid,
    Completion.isAbrupt, hc, hm, hlen, ruleVector_length]


theorem confirm_step (u p0 c0 : Value) (vid : Nat) (vec0 : List Bool) (vc : Value)
    (hints : List Hint) (d : Bool) (next : Nat) (p t : JSString)
    (hid : vid < next) (hlen : hints.length = 6) (hp : strictEq c0 (.str t) = false) :
    State.setValue "confirm" (.str t) (wiredWith u p0 c0 vid vec0 (.str p) vc hints d next)
      = ⟨wiredWith u p0 (.str t) next (ruleVector p (.str t)) (.str p) (.str t)
            (List.zipWith (fun h v => { h with className := some (if v then "valid" else "invalid") })
              hints (ruleVector p (.str t)))
            (!(ruleVector p (.str t)).all fun b => b) (next + 1),
          [.stored "confirm" (.str t), .called .validator "confirmChanged" (.str t),
            .stored "valid" (.arr next (ruleVector p (.str t))),
            .called .form "validChanged" (.arr next (ruleVector p (.str t))),
            .called .hint "validChanged" (.arr next (ruleVector p (.str t)))],
          .returned .state⟩ := by
  have hne : ∀ a b, strictEq (.arr vid a) (.arr next b) = false := by
    intro a b; simp [strictEq]; omega
  have hc := fun pg hh =>
    classify_ok (ruleVector p (.str t)) [] hints pg hh (by simp [hlen, ruleVector_length])
  simp only [List.length_nil, List.nil_append] at hc
  have hm := fun pg h => mapRules_checkRule pg p h
  have hred := reduceAnd_ruleVector p (.str t)
  cases hb : (ruleVector p (.str t)).all fun b => b <;> rw [hb] at hred <;>
  simp [State.setValue, State.setValueN, Page.holds, Page.store,
    wiredWith, Page.att, List.lookup, hp, hne, assign,
    forEach, invoke, Outcome.andThen, Outcome.discard, entered, FormUpdate.validChanged, hred,
    PasswordPolicyHint.validChanged, Validator.confirmChanged, Validator.checkValid,
    Completion.isAbrupt, hc, hm, hlen, ruleVector_length]

theorem confirm_step_unset (u p0 c0 : Value) (vid : Nat) (vec0 : List Bool) (vc : Value)
    (hints : List Hint) (d : Bool) (next : Nat) (t : JSString)
    (hp : strictEq c0 (.str t) = false) :
    State.setValue "confirm" (.str t) (wiredWith u p0 c0 vid vec0 .undefined vc hints d next)
      = ⟨wiredWith u p0 (.str t) vid vec0 .undefined (.str t) hints d next,
          [.stored "confirm" (.str t), .called .validator "confirmChanged" (.str t)],
          .typeError⟩ := by
  have hm := fun pg h => mapRules_checkRule_undefined pg h
  simp [State.setValue, State.setValueN, Page.holds, Page.store,
    wiredWith, Page.att, List.lookup, hp, assign,
    forEach, invoke, Outcome.andThen, entered, Validator.confirmChanged, Validator.checkValid,
    Completion.isAbrupt, hm]

theorem setValue_same (att : String) (value : Value) (pg : Page)
    (h : pg.holds att value = true) :
    State.setValue att value pg = ⟨pg, [], .returned .undefined⟩ := by
  simp [State.setValue, State.setValueN, h]

theorem setValue_same_field (att : String) (value : Value) (pg : Page)
    (hk : att = "username" ∨ att = "password" ∨ att = "confirm" ∨ att = "valid")
    (h : strictEq (pg.att att) value = true) :
    State.setValue att value pg = ⟨pg, [], .returned .undefined⟩ :=
  setValue_same att value pg (by rw [holds_field pg att value hk]; exact h)

theorem strictEq_str (a b : JSString) : strictEq (.str a) (.str b) = true ↔ a = b := by
  simp [strictEq]

theorem classes_zipWith (hints : List Hint) (vec : List Bool) (h : hints.length = vec.length) :
    (List.zipWith (fun h v => ({ h with className := some (if v then "valid" else "invalid") } : Hint))
      hints vec).map (fun h => h.className) = classesOf vec := by
  induction hints generalizing vec with
  | nil => cases vec with
    | nil => rfl
    | cons v vs => simp at h
  | cons x xs ih =>
    cases vec with
    | nil => simp at h
    | cons v vs =>
      simp only [List.length_cons, Nat.add_right_cancel_iff] at h
      have := ih vs h
      simp [classesOf] at this ⊢
      exact this

theorem wiredPage_eq (u : JSString) : ∃ hints, hints.length = 6 ∧
    wiredPage u = wiredWith (.str u) .undefined .undefined 0 [false] .undefined .undefined
      hints true 1 := by
  refine ⟨_, ?_, rfl⟩
  rfl

theorem unset_wiredPage (u : JSString) : Unset (wiredPage u) := by
  obtain ⟨hints, hl, h⟩ := wiredPage_eq u
  exact ⟨_, _, _, _, _, _, _, _, h, by decide, hl⟩


theorem strictEq_self (v : Value) : strictEq v v = true := by
  cases v <;> simp [strictEq]

theorem strictEq_str_left (a : JSString) (c : Value) :
    strictEq c (.str a) = true ↔ c = .str a := by
  cases c <;> simp [strictEq]

theorem okConfirm_sixth (p : JSString) (c : Value) :
    (!(strictEq (.str p) (.str [])) && strictEq (.str p) c) = decide (p ≠ [] ∧ c = .str p) := by
  cases c with
  | undefined => simp [strictEq]
  | arr i e => simp [strictEq]
  | str t =>
    cases p with
    | nil => simp [strictEq]
    | cons a p =>
      have h : (t = a :: p) ↔ (a :: p = t) := ⟨fun h => h.symm, fun h => h.symm⟩
      simp [strictEq, h, beq_eq_decide]

theorem setTo_att (s : JSString) (c : Value) (pg : Page) (h : SetTo s c pg) :
    pg.att "password" = .str s ∧ pg.att "confirm" = c ∧
      (pg.att "valid").elems = ruleVector s c ∧
      pg.button = some (!(ruleVector s c).all fun b => b) ∧
      pg.hints.map (fun h => h.className) = classesOf (ruleVector s c) := by
  obtain ⟨u, vid, vc, hints, next, rfl, -, -, hcl⟩ := h
  exact ⟨rfl, rfl, rfl, rfl, hcl⟩

theorem password_from_unset (pg : Page) (s : JSString) (h : Unset pg) :
    SetTo s (pg.att "confirm") (State.setValue "password" (.str s) pg).page := by
  obtain ⟨u, c, vid, vec, vc, hints, d, next, rfl, hid, hl⟩ := h
  rw [password_step u .undefined c vid vec .undefined vc hints d next s hid hl rfl]
  exact ⟨_, _, _, _, _, rfl, by omega, by simp [hl, ruleVector_length],
    classes_zipWith _ _ (by simp [hl, ruleVector_length])⟩

theorem password_from_set (pg : Page) (s0 s : JSString) (c : Value) (h : SetTo s0 c pg) :
    SetTo s c (State.setValue "password" (.str s) pg).page := by
  obtain ⟨u, vid, vc, hints, next, rfl, hid, hl, hcl⟩ := h
  cases hs : strictEq (.str s0) (.str s) with
  | true =>
    rw [setValue_same _ _ _ (by simpa [Page.holds, wiredWith, Page.att, List.lookup] using hs)]
    obtain rfl := (strictEq_str _ _).1 hs
    exact ⟨_, _, _, _, _, rfl, hid, hl, hcl⟩
  | false =>
    rw [password_step _ _ _ _ _ _ _ _ _ _ _ hid hl hs]
    exact ⟨_, _, _, _, _, rfl, by omega, by simp [hl, ruleVector_length],
      classes_zipWith _ _ (by simp [hl, ruleVector_length])⟩

theorem confirm_from_set (pg : Page) (s t : JSString) (c : Value) (h : SetTo s c pg) :
    SetTo s (.str t) (State.setValue "confirm" (.str t) pg).page := by
  obtain ⟨u, vid, vc, hints, next, rfl, hid, hl, hcl⟩ := h
  cases hs : strictEq c (.str t) with
  | true =>
    rw [setValue_same _ _ _ (by simpa [Page.holds, wiredWith, Page.att, List.lookup] using hs)]
    obtain rfl := (strictEq_str_left _ _).1 hs
    exact ⟨_, _, _, _, _, rfl, hid, hl, hcl⟩
  | false =>
    rw [confirm_step _ _ _ _ _ _ _ _ _ _ _ hid hl hs]
    exact ⟨_, _, _, _, _, rfl, by omega, by simp [hl, ruleVector_length],
      classes_zipWith _ _ (by simp [hl, ruleVector_length])⟩

theorem confirm_from_unset (pg : Page) (t : JSString) (h : Unset pg) :
    Unset (State.setValue "confirm" (.str t) pg).page := by
  obtain ⟨u, c, vid, vec, vc, hints, d, next, rfl, hid, hl⟩ := h
  cases hs : strictEq c (.str t) with
  | true =>
    rw [setValue_same _ _ _ (by simpa [Page.holds, wiredWith, Page.att, List.lookup] using hs)]
    exact ⟨_, _, _, _, _, _, _, _, rfl, hid, hl⟩
  | false =>
    rw [confirm_step_unset _ _ _ _ _ _ _ _ _ _ hs]
    exact ⟨_, _, _, _, _, _, _, _, rfl, hid, hl⟩

theorem runCalls_set (calls : List (String × JSString))
    (h : ∀ x ∈ calls, x.1 = "password" ∨ x.1 = "confirm") (pg : Page) (s : JSString) (c : Value)
    (hs : SetTo s c pg) : ∃ s1 c1, SetTo s1 c1 (runCalls calls pg) := by
  induction calls generalizing pg s c with
  | nil => exact ⟨s, c, hs⟩
  | cons x rest ih =>
    obtain ⟨att, value⟩ := x
    have hrest : ∀ x ∈ rest, x.1 = "password" ∨ x.1 = "confirm" :=
      fun x hx => h x (List.mem_cons_of_mem _ hx)
    rcases h (att, value) (List.mem_cons_self _ _) with h1 | h1
    · simp only at h1; subst h1
      exact ih hrest _ _ _ (password_from_set pg s value c hs)
    · simp only at h1; subst h1
      exact ih hrest _ _ _ (confirm_from_set pg s value c hs)


/-! ## What the five patterns accept -/

theorem okLength_iff (p : JSString) :
    regexMatch reOkLength p = true ↔
      15 ≤ p.length ∧ p.length ≤ 200 ∧ ∀ c ∈ p, isLineTerminator c = false := by
  rw [regexMatch_okLength]
  simp [and_assoc]

theorem hasLower_iff (p : JSString) :
    regexMatch reHasLower p = true ↔ ∃ c ∈ p, 'a'.toNat ≤ c ∧ c ≤ 'z'.toNat := by
  simp [reHasLower, regexMatch_atom, Atom.test, inRanges]

theorem hasUpper_iff (p : JSString) :
    regexMatch reHasUpper p = true ↔ ∃ c ∈ p, 'A'.toNat ≤ c ∧ c ≤ 'Z'.toNat := by
  simp [reHasUpper, regexMatch_atom, Atom.test, inRanges]

theorem hasNumber_iff (p : JSString) :
    regexMatch reHasNumber p = true ↔ ∃ c ∈ p, '0'.toNat ≤ c ∧ c ≤ '9'.toNat := by
  simp [reHasNumber, regexMatch_atom, Atom.test]

theorem hasSpecial_iff (p : JSString) :
    regexMatch reHasSpecial p = true ↔
      ∃ c ∈ p, ¬('a'.toNat ≤ c ∧ c ≤ 'z'.toNat) ∧ ¬('A'.toNat ≤ c ∧ c ≤ 'Z'.toNat) ∧
        ¬('0'.toNat ≤ c ∧ c ≤ '9'.toNat) := by
  simp only [reHasSpecial, regexMatch_atom, Atom.test, inRanges, List.any_eq_true]
  constructor <;> rintro ⟨c, hc, h⟩ <;> refine ⟨c, hc, ?_⟩
  · simp at h ⊢; omega
  · simp at h ⊢; omega


theorem regex_eq_decide {b : Bool} {P : Prop} [Decidable P] (h : b = true ↔ P) :
    b = decide P := by
  rw [Bool.eq_iff_iff]; simp [h]

theorem runCalls_reach (calls : List (String × JSString))
    (h : ∀ x ∈ calls, x.1 = "password" ∨ x.1 = "confirm") (pg : Page)
    (hp : Unset pg ∨ ∃ s c, SetTo s c pg) :
    Unset (runCalls calls pg) ∨ ∃ s c, SetTo s c (runCalls calls pg) := by
  induction calls generalizing pg with
  | nil => exact hp
  | cons x rest ih =>
    obtain ⟨att, value⟩ := x
    have hrest : ∀ x ∈ rest, x.1 = "password" ∨ x.1 = "confirm" :=
      fun x hx => h x (List.mem_cons_of_mem _ hx)
    rcases h (att, value) (List.mem_cons_self _ _) with h1 | h1 <;> simp only at h1 <;> subst h1
    · rcases hp with hu | ⟨s, c, hs⟩
      · exact ih hrest _ (Or.inr ⟨_, _, password_from_unset pg value hu⟩)
      · exact ih hrest _ (Or.inr ⟨_, _, password_from_set pg s value c hs⟩)
    · rcases hp with hu | ⟨s, c, hs⟩
      · exact ih hrest _ (Or.inl (confirm_from_unset pg value hu))
      · exact ih hrest _ (Or.inr ⟨_, _, confirm_from_set pg s value c hs⟩)

/-- With no line terminator in the password, the conditions of the hint list
make every entry of the vector true and enable the submit button, in every
state reached from the wired page. -/
theorem strong_password_enables_submit (u : JSString) (calls : List (String × JSString))
    (h : ∀ x ∈ calls, x.1 = "password" ∨ x.1 = "confirm") (p : JSString)
    (hlen : 15 ≤ p.length ∧ p.length ≤ 200)
    (hlt : ∀ c ∈ p, isLineTerminator c = false)
    (hlower : ∃ c ∈ p, 'a'.toNat ≤ c ∧ c ≤ 'z'.toNat)
    (hupper : ∃ c ∈ p, 'A'.toNat ≤ c ∧ c ≤ 'Z'.toNat)
    (hdigit : ∃ c ∈ p, '0'.toNat ≤ c ∧ c ≤ '9'.toNat)
    (hspecial : ∃ c ∈ p, ¬('a'.toNat ≤ c ∧ c ≤ 'z'.toNat) ∧ ¬('A'.toNat ≤ c ∧ c ≤ 'Z'.toNat) ∧
      ¬('0'.toNat ≤ c ∧ c ≤ '9'.toNat)) :
    ((runCalls (calls ++ [("password", p), ("confirm", p)]) (wiredPage u)).att "valid").elems
        = [true, true, true, true, true, true] ∧
      (runCalls (calls ++ [("password", p), ("confirm", p)]) (wiredPage u)).button
        = some false := by
  have hrun : ∀ (a b : List (String × JSString)) (pg : Page),
      runCalls (a ++ b) pg = runCalls b (runCalls a pg) := by
    intro a b
    induction a with
    | nil => intro pg; rfl
    | cons x a ih => intro pg; obtain ⟨att, v⟩ := x; exact ih _
  have hset : ∃ c, SetTo p c (State.setValue "password" (.str p)
      (runCalls calls (wiredPage u))).page := by
    rcases runCalls_reach calls h _ (Or.inl (unset_wiredPage u)) with hu | ⟨s, c, hs⟩
    · exact ⟨_, password_from_unset _ p hu⟩
    · exact ⟨_, password_from_set _ s p c hs⟩
  obtain ⟨c, hc⟩ := hset
  have hfin := setTo_att _ _ _ (confirm_from_set _ p p c hc)
  have hv : ruleVector p (.str p) = [true, true, true, true, true, true] := by
    have h6 : p ≠ [] := by
      intro h0; rw [h0] at hlen; simp at hlen
    simp [ruleVector, (okLength_iff p).2 ⟨hlen.1, hlen.2, hlt⟩, (hasLower_iff p).2 hlower,
      (hasUpper_iff p).2 hupper, (hasNumber_iff p).2 hdigit, (hasSpecial_iff p).2 hspecial,
      okConfirm_sixth, h6]
  rw [hrun]
  simp only [runCalls]
  rw [hfin.2.2.1, hfin.2.2.2.1, hv]
  simp

/-- Claim C1, at a password with a line separator: `VeryStrongPass123` followed
by U+2028 has length 18 and a lower-case letter, an upper-case letter, a digit
and a character outside the three ranges; after `setValue('password', p)` and
`setValue('confirm', p)` on the wired page the stored vector is
`[false, true, true, true, true, true]` and the submit button still carries
`disabled`. -/
theorem c1_line_separator_password_keeps_submit_disabled :
    (utf16 "VeryStrongPass123" ++ [8232]).length = 18 ∧
    (∃ c ∈ utf16 "VeryStrongPass123" ++ [8232], 'a'.toNat ≤ c ∧ c ≤ 'z'.toNat) ∧
    (∃ c ∈ utf16 "VeryStrongPass123" ++ [8232], 'A'.toNat ≤ c ∧ c ≤ 'Z'.toNat) ∧
    (∃ c ∈ utf16 "VeryStrongPass123" ++ [8232], '0'.toNat ≤ c ∧ c ≤ '9'.toNat) ∧
    (∃ c ∈ utf16 "VeryStrongPass123" ++ [8232],
      ¬('a'.toNat ≤ c ∧ c ≤ 'z'.toNat) ∧ ¬('A'.toNat ≤ c ∧ c ≤ 'Z'.toNat) ∧
        ¬('0'.toNat ≤ c ∧ c ≤ '9'.toNat)) ∧
    ((runCalls [("password", utf16 "VeryStrongPass123" ++ [8232]),
        ("confirm", utf16 "VeryStrongPass123" ++ [8232])] (wiredPage [])).att "valid").elems
      = [false, true, true, true, true, true] ∧
    (runCalls [("password", utf16 "VeryStrongPass123" ++ [8232]),
        ("confirm", utf16 "VeryStrongPass123" ++ [8232])] (wiredPage [])).button
      = some true := by
  decide


/-- Claim C2: after `setValue('password', s0)` on the wired page followed by any
sequence of `setValue` calls on `password` and `confirm` with string values,
the stored password is a string `p` and the stored vector is, in this order,
the result of the five patterns of the rule table on `p` and whether `p` is
non-empty and equal to the stored confirm value. -/
theorem c2_vector_of_current_pair (u s0 : JSString) (calls : List (String × JSString))
    (h : ∀ x ∈ calls, x.1 = "password" ∨ x.1 = "confirm") :
    ∃ p, (runCalls (("password", s0) :: calls) (wiredPage u)).att "password" = .str p ∧
      ((runCalls (("password", s0) :: calls) (wiredPage u)).att "valid").elems
        = [regexMatch reOkLength p, regexMatch reHasLower p, regexMatch reHasUpper p,
            regexMatch reHasNumber p, regexMatch reHasSpecial p,
            decide (p ≠ [] ∧
              (runCalls (("password", s0) :: calls) (wiredPage u)).att "confirm" = .str p)] := by
  obtain ⟨p, c, hs⟩ := runCalls_set calls h _ s0 _ (password_from_unset _ s0 (unset_wiredPage u))
  obtain ⟨h1, h2, h3, -, -⟩ := setTo_att _ _ _ hs
  refine ⟨p, h1, ?_⟩
  simp only [runCalls] at h2 h3 ⊢
  subst h2
  rw [h3, ← okConfirm_sixth]
  rfl

/-- Claim C2, witness: password `short`, confirm never set. -/
theorem c2_witness_short :
    (∀ x ∈ ([] : List (String × JSString)), x.1 = "password" ∨ x.1 = "confirm") ∧
    (∃ p, (runCalls [("password", utf16 "short")] (wiredPage [])).att "password" = .str p ∧
      ((runCalls [("password", utf16 "short")] (wiredPage [])).att "valid").elems
        = [regexMatch reOkLength p, regexMatch reHasLower p, regexMatch reHasUpper p,
            regexMatch reHasNumber p, regexMatch reHasSpecial p,
            decide (p ≠ [] ∧
              (runCalls [("password", utf16 "short")] (wiredPage [])).att "confirm" = .str p)]) ∧
    ((runCalls [("password", utf16 "short")] (wiredPage [])).att "valid").elems
      = [false, true, false, false, false, false] :=
  ⟨by simp, c2_vector_of_current_pair [] (utf16 "short") [] (by simp), by decide⟩

/-- Claim C3, at a password with a line separator: `Abcdefgh1234567` followed by
U+2028 has length 16 and a character of each class, so with the confirm value
`x` it violates the confirmation rule only; the vector the validator stores is
`[false, true, true, true, true, false]`, false at index 0 as well as at 5. -/
theorem c3_line_separator_gives_two_false_entries :
    (utf16 "Abcdefgh1234567" ++ [8232]).length = 16 ∧
    (∃ c ∈ utf16 "Abcdefgh1234567" ++ [8232], 'a'.toNat ≤ c ∧ c ≤ 'z'.toNat) ∧
    (∃ c ∈ utf16 "Abcdefgh1234567" ++ [8232], 'A'.toNat ≤ c ∧ c ≤ 'Z'.toNat) ∧
    (∃ c ∈ utf16 "Abcdefgh1234567" ++ [8232], '0'.toNat ≤ c ∧ c ≤ '9'.toNat) ∧
    (∃ c ∈ utf16 "Abcdefgh1234567" ++ [8232],
      ¬('a'.toNat ≤ c ∧ c ≤ 'z'.toNat) ∧ ¬('A'.toNat ≤ c ∧ c ≤ 'Z'.toNat) ∧
        ¬('0'.toNat ≤ c ∧ c ≤ '9'.toNat)) ∧
    utf16 "Abcdefgh1234567" ++ [8232] ≠ utf16 "x" ∧
    ((Validator.checkValid State.setValue
        (runCalls [("password", utf16 "Abcdefgh1234567" ++ [8232]), ("confirm", utf16 "x")]
          (wiredPage []))).page.att "valid").elems
      = [false, true, true, true, true, false] := by
  decide

/-- Claim C4, at a string with a line separator: fifteen letters `a` followed
by U+2028 have length 16, and `checkRule` on the first rule of the table
(`OK_LENGTH`) returns false for it. -/
theorem c4_okLength_rejects_line_separator :
    (List.replicate 15 'a'.toNat ++ [8232]).length = 16 ∧
    Validator.rules[0]?.bind (Validator.checkRule
        { State.new with validatorPassword := .str (List.replicate 15 'a'.toNat ++ [8232]) })
      = some false := by
  decide

/-- What `checkRule` on `OK_LENGTH` computes: the length is between 15 and 200
and no code unit is a line terminator. -/
theorem checkRule_okLength (pg : Page) (p : JSString) :
    Validator.rules[0]?.bind (Validator.checkRule { pg with validatorPassword := .str p })
      = some (decide (15 ≤ p.length ∧ p.length ≤ 200 ∧ ∀ c ∈ p, isLineTerminator c = false)) := by
  simp only [Validator.rules, List.getElem?_cons_zero, Option.some_bind, Validator.checkRule]
  rw [regex_eq_decide (okLength_iff p)]

/-- Claim C5: for every string `p` held by the validator, whatever the rest of
the page, `checkRule` on the rules at index 1, 2 and 3 (`HAS_LOWER`,
`HAS_UPPER`, `HAS_NUMBER`) returns whether `p` has a code unit in `a`-`z`, in
`A`-`Z`, in `0`-`9`. -/
theorem c5_character_class_rules (pg : Page) (p : JSString) :
    Validator.rules[1]?.bind (Validator.checkRule { pg with validatorPassword := .str p })
        = some (decide (∃ c ∈ p, 'a'.toNat ≤ c ∧ c ≤ 'z'.toNat)) ∧
      Validator.rules[2]?.bind (Validator.checkRule { pg with validatorPassword := .str p })
        = some (decide (∃ c ∈ p, 'A'.toNat ≤ c ∧ c ≤ 'Z'.toNat)) ∧
      Validator.rules[3]?.bind (Validator.checkRule { pg with validatorPassword := .str p })
        = some (decide (∃ c ∈ p, '0'.toNat ≤ c ∧ c ≤ '9'.toNat)) := by
  refine ⟨?_, ?_, ?_⟩
  · simp only [Validator.rules, List.getElem?_cons_zero, List.getElem?_cons_succ,
      Option.some_bind, Validator.checkRule]
    rw [regex_eq_decide (hasLower_iff p)]
  · simp only [Validator.rules, List.getElem?_cons_zero, List.getElem?_cons_succ,
      Option.some_bind, Validator.checkRule]
    rw [regex_eq_decide (hasUpper_iff p)]
  · simp only [Validator.rules, List.getElem?_cons_zero, List.getElem?_cons_succ,
      Option.some_bind, Validator.checkRule]
    rw [regex_eq_decide (hasNumber_iff p)]

/-- Claim C6: for every string `p` held by the validator, `checkRule` on the
rule at index 4 (`HAS_SPECIAL`) returns whether `p` has a code unit outside
`a`-`z`, `A`-`Z` and `0`-`9`; a space, a line feed and the letter U+00E4 each
make it true. -/
theorem c6_special_rule (pg : Page) (p : JSString) :
    Validator.rules[4]?.bind (Validator.checkRule { pg with validatorPassword := .str p })
        = some (decide (∃ c ∈ p, ¬('a'.toNat ≤ c ∧ c ≤ 'z'.toNat) ∧
            ¬('A'.toNat ≤ c ∧ c ≤ 'Z'.toNat) ∧ ¬('0'.toNat ≤ c ∧ c ≤ '9'.toNat))) ∧
      Validator.rules[4]?.bind (Validator.checkRule { pg with validatorPassword := .str [32] })
        = some true ∧
      Validator.rules[4]?.bind (Validator.checkRule { pg with validatorPassword := .str [10] })
        = some true ∧
      Validator.rules[4]?.bind (Validator.checkRule { pg with validatorPassword := .str [228] })
        = some true := by
  refine ⟨?_, ?_, ?_, ?_⟩
  · simp only [Validator.rules, List.getElem?_cons_zero, List.getElem?_cons_succ,
      Option.some_bind, Validator.checkRule]
    rw [regex_eq_decide (hasSpecial_iff p)]
  all_goals
    simp only [Validator.rules, List.getElem?_cons_zero, List.getElem?_cons_succ,
      Option.some_bind, Validator.checkRule]
    decide


/-! ## The store as a map -/

theorem lookup_assign_same {α : Type} (k : String) (v : α) (m : List (String × α)) :
    (assign k v m).lookup k = some v := by
  induction m with
  | nil => simp [assign, List.lookup]
  | cons e m ih =>
    obtain ⟨k1, v1⟩ := e
    by_cases h : k1 = k
    · simp [assign, h, List.lookup]
    · have h2 : (k == k1) = false := by simpa using fun h3 => h h3.symm
      simp [assign, h, List.lookup, h2, ih]

theorem lookup_assign_other {α : Type} (k g : String) (v : α) (m : List (String × α))
    (hg : g ≠ k) : (assign k v m).lookup g = m.lookup g := by
  induction m with
  | nil =>
    have h2 : (g == k) = false := by simpa using hg
    simp [assign, List.lookup, h2]
  | cons e m ih =>
    obtain ⟨k1, v1⟩ := e
    by_cases h : k1 = k
    · subst h
      have h2 : (g == k1) = false := by simpa using hg
      simp [assign, List.lookup, h2]
    · simp only [assign, h, if_false, List.lookup, ih]

/-- Claim C7: for every string `p` held by the validator and every value `c`
stored as `confirm`, whatever the rest of the page (the validator's own copy
of confirm included), `checkRule` on the rule at index 5 (`OK_CONFIRM`) returns
whether `p` is not the empty string and `c` is the string `p`; so it is false
for the empty password whatever `c`, false for `Abcdef123456!@#` with confirm
the empty string and true with confirm the same string. -/
theorem c7_confirm_rule (pg : Page) (p : JSString) (c : Value) :
    Validator.rules[5]?.bind (Validator.checkRule
        { pg with validatorPassword := .str p, atts := assign "confirm" c pg.atts })
        = some (decide (p ≠ [] ∧ c = .str p)) ∧
      Validator.rules[5]?.bind (Validator.checkRule
        { pg with validatorPassword := .str [], atts := assign "confirm" c pg.atts })
        = some false ∧
      Validator.rules[5]?.bind (Validator.checkRule
        { pg with validatorPassword := .str (utf16 "Abcdef123456!@#"),
                  atts := assign "confirm" (.str []) pg.atts })
        = some false ∧
      Validator.rules[5]?.bind (Validator.checkRule
        { pg with validatorPassword := .str (utf16 "Abcdef123456!@#"),
                  atts := assign "confirm" (.str (utf16 "Abcdef123456!@#")) pg.atts })
        = some true := by
  have key : ∀ (q : JSString) (d : Value), Validator.rules[5]?.bind (Validator.checkRule
        { pg with validatorPassword := .str q, atts := assign "confirm" d pg.atts })
        = some (decide (q ≠ [] ∧ d = .str q)) := by
    intro q d
    simp only [Validator.rules, List.getElem?_cons_zero, List.getElem?_cons_succ,
      Option.some_bind, Validator.checkRule, okConfirm, Page.att, lookup_assign_same,
      Option.getD_some]
    rw [okConfirm_sixth]
  refine ⟨key p c, ?_, ?_, ?_⟩
  · rw [key]; simp
  · rw [key]; decide
  · rw [key]; decide

/-- Claim C8: when the value stored for `password` is already `v`,
`setValue('password', v)` returns `undefined` at once: the page (field values,
listener lists and everything else) is unchanged and the trace is empty, so no
listener was called. -/
theorem c8_same_password_is_noop (pg : Page) (v : Value) (h : pg.att "password" = v) :
    State.setValue "password" v pg = ⟨pg, [], .returned .undefined⟩ := by
  subst h
  exact setValue_same_field _ _ _ (Or.inr (Or.inl rfl)) (strictEq_self _)

/-- Claim C8, witness: the password `abc` set a second time on the wired page. -/
theorem c8_witness_abc :
    (State.setValue "password" (.str (utf16 "abc")) (wiredPage [])).page.att "password"
        = .str (utf16 "abc") ∧
      State.setValue "password" (.str (utf16 "abc"))
          (State.setValue "password" (.str (utf16 "abc")) (wiredPage [])).page
        = ⟨(State.setValue "password" (.str (utf16 "abc")) (wiredPage [])).page, [],
            .returned .undefined⟩ :=
  ⟨by decide, c8_same_password_is_noop _ _ (by decide)⟩


/-! ## Notification: what a call of `setValue` does to the trace -/

theorem classify_frame (vec : List Bool) (i : Nat) (pg : Page) :
    (classify vec i pg).trace = [] ∧ (classify vec i pg).page.atts = pg.atts ∧
      (classify vec i pg).completion.plain := by
  induction vec generalizing i pg with
  | nil => exact ⟨rfl, rfl, Or.inl rfl⟩
  | cons v vs ih =>
    unfold classify
    cases h : pg.hints[i]? with
    | none => exact ⟨rfl, rfl, Or.inr rfl⟩
    | some x => exact ih _ _

theorem hint_frame (value : Value) (pg : Page) :
    (PasswordPolicyHint.validChanged value pg).trace = [] ∧
      (PasswordPolicyHint.validChanged value pg).page.atts = pg.atts ∧
      (PasswordPolicyHint.validChanged value pg).completion.plain := by
  cases value with
  | arr i e => exact classify_frame e 0 pg
  | undefined => exact ⟨rfl, rfl, Or.inr rfl⟩
  | str s => exact ⟨rfl, rfl, Or.inr rfl⟩

theorem form_frame (value : Value) (pg : Page) :
    (FormUpdate.validChanged value pg).trace = [] ∧
      (FormUpdate.validChanged value pg).page.atts = pg.atts ∧
      (FormUpdate.validChanged value pg).completion.plain := by
  cases value with
  | undefined => exact ⟨rfl, rfl, Or.inr rfl⟩
  | str s => exact ⟨rfl, rfl, Or.inr rfl⟩
  | arr i e =>
    cases hr : reduceAnd e with
    | none => simp [FormUpdate.validChanged, hr, Completion.plain]
    | some b =>
      cases hb : pg.button with
      | none => simp [FormUpdate.validChanged, hr, hb, Completion.plain]
      | some d => cases b <;> simp [FormUpdate.validChanged, hr, hb, Completion.plain]

/-- A call of `validChanged` on any listener: at most the call itself is
recorded, the field values stay, and `setValue` is not called again. -/
theorem invoke_valid (sv : String → Value → Page → Outcome) (l : Listener) (value : Value)
    (pg : Page) :
    ((invoke sv l "validChanged" value pg).trace = [] ∨
        (invoke sv l "validChanged" value pg).trace = [.called l "validChanged" value]) ∧
      (invoke sv l "validChanged" value pg).page.atts = pg.atts ∧
      (invoke sv l "validChanged" value pg).completion.plain := by
  cases l with
  | validator => simp [invoke, Completion.plain]
  | hint =>
    obtain ⟨h1, h2, h3⟩ := hint_frame value pg
    simp [invoke, entered, h1, h2, h3]
  | form =>
    obtain ⟨h1, h2, h3⟩ := form_frame value pg
    simp [invoke, entered, h1, h2, h3]
  | other i ms =>
    by_cases h : "validChanged" ∈ ms <;> simp [invoke, h, Completion.plain]

theorem invoke_valid_indep (sv sv2 : String → Value → Page → Outcome) (l : Listener)
    (value : Value) (pg : Page) :
    invoke sv l "validChanged" value pg = invoke sv2 l "validChanged" value pg := by
  cases l <;> simp [invoke]

theorem forEach_valid (sv : String → Value → Page → Outcome) (value : Value)
    (ls : List Listener) (pg : Page) :
    (∀ e ∈ (forEach (fun l => invoke sv l "validChanged" value) ls pg).trace,
        e.ofValid = true) ∧
      (forEach (fun l => invoke sv l "validChanged" value) ls pg).page.atts = pg.atts ∧
      (forEach (fun l => invoke sv l "validChanged" value) ls pg).completion.plain := by
  induction ls generalizing pg with
  | nil => exact ⟨by simp [forEach], rfl, Or.inl rfl⟩
  | cons l rest ih =>
    obtain ⟨h1, h2, h3⟩ := invoke_valid sv l value pg
    obtain ⟨i1, i2, i3⟩ := ih (invoke sv l "validChanged" value pg).page
    have ht : ∀ e ∈ (invoke sv l "validChanged" value pg).trace, e.ofValid = true := by
      intro e he
      rcases h1 with h1 | h1 <;> rw [h1] at he
      · simp at he
      · simp at he; subst he; rfl
    simp only [forEach, Outcome.andThen]
    rcases h3 with h3 | h3
    · simp only [h3, Completion.isAbrupt, Bool.false_eq_true, if_false]
      refine ⟨?_, i2.trans h2, i3⟩
      intro e he
      rcases List.mem_append.1 he with he | he
      · exact ht e he
      · exact i1 e he
    · simp only [h3, Completion.isAbrupt, if_true]
      exact ⟨ht, h2, Or.inr rfl⟩


theorem att_assign_other (pg : Page) (k g : String) (v : Value) (hg : g ≠ k) :
    ({ pg with atts := assign k v pg.atts } : Page).att g = pg.att g := by
  simp [Page.att, lookup_assign_other k g v pg.atts hg]

theorem att_of_atts (pg pg2 : Page) (g : String) (h : pg2.atts = pg.atts) :
    pg2.att g = pg.att g := by
  simp [Page.att, h]

/-- An update of `valid`, at any nesting budget: only events of `valid`, the
other field values stay, and the call returns or throws. -/
theorem setValid_frame (n : Nat) (value : Value) (pg : Page) :
    (∀ e ∈ (State.setValueN (n + 1) "valid" value pg).trace, e.ofValid = true) ∧
      (∀ g, g ≠ "valid" → (State.setValueN (n + 1) "valid" value pg).page.att g = pg.att g) ∧
      ((State.setValueN (n + 1) "valid" value pg).completion = .returned .undefined ∨
        (State.setValueN (n + 1) "valid" value pg).completion = .returned .state ∨
        (State.setValueN (n + 1) "valid" value pg).completion = .typeError) := by
  rw [setValueN_field n "valid" value pg (by simp)]
  by_cases hs : strictEq (pg.att "valid") value = true
  · simp [hs]
  · simp only [hs, if_false, Outcome.andThen, Completion.isAbrupt, Bool.false_eq_true]
    cases hl : (pg.listener.lookup "valid") with
    | none =>
      simp only [hl]
      refine ⟨by simp [Event.ofValid], fun g hg => att_assign_other pg _ g _ hg, by simp⟩
    | some ls =>
      simp only [hl]
      obtain ⟨f1, f2, f3⟩ := forEach_valid (State.setValueN n) value ls
        { pg with atts := assign "valid" value pg.atts }
      have e1 : "valid" ++ "Changed" = "validChanged" := by decide
      rw [e1]
      rcases f3 with f3 | f3
      · simp only [f3, Completion.isAbrupt, Bool.false_eq_true, if_false]
        refine ⟨?_, ?_, by simp⟩
        · intro e he
          simp only [List.append_nil, List.singleton_append, List.mem_cons] at he
          rcases he with he | he
          · subst he; rfl
          · exact f1 e he
        · intro g hg
          rw [att_of_atts _ _ g f2]
          exact att_assign_other pg _ g _ hg
      · simp only [f3, Completion.isAbrupt, if_true]
        refine ⟨?_, ?_, by simp⟩
        · intro e he
          simp only [List.singleton_append, List.mem_cons] at he
          rcases he with he | he
          · subst he; rfl
          · exact f1 e he
        · intro g hg
          rw [att_of_atts _ _ g f2]
          exact att_assign_other pg _ g _ hg


theorem checkValid_frame (n : Nat) (pg : Page) :
    (∀ e ∈ (Validator.checkValid (State.setValueN (n + 1)) pg).trace, e.ofValid = true) ∧
      (∀ g, g ≠ "valid" →
        (Validator.checkValid (State.setValueN (n + 1)) pg).page.att g = pg.att g) ∧
      (Validator.checkValid (State.setValueN (n + 1)) pg).completion.plain := by
  unfold Validator.checkValid
  cases mapRules (Validator.checkRule pg) Validator.rules with
  | none => exact ⟨by simp, fun _ _ => rfl, Or.inr rfl⟩
  | some vec =>
    obtain ⟨h1, h2, h3⟩ := setValid_frame n (.arr pg.nextId vec) { pg with nextId := pg.nextId + 1 }
    simp only [Outcome.discard]
    rcases h3 with h3 | h3 | h3 <;> simp only [h3, Completion.isAbrupt, Bool.false_eq_true,
      if_false, if_true]
    · exact ⟨h1, h2, Or.inl rfl⟩
    · exact ⟨h1, h2, Or.inl rfl⟩
    · exact ⟨h1, h2, Or.inr rfl⟩

theorem callsOf_ofValid (tr : List Event) (m : String) (h : ∀ e ∈ tr, e.ofValid = true)
    (hm : m ≠ "validChanged") : tr.filter (Event.isCall m) = [] := by
  rw [List.filter_eq_nil_iff]
  intro e he
  have := h e he
  cases e with
  | stored a v => simp [Event.isCall]
  | called l m2 v =>
    simp only [Event.ofValid, beq_iff_eq] at this
    subst this
    simpa [Event.isCall] using fun h2 => hm h2.symm

/-- One listener call made by `setValue(att, value)`: either the listener has
no such method and the call throws at once, or the call is recorded once; the
events of a nested update of `valid` are not calls of `<att>Changed`, and the
value of `att` stays. -/
theorem invoke_field (n : Nat) (l : Listener) (att : String) (value : Value) (pg : Page) :
    ((callsOf att (invoke (State.setValueN (n + 1)) l (att ++ "Changed") value pg).trace = [] ∧
          (invoke (State.setValueN (n + 1)) l (att ++ "Changed") value pg).completion
            = .typeError) ∨
        (callsOf att (invoke (State.setValueN (n + 1)) l (att ++ "Changed") value pg).trace
            = [.called l (att ++ "Changed") value] ∧
          (invoke (State.setValueN (n + 1)) l (att ++ "Changed") value pg).completion.plain)) ∧
      (invoke (State.setValueN (n + 1)) l (att ++ "Changed") value pg).page.att att
        = pg.att att := by
  have hv : att = "valid" → att ++ "Changed" = "validChanged" := by
    intro h; subst h; decide
  cases l with
  | other i ms =>
    by_cases h : att ++ "Changed" ∈ ms
    · simp [invoke, h, callsOf, Event.isCall, Completion.plain]
    · simp [invoke, h, callsOf]
  | hint =>
    by_cases h : att ++ "Changed" = "validChanged"
    · obtain ⟨h1, h2, h3⟩ := hint_frame value pg
      simp only [invoke, h, if_true, entered, h1, callsOf]
      exact ⟨Or.inr ⟨by simp [Event.isCall], h3⟩, att_of_atts _ _ _ h2⟩
    · simp [invoke, h, callsOf]
  | form =>
    by_cases h : att ++ "Changed" = "validChanged"
    · obtain ⟨h1, h2, h3⟩ := form_frame value pg
      simp only [invoke, h, if_true, entered, h1, callsOf]
      exact ⟨Or.inr ⟨by simp [Event.isCall], h3⟩, att_of_atts _ _ _ h2⟩
    · simp [invoke, h, callsOf]
  | validator =>
    by_cases h : att ++ "Changed" = "passwordChanged"
    · have hne : att ≠ "valid" := fun h2 => by rw [hv h2] at h; revert h; decide
      obtain ⟨h1, h2, h3⟩ := checkValid_frame n { pg with validatorPassword := value }
      simp only [invoke, h, if_true, entered, Validator.passwordChanged, callsOf]
      refine ⟨Or.inr ⟨?_, h3⟩, h2 att hne⟩
      rw [List.filter_cons]
      simp only [Event.isCall, beq_self_eq_true, if_true]
      rw [callsOf_ofValid _ _ h1 (by decide)]
    · by_cases h4 : att ++ "Changed" = "confirmChanged"
      · have hne : att ≠ "valid" := fun h2 => by rw [hv h2] at h4; revert h4; decide
        obtain ⟨h1, h2, h3⟩ := checkValid_frame n { pg with validatorConfirm := value }
        simp only [invoke, h4, if_true, entered, Validator.confirmChanged, callsOf]
        refine ⟨Or.inr ⟨?_, h3⟩, h2 att hne⟩
        rw [if_neg (by decide), List.filter_cons]
        simp only [Event.isCall, beq_self_eq_true, if_true]
        rw [callsOf_ofValid _ _ h1 (by decide)]
      · simp [invoke, h, h4, callsOf]


/-- Claim C9 fails as stated: on the wired page with one more listener of
`confirm` registered after the validator, and no password set yet,
`setValue('confirm', 'x')` stores the value and calls the validator, whose
`confirmChanged` throws; the second listener is not called and `setValue`
does not return. -/
theorem c9_counterexample_second_listener_skipped :
    (State.addListener "confirm" (.one (.other 1 ["confirmChanged"]))
        (wiredPage [])).page.listener.lookup "confirm"
      = some [.validator, .other 1 ["confirmChanged"]] ∧
    strictEq ((State.addListener "confirm" (.one (.other 1 ["confirmChanged"]))
        (wiredPage [])).page.att "confirm") (.str (utf16 "x")) = false ∧
    callsOf "confirm" (State.setValue "confirm" (.str (utf16 "x"))
        (State.addListener "confirm" (.one (.other 1 ["confirmChanged"]))
          (wiredPage [])).page).trace
      = [.called .validator "confirmChanged" (.str (utf16 "x"))] ∧
    callsOf "confirm" (State.setValue "confirm" (.str (utf16 "x"))
        (State.addListener "confirm" (.one (.other 1 ["confirmChanged"]))
          (wiredPage [])).page).trace
      ≠ [Listener.validator, .other 1 ["confirmChanged"]].map
          (fun l => Event.called l "confirmChanged" (.str (utf16 "x"))) ∧
    (State.setValue "confirm" (.str (utf16 "x"))
        (State.addListener "confirm" (.one (.other 1 ["confirmChanged"]))
          (wiredPage [])).page).completion
      = .typeError := by
  decide

/-- Claim C10: on a field `att` with listener list `ls`, `addListener(att, l)`
makes the list `ls` followed by `l`, and `addListener(att, xs)` with an array
makes it `ls` followed by the elements of `xs` in their order; the lists of
the other fields and all field values are unchanged, nothing is notified and
the store is returned. -/
theorem c10_addListener_appends (pg : Page) (att : String) (ls : List Listener)
    (hls : pg.listener.lookup att = some ls) (l : Listener) (xs : List Listener) :
    ((State.addListener att (.one l) pg).page.listener.lookup att = some (ls ++ [l]) ∧
      (∀ g, g ≠ att → (State.addListener att (.one l) pg).page.listener.lookup g
          = pg.listener.lookup g) ∧
      (State.addListener att (.one l) pg).page.atts = pg.atts ∧
      (State.addListener att (.one l) pg).trace = [] ∧
      (State.addListener att (.one l) pg).completion = .returned .state) ∧
    ((State.addListener att (.many xs) pg).page.listener.lookup att = some (ls ++ xs) ∧
      (∀ g, g ≠ att → (State.addListener att (.many xs) pg).page.listener.lookup g
          = pg.listener.lookup g) ∧
      (State.addListener att (.many xs) pg).page.atts = pg.atts ∧
      (State.addListener att (.many xs) pg).trace = [] ∧
      (State.addListener att (.many xs) pg).completion = .returned .state) := by
  simp only [State.addListener, hls]
  exact ⟨⟨lookup_assign_same _ _ _, fun g hg => lookup_assign_other _ _ _ _ hg, trivial, trivial,
      trivial⟩,
    ⟨lookup_assign_same _ _ _, fun g hg => lookup_assign_other _ _ _ _ hg, trivial, trivial,
      trivial⟩⟩

/-- Claim C10, witness: the validator added once more to `password` on the wired
page, singly and inside an array together with another object. -/
theorem c10_witness_duplicate_kept :
    (wiredPage []).listener.lookup "password" = some [.validator] ∧
    (State.addListener "password" (.one .validator) (wiredPage [])).page.listener.lookup
        "password" = some ([.validator] ++ [.validator]) ∧
    (State.addListener "password" (.many [.other 7 [], .validator])
        (wiredPage [])).page.listener.lookup "password"
      = some ([.validator] ++ [.other 7 [], .validator]) :=
  ⟨by decide,
    (c10_addListener_appends (wiredPage []) "password" [.validator] (by decide) .validator
      [.other 7 [], .validator]).1.1,
    (c10_addListener_appends (wiredPage []) "password" [.validator] (by decide) .validator
      [.other 7 [], .validator]).2.1⟩

/-! ## The nesting budget is never exhausted -/

theorem setValid_stable (n : Nat) (value : Value) (pg : Page) :
    State.setValueN (n + 1) "valid" value pg = State.setValueN 1 "valid" value pg := by
  have e1 : "valid" ++ "Changed" = "validChanged" := by decide
  have e2 : (fun l => invoke (State.setValueN n) l ("valid" ++ "Changed") value)
      = (fun l => invoke (State.setValueN 0) l ("valid" ++ "Changed") value) := by
    funext l pg1
    rw [e1]
    exact invoke_valid_indep _ _ l value pg1
  simp only [State.setValueN, Page.holds, Page.store, e2]

theorem invoke_stable (n : Nat) (l : Listener) (method : String) (value : Value) (pg : Page) :
    invoke (State.setValueN (n + 1)) l method value pg
      = invoke (State.setValueN 1) l method value pg := by
  cases l <;>
    simp only [invoke, Validator.passwordChanged, Validator.confirmChanged,
      Validator.checkValid, setValid_stable n]

theorem setValueN_succ (n : Nat) (att : String) (value : Value) (pg : Page) :
    State.setValueN (n + 1) att value pg
      = if pg.holds att value then ⟨pg, [], .returned .undefined⟩
        else
          (⟨{ pg with atts := Page.store att value pg.atts }, [.stored att value],
              .returned .undefined⟩ : Outcome).andThen fun pg1 =>
            match pg1.listener.lookup att with
            | none => ⟨pg1, [], .typeError⟩
            | some ls =>
              ((forEach (fun l => invoke (State.setValueN n) l (att ++ "Changed") value) ls
                pg1).andThen fun pg2 => ⟨pg2, [], .returned .state⟩) := by
  rw [State.setValueN]

/-- A budget of two nested calls is all `setValue` ever uses. -/
theorem setValueN_stable (n : Nat) (att : String) (value : Value) (pg : Page) :
    State.setValueN (n + 2) att value pg = State.setValue att value pg := by
  have e2 : (fun l => invoke (State.setValueN (n + 1)) l (att ++ "Changed") value)
      = (fun l => invoke (State.setValueN 1) l (att ++ "Changed") value) := by
    funext l pg1
    exact invoke_stable n l _ value pg1
  show State.setValueN (n + 1 + 1) att value pg = State.setValueN (1 + 1) att value pg
  rw [setValueN_succ, setValueN_succ, e2]

/-! ## Notification, call by call -/

theorem invoke_missing (sv : String → Value → Page → Outcome) (l : Listener) (method : String)
    (value : Value) (pg : Page) (h : l.hasMethod method = false) :
    invoke sv l method value pg = ⟨pg, [], .typeError⟩ := by
  cases l with
  | validator =>
    simp only [Listener.hasMethod, Bool.or_eq_false_iff, beq_eq_false_iff_ne, ne_eq] at h
    simp [invoke, h.1, h.2]
  | hint =>
    simp only [Listener.hasMethod, beq_eq_false_iff_ne, ne_eq] at h
    simp [invoke, h]
  | form =>
    simp only [Listener.hasMethod, beq_eq_false_iff_ne, ne_eq] at h
    simp [invoke, h]
  | other i ms =>
    simp only [Listener.hasMethod, decide_eq_false_iff_not] at h
    simp [invoke, h]

theorem andThen_assoc (o : Outcome) (f g : Page → Outcome) :
    (o.andThen f).andThen g = o.andThen fun p => (f p).andThen g := by
  simp only [Outcome.andThen]
  cases ho : o.completion.isAbrupt
  · cases hf : (f o.page).completion.isAbrupt <;> simp [ho, hf, List.append_assoc]
  · simp [ho]

theorem forEach_append (cb : Listener → Page → Outcome) (a b : List Listener) (pg : Page) :
    forEach cb (a ++ b) pg = (forEach cb a pg).andThen (forEach cb b) := by
  induction a generalizing pg with
  | nil => simp [forEach, Outcome.andThen, Completion.isAbrupt]
  | cons l a ih =>
    simp only [List.cons_append, forEach]
    rw [andThen_assoc]
    congr 1
    funext p
    exact ih p


theorem notify_eq (att : String) (value : Value) :
    (fun l => invoke (State.setValueN 1) l (att ++ "Changed") value) = notify att value := by
  funext l pg
  exact (invoke_stable 1 l _ value pg).symm

/-- A listener that has the method is called: the call is the first event. -/
theorem invoke_has (sv : String → Value → Page → Outcome) (l : Listener) (method : String)
    (value : Value) (pg : Page) (h : l.hasMethod method = true) :
    (invoke sv l method value pg).trace.head? = some (.called l method value) := by
  cases l with
  | validator =>
    simp only [Listener.hasMethod, Bool.or_eq_true, beq_iff_eq] at h
    rcases h with h | h <;> subst h <;> simp [invoke, entered]
  | hint =>
    simp only [Listener.hasMethod, beq_iff_eq] at h
    subst h
    simp [invoke, entered]
  | form =>
    simp only [Listener.hasMethod, beq_iff_eq] at h
    subst h
    simp [invoke, entered]
  | other i ms =>
    simp only [Listener.hasMethod, decide_eq_true_eq] at h
    simp [invoke, h]

/-- One listener call of `setValue(att, value)`: a listener with the method is
called once and the call returns or throws; one without it makes the call
throw with nothing done; the value of `att` stays either way. -/
theorem notify_call (att : String) (value : Value) (l : Listener) (pg : Page) :
    (l.hasMethod (att ++ "Changed") = true →
        callsOf att (notify att value l pg).trace = [.called l (att ++ "Changed") value] ∧
          (notify att value l pg).completion.plain) ∧
      (l.hasMethod (att ++ "Changed") = false → notify att value l pg = ⟨pg, [], .typeError⟩) ∧
      (notify att value l pg).page.att att = pg.att att := by
  obtain ⟨hcall, hatt⟩ := invoke_field 1 l att value pg
  refine ⟨fun hm => ?_, fun hm => invoke_missing _ l _ value pg hm, hatt⟩
  have hhead := invoke_has (State.setValueN (1 + 1)) l (att ++ "Changed") value pg hm
  rcases hcall with ⟨c1, -⟩ | ⟨c1, c2⟩
  · exfalso
    cases ht : (invoke (State.setValueN (1 + 1)) l (att ++ "Changed") value pg).trace with
    | nil => rw [ht] at hhead; simp at hhead
    | cons e es =>
      rw [ht] at hhead c1
      simp only [List.head?_cons, Option.some.injEq] at hhead
      subst hhead
      simp [callsOf, List.filter_cons, Event.isCall] at c1
  · exact ⟨c1, c2⟩

theorem callsOf_append (att : String) (a b : List Event) :
    callsOf att (a ++ b) = callsOf att a ++ callsOf att b := by
  simp [callsOf]

/-- The loop over the listeners of `att`, call by call: the calls of the first
`j` entries return, and either these are all the entries and the loop returns,
or the call of the entry at index `j` throws, which ends the loop; the calls
recorded are those of the entries reached that have the method. -/
theorem forEach_notify (att : String) (value : Value) (ls : List Listener) (pg : Page) :
    ∃ j, j ≤ ls.length ∧
      (∀ i l, ls[i]? = some l → i < j →
        (notify att value l (pageBefore att value ls i pg)).completion
          = .returned .undefined) ∧
      ((j = ls.length ∧
          (forEach (notify att value) ls pg).completion = .returned .undefined ∧
          callsOf att (forEach (notify att value) ls pg).trace
            = ls.map (fun l => Event.called l (att ++ "Changed") value)) ∨
        (∃ l, ls[j]? = some l ∧
          (notify att value l (pageBefore att value ls j pg)).completion = .typeError ∧
          (forEach (notify att value) ls pg).completion = .typeError ∧
          callsOf att (forEach (notify att value) ls pg).trace
            = (ls.take (if l.hasMethod (att ++ "Changed") then j + 1 else j)).map
                (fun l => Event.called l (att ++ "Changed") value))) ∧
      (forEach (notify att value) ls pg).page.att att = pg.att att := by
  induction ls generalizing pg with
  | nil => exact ⟨0, le_refl _, by simp, Or.inl ⟨rfl, rfl, rfl⟩, rfl⟩
  | cons l rest ih =>
    obtain ⟨hyes, hno, hatt⟩ := notify_call att value l pg
    cases hm : l.hasMethod (att ++ "Changed") with
    | false =>
      have e := hno hm
      refine ⟨0, Nat.zero_le _, by simp, Or.inr ⟨l, by simp, ?_, ?_, ?_⟩, ?_⟩
      · simp [pageBefore, e]
      · simp [forEach, Outcome.andThen, e, Completion.isAbrupt]
      · simp [forEach, Outcome.andThen, e, Completion.isAbrupt, hm, callsOf]
      · simp [forEach, Outcome.andThen, e, Completion.isAbrupt]
    | true =>
      obtain ⟨c1, c2⟩ := hyes hm
      rcases c2 with c2 | c2
      · obtain ⟨j, hj, i1, i2, i3⟩ := ih (notify att value l pg).page
        refine ⟨j + 1, by simpa using hj, ?_, ?_, ?_⟩
        · intro i l2 hi hlt
          cases i with
          | zero =>
            simp only [List.getElem?_cons_zero, Option.some.injEq] at hi
            subst hi
            simpa [pageBefore] using c2
          | succ i =>
            have h3 := i1 i l2 (by simpa using hi) (by omega)
            simpa [pageBefore] using h3
        · rcases i2 with ⟨a1, a2, a3⟩ | ⟨l2, a1, a2, a3, a4⟩
          · refine Or.inl ⟨by simp [a1], ?_, ?_⟩
            · simp [forEach, Outcome.andThen, c2, Completion.isAbrupt, a2]
            · simp only [forEach, Outcome.andThen, c2, Completion.isAbrupt, Bool.false_eq_true,
                if_false, callsOf_append, c1, a3]
              rfl
          · refine Or.inr ⟨l2, by simpa using a1, by simpa [pageBefore] using a2, ?_, ?_⟩
            · simp [forEach, Outcome.andThen, c2, Completion.isAbrupt, a3]
            · simp only [forEach, Outcome.andThen, c2, Completion.isAbrupt, Bool.false_eq_true,
                if_false, callsOf_append, c1, a4]
              cases l2.hasMethod (att ++ "Changed") <;> rfl
        · simp only [forEach, Outcome.andThen, c2, Completion.isAbrupt, Bool.false_eq_true,
            if_false]
          rw [i3, hatt]
      · refine ⟨0, Nat.zero_le _, by simp, Or.inr ⟨l, by simp, ?_, ?_, ?_⟩, ?_⟩
        · simpa [pageBefore] using c2
        · simp [forEach, Outcome.andThen, c2, Completion.isAbrupt]
        · simp only [forEach, Outcome.andThen, c2, Completion.isAbrupt, if_true, hm, c1]
          rfl
        · simp only [forEach, Outcome.andThen, c2, Completion.isAbrupt, if_true]
          exact hatt

/-- The run of `setValue` when the test fails and the field has a listener list. -/
theorem setValue_run (pg : Page) (att : String) (value : Value)
    (ls : List Listener) (hls : pg.listener.lookup att = some ls)
    (hv : pg.holds att value = false) :
    State.setValue att value pg
      = (⟨{ pg with atts := Page.store att value pg.atts }, [.stored att value],
          .returned .undefined⟩ : Outcome).andThen fun pg1 =>
          ((forEach (notify att value) ls pg1).andThen fun pg2 =>
            ⟨pg2, [], .returned .state⟩) := by
  rw [show State.setValue att value pg = State.setValueN (1 + 1) att value pg from rfl,
    setValueN_succ, notify_eq]
  simp [hv, hls, Outcome.andThen, Completion.isAbrupt]

theorem stored_att (pg : Page) (att : String) (value : Value) (hf : att ≠ "__proto__") :
    ({ pg with atts := Page.store att value pg.atts } : Page).att att = value := by
  simp [Page.att, store_other att value _ hf, lookup_assign_same]

/-- What `setValue` does when the value differs from the stored one and the
field has a listener list: the assignment, then the calls of the entries in
order up to the first call that throws. -/
theorem setValue_changed (pg : Page) (att : String) (value : Value)
    (ls : List Listener) (hls : pg.listener.lookup att = some ls)
    (hv : pg.holds att value = false) :
    (State.setValue att value pg).trace.head? = some (.stored att value) ∧
      (att ≠ "__proto__" → (State.setValue att value pg).page.att att = value) ∧
      ∃ j, j ≤ ls.length ∧
        (∀ i l, ls[i]? = some l → i < j →
          (notify att value l
            (pageBefore att value ls i { pg with atts := Page.store att value pg.atts })).completion
            = .returned .undefined) ∧
        ((j = ls.length ∧ (State.setValue att value pg).completion = .returned .state ∧
            callsOf att (State.setValue att value pg).trace
              = ls.map (fun l => Event.called l (att ++ "Changed") value)) ∨
          (∃ l, ls[j]? = some l ∧
            (notify att value l
              (pageBefore att value ls j
                { pg with atts := Page.store att value pg.atts })).completion = .typeError ∧
            (State.setValue att value pg).completion = .typeError ∧
            callsOf att (State.setValue att value pg).trace
              = (ls.take (if l.hasMethod (att ++ "Changed") then j + 1 else j)).map
                  (fun l => Event.called l (att ++ "Changed") value))) := by
  obtain ⟨j, hj, f1, f2, f3⟩ := forEach_notify att value ls
    { pg with atts := Page.store att value pg.atts }
  have hstored := stored_att pg att value
  rw [setValue_run pg att value ls hls hv]
  simp only [Outcome.andThen, Completion.isAbrupt, Bool.false_eq_true, if_false]
  rcases f2 with ⟨a1, a2, a3⟩ | ⟨l, a1, a2, a3, a4⟩
  · simp only [a2, Completion.isAbrupt, Bool.false_eq_true, if_false]
    refine ⟨rfl, fun hf => by rw [f3, hstored hf], j, hj, f1, Or.inl ⟨a1, trivial, ?_⟩⟩
    simpa [callsOf, List.filter_cons, Event.isCall] using a3
  · simp only [a3, Completion.isAbrupt, if_true]
    refine ⟨rfl, fun hf => by rw [f3, hstored hf], j, hj, f1, Or.inr ⟨l, a1, a2, trivial, ?_⟩⟩
    simpa [callsOf, List.filter_cons, Event.isCall] using a4

/-- Claim C9, amended: on a field `att` with listener list `ls` and a value for
which the test `this.atts[att] === value` fails, `setValue(att, value)` first
stores the value, then calls `<att>Changed` with that value on the entries of
`ls` in registration order, once per entry, up to the first entry whose call
raises. With `j` the number of entries whose calls return: either `j` is the
length of `ls`, every entry has been called and `setValue` returns the store;
or the call of the entry at index `j` raises a `TypeError`, which leaves
`setValue`, and the calls made are those of the entries up to that one (that
one included when it has the method at all), none after it. Each call is
`notify` on the page the calls before it have left. -/
theorem c9_notifies_in_order_until_throw (pg : Page) (att : String) (value : Value)
    (ls : List Listener) (hf : att ≠ "__proto__") (hls : pg.listener.lookup att = some ls)
    (hv : pg.holds att value = false) :
    (State.setValue att value pg).trace.head? = some (.stored att value) ∧
      (State.setValue att value pg).page.att att = value ∧
      ∃ j, j ≤ ls.length ∧
        (∀ i l, ls[i]? = some l → i < j →
          (notify att value l
            (pageBefore att value ls i { pg with atts := Page.store att value pg.atts })).completion
            = .returned .undefined) ∧
        ((j = ls.length ∧ (State.setValue att value pg).completion = .returned .state ∧
            callsOf att (State.setValue att value pg).trace
              = ls.map (fun l => Event.called l (att ++ "Changed") value)) ∨
          (∃ l, ls[j]? = some l ∧
            (notify att value l
              (pageBefore att value ls j
                { pg with atts := Page.store att value pg.atts })).completion = .typeError ∧
            (State.setValue att value pg).completion = .typeError ∧
            callsOf att (State.setValue att value pg).trace
              = (ls.take (if l.hasMethod (att ++ "Changed") then j + 1 else j)).map
                  (fun l => Event.called l (att ++ "Changed") value))) := by
  obtain ⟨h1, h2, h3⟩ := setValue_changed pg att value ls hls hv
  exact ⟨h1, h2 hf, h3⟩

/-- Claim C9, witness: the password `abc` set on the wired page, whose
`password` listeners are the validator alone: it is called and `setValue`
returns the store. -/
theorem c9_witness_wired_password :
    (wiredPage []).listener.lookup "password" = some [.validator] ∧
    (wiredPage []).holds "password" (.str (utf16 "abc")) = false ∧
    (State.setValue "password" (.str (utf16 "abc")) (wiredPage [])).completion
      = .returned .state ∧
    callsOf "password" (State.setValue "password" (.str (utf16 "abc")) (wiredPage [])).trace
      = [.called .validator "passwordChanged" (.str (utf16 "abc"))] ∧
    (State.setValue "password" (.str (utf16 "abc")) (wiredPage [])).trace.head?
      = some (.stored "password" (.str (utf16 "abc"))) ∧
    (State.setValue "password" (.str (utf16 "abc")) (wiredPage [])).page.att "password"
      = .str (utf16 "abc") :=
  ⟨by decide, by decide, by decide, by decide,
    (c9_notifies_in_order_until_throw (wiredPage []) "password" (.str (utf16 "abc"))
      [.validator] (by decide) (by decide) (by decide)).1,
    (c9_notifies_in_order_until_throw (wiredPage []) "password" (.str (utf16 "abc"))
      [.validator] (by decide) (by decide) (by decide)).2.1⟩

/-- A call of `setValue` always returns or throws. -/
theorem setValue_finishes (att : String) (value : Value) (pg : Page) :
    (State.setValue att value pg).completion = .returned .undefined ∨
      (State.setValue att value pg).completion = .returned .state ∨
      (State.setValue att value pg).completion = .typeError := by
  cases hv : pg.holds att value with
  | true => rw [setValue_same att value pg hv]; exact Or.inl rfl
  | false =>
    cases hls : pg.listener.lookup att with
    | none =>
      simp [State.setValue, State.setValueN, hv, hls, Outcome.andThen, Completion.isAbrupt]
    | some ls =>
      obtain ⟨-, -, j, -, -, h | ⟨l, -, -, h, -⟩⟩ := setValue_changed pg att value ls hls hv
      · exact Or.inr (Or.inl h.2.1)
      · exact Or.inr (Or.inr h)

/-! ## The validator singleton -/

theorem getInstance_existing (pg : Page) (h : pg.validatorInstance = true) :
    Validator.getInstance pg = ⟨pg, [], .returned .validator⟩ := by
  simp [Validator.getInstance, h]

theorem getInstanceTimes_existing (n : Nat) (pg : Page) (h : pg.validatorInstance = true) :
    Validator.getInstanceTimes n pg = (List.replicate n (.returned .validator), pg) := by
  induction n with
  | zero => rfl
  | succ n ih =>
    simp only [Validator.getInstanceTimes, getInstance_existing pg h, ih, List.replicate_succ]

theorem getInstance_first (pg : Page) (lp lc : List Listener)
    (hi : pg.validatorInstance = false)
    (hp : pg.listener.lookup "password" = some lp)
    (hc : pg.listener.lookup "confirm" = some lc) :
    Validator.getInstance pg
      = ⟨{ pg with
            listener := assign "confirm" (lc ++ [.validator])
              (assign "password" (lp ++ [.validator]) pg.listener)
            validatorInstance := true }, [], .returned .validator⟩ := by
  have h2 : (assign "password" (lp ++ [Listener.validator]) pg.listener).lookup "confirm"
      = some lc := by
    rw [lookup_assign_other _ _ _ _ (by decide), hc]
  simp [Validator.getInstance, hi, Validator.new, State.addPasswordListener,
    State.addConfirmListener, State.addListener, hp, h2, Outcome.discard, Outcome.andThen,
    Completion.isAbrupt]

/-- The outcome of `n + 1` calls of `Validator.getInstance()` on a page where no
instance exists yet. -/
theorem getInstanceTimes_fresh (n : Nat) (pg : Page) (lp lc : List Listener)
    (hi : pg.validatorInstance = false)
    (hp : pg.listener.lookup "password" = some lp)
    (hc : pg.listener.lookup "confirm" = some lc) :
    Validator.getInstanceTimes (n + 1) pg
      = (List.replicate (n + 1) (.returned .validator),
          { pg with
            listener := assign "confirm" (lc ++ [.validator])
              (assign "password" (lp ++ [.validator]) pg.listener)
            validatorInstance := true }) := by
  simp only [Validator.getInstanceTimes, getInstance_first pg lp lc hi hp hc]
  rw [getInstanceTimes_existing n _ rfl]
  rfl

/-- Claim C11: on a page where no `Validator` instance exists yet and the
validator is in neither the `password` nor the `confirm` listener list, every
one of `n + 1` calls of `Validator.getInstance()` returns the validator, the
page after them is the page after the first call (the constructor ran once),
and the two lists are the former lists followed by the validator, so each
contains it exactly once. -/
theorem c11_getInstance_singleton (n : Nat) (pg : Page) (lp lc : List Listener)
    (hi : pg.validatorInstance = false)
    (hp : pg.listener.lookup "password" = some lp)
    (hc : pg.listener.lookup "confirm" = some lc)
    (hnp : Listener.validator ∉ lp) (hnc : Listener.validator ∉ lc) :
    (Validator.getInstanceTimes (n + 1) pg).1 = List.replicate (n + 1) (.returned .validator) ∧
      (Validator.getInstanceTimes (n + 1) pg).2 = (Validator.getInstance pg).page ∧
      (Validator.getInstanceTimes (n + 1) pg).2.listener.lookup "password"
        = some (lp ++ [.validator]) ∧
      (Validator.getInstanceTimes (n + 1) pg).2.listener.lookup "confirm"
        = some (lc ++ [.validator]) ∧
      (lp ++ [Listener.validator]).count .validator = 1 ∧
      (lc ++ [Listener.validator]).count .validator = 1 := by
  rw [getInstanceTimes_fresh n pg lp lc hi hp hc, getInstance_first pg lp lc hi hp hc]
  refine ⟨rfl, rfl, ?_, ?_, ?_, ?_⟩
  · show (assign "confirm" _ (assign "password" _ pg.listener)).lookup "password" = _
    rw [lookup_assign_other _ _ _ _ (by decide), lookup_assign_same]
  · show (assign "confirm" _ (assign "password" _ pg.listener)).lookup "confirm" = _
    rw [lookup_assign_same]
  · simp [List.count_eq_zero_of_not_mem hnp]
  · simp [List.count_eq_zero_of_not_mem hnc]

/-- Claim C11, witness: three calls on the fresh store. -/
theorem c11_witness_three_calls :
    State.new.validatorInstance = false ∧
    State.new.listener.lookup "password" = some [] ∧
    State.new.listener.lookup "confirm" = some [] ∧
    (Validator.getInstanceTimes 3 State.new).1
      = [.returned .validator, .returned .validator, .returned .validator] ∧
    (Validator.getInstanceTimes 3 State.new).2.listener.lookup "password"
      = some [.validator] ∧
    (Validator.getInstanceTimes 3 State.new).2.listener.lookup "confirm"
      = some [.validator] :=
  ⟨rfl, rfl, rfl,
    (c11_getInstance_singleton 2 State.new [] [] rfl rfl rfl (by simp) (by simp)).1,
    (c11_getInstance_singleton 2 State.new [] [] rfl rfl rfl (by simp) (by simp)).2.2.1,
    (c11_getInstance_singleton 2 State.new [] [] rfl rfl rfl (by simp) (by simp)).2.2.2.1⟩

/-! ## The stored vector and the rule table -/

theorem mapRules_spec (f : Rule → Option Bool) (rs : List Rule) (vec : List Bool)
    (h : mapRules f rs = some vec) :
    vec.length = rs.length ∧ ∀ i : Nat, rs[i]?.bind f = vec[i]? := by
  induction rs generalizing vec with
  | nil =>
    simp only [mapRules, Option.some.injEq] at h
    subst h
    exact ⟨rfl, fun i => by simp⟩
  | cons r rs ih =>
    simp only [mapRules] at h
    cases hf : f r with
    | none => simp [hf] at h
    | some b =>
      cases hm : mapRules f rs with
      | none => simp [hf, hm] at h
      | some bs =>
        simp only [hf, hm, Option.some.injEq] at h
        subst h
        obtain ⟨h1, h2⟩ := ih bs hm
        refine ⟨by simp [h1], fun i => ?_⟩
        cases i with
        | zero => simp [hf]
        | succ i => simpa using h2 i

/-- A changed `valid` is stored, whatever its listeners do afterwards. -/
theorem setValid_stored (n : Nat) (value : Value) (pg : Page)
    (hv : strictEq (pg.att "valid") value = false) :
    (State.setValueN (n + 1) "valid" value pg).page.att "valid" = value := by
  have hstored : ({ pg with atts := assign "valid" value pg.atts } : Page).att "valid" = value := by
    simp [Page.att, lookup_assign_same]
  rw [setValueN_field _ _ _ _ (by simp)]
  simp only [hv, Bool.false_eq_true, if_false, Outcome.andThen, Completion.isAbrupt]
  cases hl : (pg.listener.lookup "valid") with
  | none => simpa [hl] using hstored
  | some ls =>
    simp only [hl]
    have e1 : "valid" ++ "Changed" = "validChanged" := by decide
    rw [e1]
    obtain ⟨-, f2, f3⟩ := forEach_valid (State.setValueN n) value ls
      { pg with atts := assign "valid" value pg.atts }
    rcases f3 with f3 | f3 <;>
      simp only [f3, Completion.isAbrupt, Bool.false_eq_true, if_false, if_true] <;>
      rw [att_of_atts _ _ _ f2] <;> exact hstored

theorem checkValid_stores (pg : Page) (vec : List Bool)
    (hm : mapRules (Validator.checkRule pg) Validator.rules = some vec)
    (hfresh : strictEq (pg.att "valid") (.arr pg.nextId vec) = false) :
    (Validator.checkValid State.setValue pg).page.att "valid" = .arr pg.nextId vec := by
  have h := setValid_stored 1 (.arr pg.nextId vec) { pg with nextId := pg.nextId + 1 } hfresh
  simp only [Validator.checkValid, hm, Outcome.discard]
  split <;> exact h

theorem pristine_wiredPage (u : JSString) : Pristine (wiredPage u) :=
  ⟨_, _, _, _, rfl, rfl, by decide⟩

theorem pristine_unset (pg : Page) (h : Pristine pg) : Unset pg := by
  obtain ⟨u, c, vc, hints, rfl, hl, -⟩ := h
  exact ⟨_, _, _, _, _, _, _, _, rfl, by decide, hl⟩

theorem confirm_from_pristine (pg : Page) (t : JSString) (h : Pristine pg) :
    Pristine (State.setValue "confirm" (.str t) pg).page := by
  obtain ⟨u, c, vc, hints, rfl, hl, hcl⟩ := h
  cases hs : strictEq c (.str t) with
  | true =>
    rw [setValue_same _ _ _ (by simpa [Page.holds, wiredWith, Page.att, List.lookup] using hs)]
    exact ⟨_, _, _, _, rfl, hl, hcl⟩
  | false =>
    rw [confirm_step_unset _ _ _ _ _ _ _ _ _ _ hs]
    exact ⟨_, _, _, _, rfl, hl, hcl⟩

/-- Every state reached from the wired page by `setValue` calls on `password`
and `confirm` is pristine or has a password set. -/
theorem runCalls_track (calls : List (String × JSString))
    (h : ∀ x ∈ calls, x.1 = "password" ∨ x.1 = "confirm") (pg : Page)
    (hp : Pristine pg ∨ ∃ s c, SetTo s c pg) :
    Pristine (runCalls calls pg) ∨ ∃ s c, SetTo s c (runCalls calls pg) := by
  induction calls generalizing pg with
  | nil => exact hp
  | cons x rest ih =>
    obtain ⟨att, value⟩ := x
    have hrest : ∀ x ∈ rest, x.1 = "password" ∨ x.1 = "confirm" :=
      fun x hx => h x (List.mem_cons_of_mem _ hx)
    rcases h (att, value) (List.mem_cons_self _ _) with h1 | h1 <;> simp only at h1 <;> subst h1
    · rcases hp with hu | ⟨s, c, hs⟩
      · exact ih hrest _ (Or.inr ⟨_, _, password_from_unset pg value (pristine_unset pg hu)⟩)
      · exact ih hrest _ (Or.inr ⟨_, _, password_from_set pg s value c hs⟩)
    · rcases hp with hu | ⟨s, c, hs⟩
      · exact ih hrest _ (Or.inl (confirm_from_pristine pg value hu))
      · exact ih hrest _ (Or.inr ⟨_, _, confirm_from_set pg s value c hs⟩)

/-- Claim C12: when the checks of an evaluation by `checkValid` complete with the
vector `vec` (a new array), the vector stored as `valid` afterwards is `vec`, it
has as many entries as `Validator.rules` (six), and its entry at every index
is the result of `checkRule` on the rule at that index; and in every state
reached from the wired page by `setValue` calls on `password` and `confirm`
the stored vector has six entries unless it is still the initial `[false]`,
which is the case only while no password was set, so no evaluation completed. -/
theorem c12_vector_aligned_with_rules :
    (∀ (pg : Page) (vec : List Bool),
        mapRules (Validator.checkRule pg) Validator.rules = some vec →
        strictEq (pg.att "valid") (.arr pg.nextId vec) = false →
        (Validator.checkValid State.setValue pg).page.att "valid" = .arr pg.nextId vec ∧
          vec.length = Validator.rules.length ∧ Validator.rules.length = 6 ∧
          ∀ i : Nat, Validator.rules[i]?.bind (Validator.checkRule pg) = vec[i]?) ∧
      (∀ (u : JSString) (calls : List (String × JSString)),
        (∀ x ∈ calls, x.1 = "password" ∨ x.1 = "confirm") →
        ((runCalls calls (wiredPage u)).att "valid" = .arr 0 [false] ∧
            (runCalls calls (wiredPage u)).att "password" = .undefined) ∨
          ((runCalls calls (wiredPage u)).att "valid").elems.length
            = Validator.rules.length) := by
  constructor
  · intro pg vec hm hfresh
    obtain ⟨h1, h2⟩ := mapRules_spec _ _ _ hm
    exact ⟨checkValid_stores pg vec hm hfresh, h1, rfl, h2⟩
  · intro u calls h
    rcases runCalls_track calls h _ (Or.inl (pristine_wiredPage u)) with hp | ⟨s, c, hs⟩
    · obtain ⟨u1, c1, vc, hints, he, -, -⟩ := hp
      rw [he]
      exact Or.inl ⟨rfl, rfl⟩
    · obtain ⟨-, -, h3, -, -⟩ := setTo_att _ _ _ hs
      rw [h3]
      exact Or.inr rfl

/-- Claim C12, witness: the evaluation on the wired page whose validator holds
the password `short`, and the state after two calls. -/
theorem c12_witness_short :
    mapRules (Validator.checkRule { wiredPage [] with validatorPassword := .str (utf16 "short") })
        Validator.rules = some [false, true, false, false, false, false] ∧
    (Validator.checkValid State.setValue
        { wiredPage [] with validatorPassword := .str (utf16 "short") }).page.att "valid"
      = .arr 1 [false, true, false, false, false, false] ∧
    (((runCalls [("confirm", utf16 "x"), ("password", utf16 "short")] (wiredPage [])).att "valid"
          = .arr 0 [false] ∧
        (runCalls [("confirm", utf16 "x"), ("password", utf16 "short")] (wiredPage [])).att
          "password" = .undefined) ∨
      ((runCalls [("confirm", utf16 "x"), ("password", utf16 "short")] (wiredPage [])).att
          "valid").elems.length = Validator.rules.length) :=
  ⟨by decide,
    (c12_vector_aligned_with_rules.1
      { wiredPage [] with validatorPassword := .str (utf16 "short") }
      [false, true, false, false, false, false] (by decide) (by decide)).1,
    c12_vector_aligned_with_rules.2 [] [("confirm", utf16 "x"), ("password", utf16 "short")]
      (by simp)⟩

/-! ## The form controller and the hint view on a vector -/

/-- Claim C13: on a non-empty vector, whatever the button's state `d` before the
call, `FormUpdate.validChanged` leaves the attribute `disabled` absent when
every element is true and present otherwise, changes nothing else and returns;
so an enabled button is disabled again by a vector holding a false, a vector of
trues enables a disabled button, and the initial `[false]` disables it. -/
theorem c13_submit_follows_conjunction (pg : Page) (d : Bool) (vid : Nat) (a : Bool)
    (rest pre post : List Bool) (n : Nat) :
    FormUpdate.validChanged (.arr vid (a :: rest)) { pg with button := some d }
        = ⟨{ pg with button := some (!(a :: rest).all fun b => b) }, [],
            .returned .undefined⟩ ∧
      (FormUpdate.validChanged (.arr vid (pre ++ false :: post))
          { pg with button := some false }).page.button = some true ∧
      (FormUpdate.validChanged (.arr vid (List.replicate (n + 1) true))
          { pg with button := some true }).page.button = some false ∧
      (FormUpdate.validChanged (.arr vid [false]) { pg with button := some d }).page.button
        = some true := by
  have key : ∀ (e : Bool) (x : Bool) (xs : List Bool),
      FormUpdate.validChanged (.arr vid (x :: xs)) { pg with button := some e }
        = ⟨{ pg with button := some (!(x :: xs).all fun b => b) }, [],
            .returned .undefined⟩ := by
    intro e x xs
    simp only [FormUpdate.validChanged, reduceAnd_cons]
    cases (x :: xs).all fun b => b <;> simp
  refine ⟨key d a rest, ?_, ?_, ?_⟩
  · cases pre with
    | nil => rw [List.nil_append, key]; simp
    | cons x xs => rw [List.cons_append, key]; simp
  · rw [List.replicate_succ, key]
    simp
  · rw [key]; rfl

theorem classified_index (hs : List Hint) (v : List Bool) (h : v.length ≤ hs.length) (i : Nat) :
    (∀ b, v[i]? = some b →
        ((List.zipWith (fun h v => ({ h with className := some (if v then "valid" else "invalid") } : Hint))
            hs v ++ hs.drop v.length)[i]?).map (fun h => h.className)
          = some (some (if b then "valid" else "invalid")) ∧
        ((List.zipWith (fun h v => ({ h with className := some (if v then "valid" else "invalid") } : Hint))
            hs v ++ hs.drop v.length)[i]?).map (fun h => h.text)
          = (hs[i]?).map (fun h => h.text)) ∧
      (v[i]? = none →
        (List.zipWith (fun h v => ({ h with className := some (if v then "valid" else "invalid") } : Hint))
            hs v ++ hs.drop v.length)[i]? = hs[i]?) := by
  induction v generalizing hs i with
  | nil => simp
  | cons x xs ih =>
    cases hs with
    | nil => simp at h
    | cons y ys =>
      cases i with
      | zero => simp
      | succ i =>
        have := ih ys (by simpa using h) i
        simpa using this

/-- Claim C14: for a vector no longer than the hint list,
`PasswordPolicyHint.validChanged` returns normally, gives the item at every
index below the vector's length the class `valid` when the entry is true and
`invalid` otherwise (its text kept), leaves every item at an index at or
beyond that length as it was, keeps the number of items and changes nothing
else on the page. -/
theorem c14_hint_classes (pg : Page) (vid : Nat) (v : List Bool)
    (h : v.length ≤ pg.hints.length) :
    (PasswordPolicyHint.validChanged (.arr vid v) pg).completion = .returned .undefined ∧
      (PasswordPolicyHint.validChanged (.arr vid v) pg).page
        = { pg with hints := (PasswordPolicyHint.validChanged (.arr vid v) pg).page.hints } ∧
      (PasswordPolicyHint.validChanged (.arr vid v) pg).page.hints.length = pg.hints.length ∧
      (∀ (i : Nat) (b : Bool), v[i]? = some b →
        ((PasswordPolicyHint.validChanged (.arr vid v) pg).page.hints[i]?).map
            (fun x => x.className) = some (some (if b then "valid" else "invalid")) ∧
        ((PasswordPolicyHint.validChanged (.arr vid v) pg).page.hints[i]?).map
            (fun x => x.text) = (pg.hints[i]?).map (fun x => x.text)) ∧
      (∀ i : Nat, v.length ≤ i →
        (PasswordPolicyHint.validChanged (.arr vid v) pg).page.hints[i]? = pg.hints[i]?) := by
  have hc := classify_ok v [] pg.hints pg rfl h
  simp only [List.length_nil, List.nil_append] at hc
  simp only [PasswordPolicyHint.validChanged, hc]
  refine ⟨trivial, trivial, ?_, ?_, ?_⟩
  · simp only [List.length_append, List.length_zipWith, List.length_drop]
    omega
  · intro i b hb
    exact (classified_index pg.hints v h i).1 b hb
  · intro i hi
    exact (classified_index pg.hints v h i).2 (by simp [hi])

/-- Claim C14, witness: the initial vector `[false]` on the six unclassed items
of the wired page. -/
theorem c14_witness_sentinel :
    [false].length ≤ (wiredPage []).hints.length ∧
    ((PasswordPolicyHint.validChanged (.arr 0 [false]) (wiredPage [])).page.hints.map
        fun x => x.className)
      = [some "invalid", none, none, none, none, none] ∧
    (∀ i : Nat, [false].length ≤ i →
      (PasswordPolicyHint.validChanged (.arr 0 [false]) (wiredPage [])).page.hints[i]?
        = (wiredPage []).hints[i]?) :=
  ⟨by decide, by decide, (c14_hint_classes (wiredPage []) 0 [false] (by decide)).2.2.2.2⟩

/-- Claim C15: when `Validator.getInstance()` succeeds, the constructor of
`PasswordPolicyHint` leaves exactly the six items below, one per rule of
`Validator.rules` in rule order, none with a class, the text of each being
the `Messages.en` entry of the rule's name; every rule name has an entry. -/
theorem c15_hint_items (pg : Page)
    (h : (Validator.getInstance pg).completion.isAbrupt = false) :
    (PasswordPolicyHint.new pg).page.hints
        = [⟨some "has a minimum length of 15 characters", none⟩,
           ⟨some "contains lower case characters [a-z]", none⟩,
           ⟨some "contains upper case characters [A-Z]", none⟩,
           ⟨some "contains numbers [0-9]", none⟩,
           ⟨some "contains characters other than [a-z] [A-Z] [0-9]", none⟩,
           ⟨some "confirmation and password are equal", none⟩] ∧
      (PasswordPolicyHint.new pg).page.hints.length = Validator.rules.length ∧
      (PasswordPolicyHint.new pg).page.hints.map (fun x => x.text)
        = Validator.rules.map (fun rule => Messages.en.lookup rule.1) ∧
      (∀ rule ∈ Validator.rules, (Messages.en.lookup rule.1).isSome = true) := by
  have hh : (PasswordPolicyHint.new pg).page.hints
      = Validator.rules.map fun rule => ⟨Messages.en.lookup rule.1, none⟩ := by
    simp only [PasswordPolicyHint.new, Outcome.andThen, h, Bool.false_eq_true, if_false,
      State.addValidListener, State.addListener]
    cases (Validator.getInstance pg).page.listener.lookup "valid" <;> rfl
  rw [hh]
  refine ⟨by decide, by decide, by decide, ?_⟩
  intro rule hr
  simp only [Validator.rules, List.mem_cons, List.mem_singleton, List.not_mem_nil, or_false] at hr
  rcases hr with rfl | rfl | rfl | rfl | rfl | rfl <;> rfl

/-- Claim C15, witness: the hint view constructed on the fresh store. -/
theorem c15_witness_fresh_store :
    (Validator.getInstance State.new).completion.isAbrupt = false ∧
    (PasswordPolicyHint.new State.new).page.hints.map (fun x => x.text)
      = [some "has a minimum length of 15 characters",
         some "contains lower case characters [a-z]",
         some "contains upper case characters [A-Z]",
         some "contains numbers [0-9]",
         some "contains characters other than [a-z] [A-Z] [0-9]",
         some "confirmation and password are equal"] ∧
    (PasswordPolicyHint.new State.new).page.hints.length = Validator.rules.length :=
  ⟨by decide, by decide, (c15_hint_items State.new (by decide)).2.1⟩

/-! ## Failures: unknown fields, unset password, missing methods -/

theorem strictEq_undefined_left (v : Value) (h : v ≠ .undefined) :
    strictEq .undefined v = false := by
  cases v <;> simp [strictEq] at h ⊢

/-- What `setValue` does on a field without a listener list. -/
theorem setValue_unknown (pg : Page) (att : String) (v : Value)
    (hl : pg.listener.lookup att = none) :
    State.setValue att v pg
      = if pg.holds att v then ⟨pg, [], .returned .undefined⟩
        else ⟨{ pg with atts := Page.store att v pg.atts }, [.stored att v], .typeError⟩ := by
  cases hv : pg.holds att v with
  | true => simp [setValue_same att v pg hv]
  | false =>
    simp [State.setValue, State.setValueN, hv, hl, Outcome.andThen, Completion.isAbrupt]

/-- Without an own property the test of `setValue` succeeds for `undefined` on a
name that is not inherited, and for nothing else. -/
theorem holds_absent (pg : Page) (att : String) (v : Value)
    (ha : pg.atts.lookup att = none) :
    pg.holds att v = true ↔ v = .undefined ∧ pg.inherits att = false := by
  simp only [Page.holds, ha]
  cases v <;> cases pg.inherits att <;> simp [strictEq]

theorem fresh_unknown (att : String)
    (hn : att ∉ ["username", "password", "confirm", "valid"]) :
    State.new.atts.lookup att = none ∧ State.new.listener.lookup att = none ∧
      (State.new.inherits att = true ↔ att ∈ objectPrototypeNames) := by
  simp only [List.mem_cons, List.mem_singleton, not_or, List.not_mem_nil, or_false] at hn
  obtain ⟨h1, h2, h3, h4⟩ := hn
  have e1 : ("username" == att) = false := by simpa using fun h => h1 h.symm
  have e2 : ("password" == att) = false := by simpa using fun h => h2 h.symm
  have e3 : ("confirm" == att) = false := by simpa using fun h => h3 h.symm
  have e4 : ("valid" == att) = false := by simpa using fun h => h4 h.symm
  have e5 : (att == "username") = false := by simpa using h1
  have e6 : (att == "password") = false := by simpa using h2
  have e7 : (att == "confirm") = false := by simpa using h3
  have e8 : (att == "valid") = false := by simpa using h4
  refine ⟨?_, ?_, ?_⟩
  · simp [State.new, List.lookup, e1, e2, e3, e4, e5, e6, e7, e8]
  · simp [State.new, List.lookup, e1, e2, e3, e4, e5, e6, e7, e8]
  · have e9 : State.new.atts.lookup "__proto__" = none := by decide
    simp [Page.inherits, e9]

/-- Claim C16, amended: for a field name for which the store has no own property
in `atts` and none in `listener` (on the initial store: every name other than
`username`, `password`, `confirm`, `valid`), `setValue(field, v)` throws a
`TypeError` for every value `v`, the assignment to `atts[field]` having run,
except when `v` is `undefined` and the field map does not inherit a property
of that name either: then it returns `undefined` without throwing, and the
page is unchanged and nothing is recorded. On the initial store the inherited
names are the property names of `Object.prototype`, so there every `v` throws
on `toString`, `constructor`, `__proto__` and the like. -/
theorem c16_unknown_field (pg : Page) (att : String) (v : Value)
    (ha : pg.atts.lookup att = none) (hl : pg.listener.lookup att = none) :
    (v = .undefined → pg.inherits att = false →
        State.setValue att v pg = ⟨pg, [], .returned .undefined⟩) ∧
      (v ≠ .undefined ∨ pg.inherits att = true →
        State.setValue att v pg
          = ⟨{ pg with atts := Page.store att v pg.atts }, [.stored att v], .typeError⟩) ∧
      (att ∉ ["username", "password", "confirm", "valid"] →
        State.new.atts.lookup att = none ∧ State.new.listener.lookup att = none ∧
          (State.new.inherits att = true ↔ att ∈ objectPrototypeNames)) := by
  refine ⟨fun h1 h2 => ?_, fun h => ?_, fresh_unknown att⟩
  · rw [setValue_unknown pg att v hl, (holds_absent pg att v ha).2 ⟨h1, h2⟩]
    rfl
  · have hh : pg.holds att v = false := by
      cases hq : pg.holds att v with
      | false => rfl
      | true =>
        obtain ⟨q1, q2⟩ := (holds_absent pg att v ha).1 hq
        rcases h with h | h
        · exact absurd q1 h
        · rw [q2] at h; exact absurd h (by decide)
    rw [setValue_unknown pg att v hl, hh]
    rfl

/-- Claim C16, witness: on the fresh store, `foo` with the value `x`, and
`toString` with `undefined`. -/
theorem c16_witness_foo :
    State.new.atts.lookup "foo" = none ∧ State.new.listener.lookup "foo" = none ∧
    (State.setValue "foo" (.str (utf16 "x")) State.new).completion = .typeError ∧
    State.new.atts.lookup "toString" = none ∧ State.new.listener.lookup "toString" = none ∧
    State.new.inherits "toString" = true ∧
    (State.setValue "toString" .undefined State.new).completion = .typeError :=
  ⟨by decide, by decide,
    by rw [(c16_unknown_field State.new "foo" (.str (utf16 "x")) (by decide) (by decide)).2.1
      (Or.inl (by decide))],
    by decide, by decide, by decide,
    by rw [(c16_unknown_field State.new "toString" .undefined (by decide) (by decide)).2.1
      (Or.inr (by decide))]⟩

/-- Claim C16 fails as stated: `foo` is none of the four fields, and
`setValue('foo', undefined)` on the fresh store returns `undefined` normally,
changing nothing. -/
theorem c16_counterexample_undefined_returns :
    "foo" ∉ ["username", "password", "confirm", "valid"] ∧
    State.setValue "foo" .undefined State.new = ⟨State.new, [], .returned .undefined⟩ := by
  decide

/-- Once a password is set, no `setValue` call on `password` or `confirm` with a
string throws. -/
theorem setTo_call_returns (pg : Page) (s value : JSString) (c : Value) (att : String)
    (h : SetTo s c pg) (ha : att = "password" ∨ att = "confirm") :
    (State.setValue att (.str value) pg).completion = .returned .state ∨
      (State.setValue att (.str value) pg).completion = .returned .undefined := by
  obtain ⟨u, vid, vc, hints, next, rfl, hid, hl, -⟩ := h
  rcases ha with rfl | rfl
  · cases hs : strictEq (.str s) (.str value) with
    | true =>
      rw [setValue_same _ _ _ (by simpa [Page.holds, wiredWith, Page.att, List.lookup] using hs)]
      exact Or.inr rfl
    | false =>
      rw [password_step _ _ _ _ _ _ _ _ _ _ _ hid hl hs]
      exact Or.inl rfl
  · cases hs : strictEq c (.str value) with
    | true =>
      rw [setValue_same _ _ _ (by simpa [Page.holds, wiredWith, Page.att, List.lookup] using hs)]
      exact Or.inr rfl
    | false =>
      rw [confirm_step _ _ _ _ _ _ _ _ _ _ _ hid hl hs]
      exact Or.inl rfl

/-- While no password was set, every `setValue` call that changes `confirm`
throws, and the vector stays the initial one. -/
theorem pristine_confirm_throws (pg : Page) (t : JSString) (h : Pristine pg)
    (hc : strictEq (pg.att "confirm") (.str t) = false) :
    (State.setValue "confirm" (.str t) pg).completion = .typeError ∧
      (State.setValue "confirm" (.str t) pg).page.att "valid" = .arr 0 [false] := by
  obtain ⟨u, c, vc, hints, rfl, hl, -⟩ := h
  rw [confirm_step_unset _ _ _ _ _ _ _ _ _ _ (by simpa [Page.holds, wiredWith, Page.att, List.lookup] using hc)]
  exact ⟨rfl, rfl⟩

/-- Claim C17, at a sequence that starts with `confirm`: on the wired page, where
no password was set yet, `setValue('confirm', 'x')` stores the value, calls
`Validator.confirmChanged`, and ends with a `TypeError` (the validator's
`password` is `undefined`, so `this.password.match` throws); the vector is
still `[false]` and no `validChanged` listener was called. -/
theorem c17_confirm_first_throws :
    (State.setValue "confirm" (.str (utf16 "x")) (wiredPage [])).completion = .typeError ∧
    (State.setValue "confirm" (.str (utf16 "x")) (wiredPage [])).trace
      = [.stored "confirm" (.str (utf16 "x")),
         .called .validator "confirmChanged" (.str (utf16 "x"))] ∧
    (State.setValue "confirm" (.str (utf16 "x")) (wiredPage [])).page.att "valid"
      = .arr 0 [false] := by
  decide

/-- What `setValue` does when a listener of the field lacks the method: it
throws, having called only listeners registered before that one, and of
these the ones up to the first whose call throws. -/
theorem setValue_missing_method (pg : Page) (att : String) (value : Value)
    (pre post : List Listener) (l : Listener)
    (hls : pg.listener.lookup att = some (pre ++ l :: post))
    (hv : pg.holds att value = false)
    (hm : l.hasMethod (att ++ "Changed") = false) :
    (State.setValue att value pg).completion = .typeError ∧
      (State.setValue att value pg).trace.head? = some (.stored att value) ∧
      (att ≠ "__proto__" → (State.setValue att value pg).page.att att = value) ∧
      ∃ j, j ≤ pre.length ∧
        (∀ i x, pre[i]? = some x → i < j →
          (notify att value x
            (pageBefore att value pre i
              { pg with atts := Page.store att value pg.atts })).completion
            = .returned .undefined) ∧
        ((j = pre.length ∧
            callsOf att (State.setValue att value pg).trace
              = pre.map (fun x => Event.called x (att ++ "Changed") value)) ∨
          (∃ x, pre[j]? = some x ∧
            (notify att value x
              (pageBefore att value pre j
                { pg with atts := Page.store att value pg.atts })).completion = .typeError ∧
            callsOf att (State.setValue att value pg).trace
              = (pre.take (if x.hasMethod (att ++ "Changed") then j + 1 else j)).map
                  (fun x => Event.called x (att ++ "Changed") value))) := by
  obtain ⟨j, hj, f1, f2, f3⟩ := forEach_notify att value pre
    { pg with atts := Page.store att value pg.atts }
  have hstored := stored_att pg att value
  have hrest : ∀ p : Page, forEach (notify att value) (l :: post) p = ⟨p, [], .typeError⟩ := by
    intro p
    simp [forEach, (notify_call att value l p).2.1 hm, Outcome.andThen, Completion.isAbrupt]
  rw [setValue_run pg att value _ hls hv]
  simp only [Outcome.andThen, Completion.isAbrupt, Bool.false_eq_true, if_false,
    forEach_append, hrest]
  rcases f2 with ⟨a1, a2, a3⟩ | ⟨x, a1, a2, a3, a4⟩
  · simp only [a2, Completion.isAbrupt, Bool.false_eq_true, if_false, if_true]
    refine ⟨trivial, rfl, fun hf => by rw [f3, hstored hf], j, hj, f1, Or.inl ⟨a1, ?_⟩⟩
    simpa [callsOf, List.filter_cons, Event.isCall] using a3
  · simp only [a3, Completion.isAbrupt, if_true]
    refine ⟨trivial, rfl, fun hf => by rw [f3, hstored hf], j, hj, f1,
      Or.inr ⟨x, a1, a2, ?_⟩⟩
    simpa [callsOf, List.filter_cons, Event.isCall] using a4

/-- Claim C18, amended: on a field whose listener list holds a listener `l` without
the method `<f>Changed`, after the listeners `pre` and before the listeners
`post`, `setValue(f, v)` with a value for which the test
`this.atts[f] === v` fails throws a `TypeError` at notification time, after
`v` has been stored, and no listener of `post` is called. The listeners
called are entries of `pre`, in registration order and once each: with `j` the
number of entries of `pre` whose calls return, either `j` is the length of
`pre` and all of `pre` has been called, or the call of the entry of `pre` at
index `j` throws and the calls made are those of the entries of `pre` up to
that one (that one included when it has the method), none after it. -/
theorem c18_missing_method_throws (pg : Page) (att : String) (value : Value)
    (pre post : List Listener) (l : Listener) (hf : att ≠ "__proto__")
    (hls : pg.listener.lookup att = some (pre ++ l :: post))
    (hv : pg.holds att value = false)
    (hm : l.hasMethod (att ++ "Changed") = false) :
    (State.setValue att value pg).completion = .typeError ∧
      (State.setValue att value pg).trace.head? = some (.stored att value) ∧
      (State.setValue att value pg).page.att att = value ∧
      ∃ j, j ≤ pre.length ∧
        (∀ i x, pre[i]? = some x → i < j →
          (notify att value x
            (pageBefore att value pre i
              { pg with atts := Page.store att value pg.atts })).completion
            = .returned .undefined) ∧
        ((j = pre.length ∧
            callsOf att (State.setValue att value pg).trace
              = pre.map (fun x => Event.called x (att ++ "Changed") value)) ∨
          (∃ x, pre[j]? = some x ∧
            (notify att value x
              (pageBefore att value pre j
                { pg with atts := Page.store att value pg.atts })).completion = .typeError ∧
            callsOf att (State.setValue att value pg).trace
              = (pre.take (if x.hasMethod (att ++ "Changed") then j + 1 else j)).map
                  (fun x => Event.called x (att ++ "Changed") value))) := by
  obtain ⟨h1, h2, h3, h4⟩ := setValue_missing_method pg att value pre post l hls hv hm
  exact ⟨h1, h2, h3 hf, h4⟩

/-- Claim C18, witness: on the wired page with a password set, the `password`
listeners being the validator, an object without `passwordChanged`, and a
third object: the validator is called, the third object is not, and the
call throws after the store. -/
theorem c18_witness_after_validator :
    (State.addListener "password" (.many [.other 1 [], .other 2 ["passwordChanged"]])
        (runCalls [("password", utf16 "a")] (wiredPage []))).page.listener.lookup "password"
      = some ([.validator] ++ .other 1 [] :: [.other 2 ["passwordChanged"]]) ∧
    (Listener.other 1 []).hasMethod ("password" ++ "Changed") = false ∧
    callsOf "password"
        (State.setValue "password" (.str (utf16 "b"))
          (State.addListener "password" (.many [.other 1 [], .other 2 ["passwordChanged"]])
            (runCalls [("password", utf16 "a")] (wiredPage []))).page).trace
      = [.called .validator "passwordChanged" (.str (utf16 "b"))] ∧
    (State.setValue "password" (.str (utf16 "b"))
        (State.addListener "password" (.many [.other 1 [], .other 2 ["passwordChanged"]])
          (runCalls [("password", utf16 "a")] (wiredPage []))).page).completion
      = .typeError ∧
    (State.setValue "password" (.str (utf16 "b"))
        (State.addListener "password" (.many [.other 1 [], .other 2 ["passwordChanged"]])
          (runCalls [("password", utf16 "a")] (wiredPage []))).page).trace.head?
      = some (.stored "password" (.str (utf16 "b"))) :=
  ⟨by decide, by decide, by decide,
    (c18_missing_method_throws
      (State.addListener "password" (.many [.other 1 [], .other 2 ["passwordChanged"]])
        (runCalls [("password", utf16 "a")] (wiredPage []))).page
      "password" (.str (utf16 "b")) [.validator] [.other 2 ["passwordChanged"]] (.other 1 [])
      (by decide) (by decide) (by decide) (by decide)).1,
    (c18_missing_method_throws
      (State.addListener "password" (.many [.other 1 [], .other 2 ["passwordChanged"]])
        (runCalls [("password", utf16 "a")] (wiredPage []))).page
      "password" (.str (utf16 "b")) [.validator] [.other 2 ["passwordChanged"]] (.other 1 [])
      (by decide) (by decide) (by decide) (by decide)).2.1⟩

/-- Claim C18 fails as stated: on the wired page with no password set and the
`confirm` listeners validator, an object with `confirmChanged`, an object
without it, `setValue('confirm', 'x')` throws inside the validator's call; the
second listener, registered before the faulty one, is not notified. -/
theorem c18_counterexample_earlier_listener_skipped :
    (State.addListener "confirm" (.many [.other 1 ["confirmChanged"], .other 2 []])
        (wiredPage [])).page.listener.lookup "confirm"
      = some ([.validator, .other 1 ["confirmChanged"]] ++ .other 2 [] :: []) ∧
    (Listener.other 2 []).hasMethod "confirmChanged" = false ∧
    strictEq ((State.addListener "confirm" (.many [.other 1 ["confirmChanged"], .other 2 []])
        (wiredPage [])).page.att "confirm") (.str (utf16 "x")) = false ∧
    callsOf "confirm" (State.setValue "confirm" (.str (utf16 "x"))
        (State.addListener "confirm" (.many [.other 1 ["confirmChanged"], .other 2 []])
          (wiredPage [])).page).trace
      = [.called .validator "confirmChanged" (.str (utf16 "x"))] ∧
    callsOf "confirm" (State.setValue "confirm" (.str (utf16 "x"))
        (State.addListener "confirm" (.many [.other 1 ["confirmChanged"], .other 2 []])
          (wiredPage [])).page).trace
      ≠ [Listener.validator, .other 1 ["confirmChanged"]].map
          (fun x => Event.called x "confirmChanged" (.str (utf16 "x"))) := by
  decide

/-! ## The reposition step -/

theorem filter_insertBeforeIn (n ref : Nat) (l : List Nat) (h : n ≠ ref) :
    (insertBeforeIn n ref l).filter (fun x => x != n) = l.filter (fun x => x != n) := by
  induction l with
  | nil => rfl
  | cons x xs ih =>
    by_cases hx : x = ref
    · subst hx
      simp [insertBeforeIn]
    · simp only [insertBeforeIn, hx, if_false, List.filter_cons, ih]

theorem insertBeforeIn_split (n ref : Nat) (l : List Nat) (h : ref ∈ l) :
    ∃ a b, insertBeforeIn n ref l = a ++ n :: ref :: b := by
  induction l with
  | nil => simp at h
  | cons x xs ih =>
    by_cases hx : x = ref
    · subst hx
      exact ⟨[], xs, by simp [insertBeforeIn]⟩
    · have h2 : ref ∈ xs := by
        rcases List.mem_cons.1 h with h3 | h3
        · exact absurd h3.symm hx
        · exact h3
      obtain ⟨a, b, hab⟩ := ih h2
      exact ⟨x :: a, b, by simp [insertBeforeIn, hx, hab]⟩

/-- The reposition step, run once and run again. -/
theorem reposition_twice (d : Dom) (policy submit : Nat) (hs : submit ∈ d.form)
    (hne : policy ≠ submit) :
    ∃ d1, FormUpdate.reposition policy submit d = some d1 ∧
      FormUpdate.reposition policy submit d1 = some d1 ∧
      (∃ a b, d1.form = a ++ policy :: submit :: b) ∧ policy ∉ d1.elsewhere := by
  have hmem : submit ∈ d.form.filter (fun x => x != policy) := by
    simp only [List.mem_filter, bne_iff_ne, ne_eq]
    exact ⟨hs, fun h => hne h.symm⟩
  have h1 : FormUpdate.reposition policy submit d
      = some ⟨insertBeforeIn policy submit (d.form.filter (fun x => x != policy)),
          d.elsewhere.filter (fun x => x != policy)⟩ := by
    simp [FormUpdate.reposition, remove, Dom.insertBefore, hmem, List.filter_filter]
  refine ⟨_, h1, ?_, insertBeforeIn_split _ _ _ hmem, by simp⟩
  have hmem2 : submit ∈ (insertBeforeIn policy submit
      (d.form.filter (fun x => x != policy))).filter (fun x => x != policy) := by
    rw [filter_insertBeforeIn _ _ _ hne, List.filter_filter]
    simpa using hmem
  simp only [FormUpdate.reposition, remove, Dom.insertBefore, hmem2, if_true, List.filter_filter,
    Bool.and_self]
  rw [filter_insertBeforeIn _ _ _ hne, List.filter_filter]
  simp

/-- Claim C19: when the submit section is a child of the form and the hint
element is another node, the reposition step of `checkPolicy` succeeds, a
second run right after it succeeds too and leaves the document as the first
run left it (same child order of the form), and after the first run as after
the second the hint element is the child of the form right before the submit
section; this holds whether the hint was a child of the form, of another
parent, or of none. -/
theorem c19_reposition_idempotent (d : Dom) (policy submit : Nat) (hs : submit ∈ d.form)
    (hne : policy ≠ submit) :
    ∃ d1, FormUpdate.reposition policy submit d = some d1 ∧
      FormUpdate.reposition policy submit d1 = some d1 ∧
      (∃ a b, d1.form = a ++ policy :: submit :: b) ∧ policy ∉ d1.elsewhere :=
  reposition_twice d policy submit hs hne

/-- Claim C19, witness: form children 1, 2, 3 with submit section 3, and the hint
9 detached, attached elsewhere, or already a child of the form. -/
theorem c19_witness_three_sections :
    FormUpdate.reposition 9 3 ⟨[1, 2, 3], []⟩ = some ⟨[1, 2, 9, 3], []⟩ ∧
    FormUpdate.reposition 9 3 ⟨[1, 2, 3], [9]⟩ = some ⟨[1, 2, 9, 3], []⟩ ∧
    FormUpdate.reposition 9 3 ⟨[9, 1, 2, 3], []⟩ = some ⟨[1, 2, 9, 3], []⟩ ∧
    FormUpdate.reposition 9 3 ⟨[1, 2, 9, 3], []⟩ = some ⟨[1, 2, 9, 3], []⟩ ∧
    (∃ d1, FormUpdate.reposition 9 3 ⟨[1, 2, 3], [9]⟩ = some d1 ∧
      FormUpdate.reposition 9 3 d1 = some d1 ∧
      (∃ a b, d1.form = a ++ 9 :: 3 :: b) ∧ 9 ∉ d1.elsewhere) :=
  ⟨by decide, by decide, by decide, by decide,
    c19_reposition_idempotent ⟨[1, 2, 3], [9]⟩ 9 3 (by decide) (by decide)⟩

/-! ## When `valid` is written -/

/-- Once a password is set, a changed password or confirm makes the validator
store a new array as `valid` and each `validChanged` listener is called. -/
theorem setTo_change_notifies (pg : Page) (s : JSString) (c : Value) (h : SetTo s c pg) :
    (∀ s2 : JSString, s2 ≠ s →
      ∃ vid, strictEq (pg.att "valid") (.arr vid (ruleVector s2 c)) = false ∧
        (State.setValue "password" (.str s2) pg).trace
          = [.stored "password" (.str s2), .called .validator "passwordChanged" (.str s2),
             .stored "valid" (.arr vid (ruleVector s2 c)),
             .called .form "validChanged" (.arr vid (ruleVector s2 c)),
             .called .hint "validChanged" (.arr vid (ruleVector s2 c))]) ∧
      (∀ t : JSString, c ≠ .str t →
      ∃ vid, strictEq (pg.att "valid") (.arr vid (ruleVector s (.str t))) = false ∧
        (State.setValue "confirm" (.str t) pg).trace
          = [.stored "confirm" (.str t), .called .validator "confirmChanged" (.str t),
             .stored "valid" (.arr vid (ruleVector s (.str t))),
             .called .form "validChanged" (.arr vid (ruleVector s (.str t))),
             .called .hint "validChanged" (.arr vid (ruleVector s (.str t)))]) := by
  obtain ⟨u, vid, vc, hints, next, rfl, hid, hl, -⟩ := h
  have hne : ∀ a b, strictEq (.arr vid a) (.arr next b) = false := by
    intro a b; simp [strictEq]; omega
  constructor
  · intro s2 hs
    have hp : strictEq (.str s) (.str s2) = false := by
      cases hq : strictEq (.str s) (.str s2) with
      | false => rfl
      | true => exact absurd ((strictEq_str _ _).1 hq).symm hs
    exact ⟨next, hne _ _, by rw [password_step _ _ _ _ _ _ _ _ _ _ _ hid hl hp]⟩
  · intro t ht
    have hp : strictEq c (.str t) = false := by
      cases hq : strictEq c (.str t) with
      | false => rfl
      | true => exact absurd ((strictEq_str_left _ _).1 hq) ht
    exact ⟨next, hne _ _, by rw [confirm_step _ _ _ _ _ _ _ _ _ _ _ hid hl hp]⟩

/-- Claim C20, amended: `setValue` is a no-op, with no listener called, when the
test `this.atts[att] === v` succeeds, and stores otherwise, for every field;
but arrays are equal only to themselves and the validator builds a new array
at each evaluation. So in every state reached from the wired page by calls on
`password` and `confirm`, a call `setValue(att, v)` on `password` or
`confirm` that changes the stored value and leaves a password set (`att` is
`password`, or a password was set before) makes the validator store a new
array as `valid`, one not strictly equal to the stored vector, and both
`validChanged` listeners are called, whether or not its elements equal those
of the stored vector. (A change of `confirm` while no password was ever set
ends in the validator instead, see claim C17.) -/
theorem c20_valid_always_rewritten :
    (∀ (pg : Page) (att : String) (v : Value), pg.holds att v = true →
        State.setValue att v pg = ⟨pg, [], .returned .undefined⟩) ∧
      (∀ (pg : Page) (att : String) (v : Value), pg.holds att v = false →
        (State.setValue att v pg).trace.head? = some (.stored att v)) ∧
      (∀ (u : JSString) (calls : List (String × JSString)) (att : String) (v : JSString),
        (∀ x ∈ calls, x.1 = "password" ∨ x.1 = "confirm") →
        att = "password" ∨ att = "confirm" →
        (runCalls calls (wiredPage u)).att att ≠ .str v →
        (att = "password" ∨ ∃ p, (runCalls calls (wiredPage u)).att "password" = .str p) →
        ∃ vid vec,
          strictEq ((runCalls calls (wiredPage u)).att "valid") (.arr vid vec) = false ∧
          (State.setValue att (.str v) (runCalls calls (wiredPage u))).trace
            = [.stored att (.str v), .called .validator (att ++ "Changed") (.str v),
               .stored "valid" (.arr vid vec), .called .form "validChanged" (.arr vid vec),
               .called .hint "validChanged" (.arr vid vec)]) := by
  refine ⟨fun pg att v h => setValue_same att v pg h, ?_, ?_⟩
  · intro pg att v h
    cases hl : pg.listener.lookup att with
    | none => rw [setValue_unknown pg att v hl, h]; rfl
    | some ls => exact (setValue_changed pg att v ls hl h).1
  · intro u calls att v h ha hne hset
    rcases runCalls_reach calls h _ (Or.inl (unset_wiredPage u)) with hu | ⟨p, c, hs⟩
    · obtain ⟨u1, c, vid, vec, vc, hints, d, next, hpg, hid, hl⟩ := hu
      rw [hpg] at hne hset ⊢
      rcases hset with rfl | ⟨p, hp⟩
      · refine ⟨next, ruleVector v c, ?_, ?_⟩
        · simp [wiredWith, Page.att, List.lookup, strictEq]; omega
        · rw [password_step u1 .undefined c vid vec .undefined vc hints d next v hid hl rfl]
          rfl
      · simp [wiredWith, Page.att, List.lookup] at hp
    · obtain ⟨h1, h2, -⟩ := setTo_att _ _ _ hs
      rcases ha with rfl | rfl
      · have hs2 : v ≠ p := by
          intro he
          subst he
          exact hne h1
        obtain ⟨vid, hv, ht⟩ := (setTo_change_notifies _ p c hs).1 v hs2
        exact ⟨vid, _, hv, ht⟩
      · have hc : c ≠ .str v := by
          intro he
          subst he
          exact hne h2
        obtain ⟨vid, hv, ht⟩ := (setTo_change_notifies _ p c hs).2 v hc
        exact ⟨vid, _, hv, ht⟩

/-- Claim C20, witness: on the wired page with the password `a`, the password
changed to `b`, and the confirm value set to `b`. -/
theorem c20_witness_a_to_b :
    (runCalls [("password", utf16 "a")] (wiredPage [])).att "password" ≠ .str (utf16 "b") ∧
    (∃ vid vec,
      strictEq ((runCalls [("password", utf16 "a")] (wiredPage [])).att "valid")
          (.arr vid vec) = false ∧
      (State.setValue "password" (.str (utf16 "b"))
          (runCalls [("password", utf16 "a")] (wiredPage []))).trace
        = [.stored "password" (.str (utf16 "b")),
           .called .validator ("password" ++ "Changed") (.str (utf16 "b")),
           .stored "valid" (.arr vid vec), .called .form "validChanged" (.arr vid vec),
           .called .hint "validChanged" (.arr vid vec)]) ∧
    (∃ vid vec,
      strictEq ((runCalls [("password", utf16 "a")] (wiredPage [])).att "valid")
          (.arr vid vec) = false ∧
      (State.setValue "confirm" (.str (utf16 "b"))
          (runCalls [("password", utf16 "a")] (wiredPage []))).trace
        = [.stored "confirm" (.str (utf16 "b")),
           .called .validator ("confirm" ++ "Changed") (.str (utf16 "b")),
           .stored "valid" (.arr vid vec), .called .form "validChanged" (.arr vid vec),
           .called .hint "validChanged" (.arr vid vec)]) :=
  ⟨by decide,
    c20_valid_always_rewritten.2.2 [] [("password", utf16 "a")] "password" (utf16 "b")
      (by simp) (Or.inl rfl) (by decide) (Or.inl rfl),
    c20_valid_always_rewritten.2.2 [] [("password", utf16 "a")] "confirm" (utf16 "b")
      (by simp) (Or.inr rfl) (by decide) (Or.inr ⟨utf16 "a", by decide⟩)⟩

/-- Claim C20 fails as stated: with the password `a` stored on the wired page
the vector is `[false, true, false, false, false, false]`; changing the
password to `b` gives a vector with the same elements, yet `valid` is stored
again and `FormUpdate.validChanged` and `PasswordPolicyHint.validChanged`
are both called. -/
theorem c20_counterexample_equal_vector_notifies :
    ((runCalls [("password", utf16 "a")] (wiredPage [])).att "valid").elems
      = [false, true, false, false, false, false] ∧
    ((State.setValue "password" (.str (utf16 "b"))
        (runCalls [("password", utf16 "a")] (wiredPage []))).page.att "valid").elems
      = [false, true, false, false, false, false] ∧
    callsOf "valid" (State.setValue "password" (.str (utf16 "b"))
        (runCalls [("password", utf16 "a")] (wiredPage []))).trace
      = [.called .form "validChanged" (.arr 2 [false, true, false, false, false, false]),
         .called .hint "validChanged" (.arr 2 [false, true, false, false, false, false])] ∧
    Event.stored "valid" (.arr 2 [false, true, false, false, false, false])
      ∈ (State.setValue "password" (.str (utf16 "b"))
        (runCalls [("password", utf16 "a")] (wiredPage []))).trace := by
  decide

/-! ## Defaults and failures of single methods -/

/-- Claim C21: for every rule whose check is neither a regular expression nor a
function, whatever its name and whatever the page (the validator's password
unset, a string or anything else), `Validator.checkRule` returns false and
does not throw. -/
theorem c21_unknown_check_is_false (pg : Page) (name : String) (vp : Value) :
    Validator.checkRule pg (name, .other) = some false ∧
      Validator.checkRule { pg with validatorPassword := vp } (name, .other) = some false ∧
      Validator.checkRule { pg with validatorPassword := .undefined } (name, .other)
        = some false :=
  ⟨rfl, rfl, rfl⟩

/-- Claim C26: on the empty vector `FormUpdate.validChanged` throws a `TypeError`
(the reduction has no initial value) and leaves the page, the button's
`disabled` attribute included, as it was: the button is neither enabled nor
disabled by the call. -/
theorem c26_empty_vector_throws (pg : Page) (vid : Nat) (d : Bool) :
    FormUpdate.validChanged (.arr vid []) pg = ⟨pg, [], .typeError⟩ ∧
      (FormUpdate.validChanged (.arr vid []) { pg with button := some d }).page.button
        = some d ∧
      (FormUpdate.validChanged (.arr vid []) { pg with button := some d }).completion
        = .typeError :=
  ⟨rfl, rfl, rfl⟩

/-- Claim C27 fails as stated: `toString` is none of the four fields, and on the
fresh store `setValue('toString', undefined)` does not return: `atts.toString`
reads the function inherited from `Object.prototype`, so `undefined` is
stored under that name and the call throws. And `setValue('__proto__', 'x')`
throws with the field map left as it was, `__proto__` being an accessor. -/
theorem c27_counterexample_inherited_names :
    "toString" ∉ ["username", "password", "confirm", "valid"] ∧
    State.setValue "toString" .undefined State.new
      = ⟨{ State.new with atts := assign "toString" .undefined State.new.atts },
          [.stored "toString" .undefined], .typeError⟩ ∧
    (State.setValue "toString" .undefined State.new).page.atts ≠ State.new.atts ∧
    "__proto__" ∉ ["username", "password", "confirm", "valid"] ∧
    (State.setValue "__proto__" (.str (utf16 "x")) State.new).completion = .typeError ∧
    (State.setValue "__proto__" (.str (utf16 "x")) State.new).page = State.new := by
  decide

/-- Claim C27, amended: for a field name for which the store has no own property
in `atts` and none in `listener`, `setValue(field, v)` with `v` other than
`undefined` ends with a `TypeError` after the assignment `atts[field] = v`
has run, and nothing else has happened; for every name but `__proto__` the
assignment stores `v` under that name, so the page it leaves differs from the
former one in `atts`, where the field now reads `v`, although the call
failed; on `__proto__` a string is not stored and the page is left as it was.
With `v = undefined` the call returns `undefined`, the page unchanged and the
trace empty, when the field map does not inherit a property of that name; when
it does (the property names of `Object.prototype`), the assignment runs and
the call throws as well. -/
theorem c27_unknown_field_not_atomic (pg : Page) (att : String) (v : Value)
    (ha : pg.atts.lookup att = none) (hl : pg.listener.lookup att = none)
    (hv : v ≠ .undefined) :
    State.setValue att v pg
        = ⟨{ pg with atts := Page.store att v pg.atts }, [.stored att v], .typeError⟩ ∧
      (att ≠ "__proto__" →
        (State.setValue att v pg).page.att att = v ∧
          (State.setValue att v pg).page.atts ≠ pg.atts) ∧
      (att = "__proto__" → ∀ s, v = .str s → (State.setValue att v pg).page = pg) ∧
      (pg.inherits att = false →
        State.setValue att .undefined pg = ⟨pg, [], .returned .undefined⟩) ∧
      (pg.inherits att = true →
        State.setValue att .undefined pg
          = ⟨{ pg with atts := Page.store att .undefined pg.atts }, [.stored att .undefined],
              .typeError⟩) := by
  have hh : pg.holds att v = false := by
    cases hq : pg.holds att v with
    | false => rfl
    | true => exact absurd ((holds_absent pg att v ha).1 hq).1 hv
  have h1 : State.setValue att v pg
      = ⟨{ pg with atts := Page.store att v pg.atts }, [.stored att v], .typeError⟩ := by
    rw [setValue_unknown pg att v hl, hh]
    rfl
  refine ⟨h1, fun hf => ?_, fun hf s hs => ?_, fun hi => ?_, fun hi => ?_⟩
  · rw [h1]
    refine ⟨stored_att pg att v hf, ?_⟩
    intro he
    have h3 : (assign att v pg.atts).lookup att = some v := lookup_assign_same _ _ _
    simp only [store_other att v _ hf] at he
    rw [he, ha] at h3
    exact absurd h3 (by simp)
  · rw [h1]
    subst hf hs
    simp [Page.store]
  · rw [setValue_unknown pg att .undefined hl, (holds_absent pg att .undefined ha).2 ⟨rfl, hi⟩]
    rfl
  · have hq : pg.holds att .undefined = false := by
      cases hq : pg.holds att .undefined with
      | false => rfl
      | true =>
        rw [((holds_absent pg att .undefined ha).1 hq).2] at hi
        exact absurd hi (by decide)
    rw [setValue_unknown pg att .undefined hl, hq]
    rfl

/-- Claim C27, witness: the field `foo` on the fresh store, with the value `x`. -/
theorem c27_witness_foo :
    State.new.atts.lookup "foo" = none ∧
    State.new.listener.lookup "foo" = none ∧ Value.str (utf16 "x") ≠ .undefined ∧
    (State.setValue "foo" (.str (utf16 "x")) State.new).completion = .typeError ∧
    (State.setValue "foo" (.str (utf16 "x")) State.new).page.att "foo" = .str (utf16 "x") ∧
    State.setValue "foo" .undefined State.new = ⟨State.new, [], .returned .undefined⟩ :=
  ⟨by decide, by decide, by decide, by decide,
    ((c27_unknown_field_not_atomic State.new "foo" (.str (utf16 "x")) (by decide) (by decide)
      (by decide)).2.1 (by decide)).1,
    (c27_unknown_field_not_atomic State.new "foo" (.str (utf16 "x")) (by decide) (by decide)
      (by decide)).2.2.2.1 (by decide)⟩

/-! ## The four character classes -/

/-- Every code unit is matched by exactly one of `[a-z]`, `[A-Z]`, `\d` and
`[^a-zA-Z0-9]`. -/
theorem classes_partition (c : Nat) :
    ((Atom.cls false [('a'.toNat, 'z'.toNat)]).test c = true ∧
        (Atom.cls false [('A'.toNat, 'Z'.toNat)]).test c = false ∧
        Atom.digit.test c = false ∧
        (Atom.cls true [('a'.toNat, 'z'.toNat), ('A'.toNat, 'Z'.toNat),
          ('0'.toNat, '9'.toNat)]).test c = false) ∨
      ((Atom.cls false [('a'.toNat, 'z'.toNat)]).test c = false ∧
        (Atom.cls false [('A'.toNat, 'Z'.toNat)]).test c = true ∧
        Atom.digit.test c = false ∧
        (Atom.cls true [('a'.toNat, 'z'.toNat), ('A'.toNat, 'Z'.toNat),
          ('0'.toNat, '9'.toNat)]).test c = false) ∨
      ((Atom.cls false [('a'.toNat, 'z'.toNat)]).test c = false ∧
        (Atom.cls false [('A'.toNat, 'Z'.toNat)]).test c = false ∧
        Atom.digit.test c = true ∧
        (Atom.cls true [('a'.toNat, 'z'.toNat), ('A'.toNat, 'Z'.toNat),
          ('0'.toNat, '9'.toNat)]).test c = false) ∨
      ((Atom.cls false [('a'.toNat, 'z'.toNat)]).test c = false ∧
        (Atom.cls false [('A'.toNat, 'Z'.toNat)]).test c = false ∧
        Atom.digit.test c = false ∧
        (Atom.cls true [('a'.toNat, 'z'.toNat), ('A'.toNat, 'Z'.toNat),
          ('0'.toNat, '9'.toNat)]).test c = true) := by
  simp [Atom.test, inRanges]
  omega

theorem checkRule_index (pg : Page) (p : JSString) :
    Validator.rules[1]?.bind (Validator.checkRule { pg with validatorPassword := .str p })
        = some (regexMatch reHasLower p) ∧
      Validator.rules[2]?.bind (Validator.checkRule { pg with validatorPassword := .str p })
        = some (regexMatch reHasUpper p) ∧
      Validator.rules[3]?.bind (Validator.checkRule { pg with validatorPassword := .str p })
        = some (regexMatch reHasNumber p) ∧
      Validator.rules[4]?.bind (Validator.checkRule { pg with validatorPassword := .str p })
        = some (regexMatch reHasSpecial p) := by
  refine ⟨?_, ?_, ?_, ?_⟩ <;>
    simp only [Validator.rules, List.getElem?_cons_zero, List.getElem?_cons_succ,
      Option.some_bind, Validator.checkRule]

/-- Claim C29: every code unit is matched by exactly one of the classes `[a-z]`,
`[A-Z]`, `\d`, `[^a-zA-Z0-9]` of the rules at index 1 to 4; so on a non-empty
password `c :: p` at least one of these four rules is true, and the rule at
index 4 (`HAS_SPECIAL`) is false exactly when every code unit of the password
is in `a`-`z`, `A`-`Z` or `0`-`9`. -/
theorem c29_classes_partition (pg : Page) (c : Nat) (p : JSString) :
    (((Atom.cls false [('a'.toNat, 'z'.toNat)]).test c = true ∧
        (Atom.cls false [('A'.toNat, 'Z'.toNat)]).test c = false ∧
        Atom.digit.test c = false ∧
        (Atom.cls true [('a'.toNat, 'z'.toNat), ('A'.toNat, 'Z'.toNat),
          ('0'.toNat, '9'.toNat)]).test c = false) ∨
      ((Atom.cls false [('a'.toNat, 'z'.toNat)]).test c = false ∧
        (Atom.cls false [('A'.toNat, 'Z'.toNat)]).test c = true ∧
        Atom.digit.test c = false ∧
        (Atom.cls true [('a'.toNat, 'z'.toNat), ('A'.toNat, 'Z'.toNat),
          ('0'.toNat, '9'.toNat)]).test c = false) ∨
      ((Atom.cls false [('a'.toNat, 'z'.toNat)]).test c = false ∧
        (Atom.cls false [('A'.toNat, 'Z'.toNat)]).test c = false ∧
        Atom.digit.test c = true ∧
        (Atom.cls true [('a'.toNat, 'z'.toNat), ('A'.toNat, 'Z'.toNat),
          ('0'.toNat, '9'.toNat)]).test c = false) ∨
      ((Atom.cls false [('a'.toNat, 'z'.toNat)]).test c = false ∧
        (Atom.cls false [('A'.toNat, 'Z'.toNat)]).test c = false ∧
        Atom.digit.test c = false ∧
        (Atom.cls true [('a'.toNat, 'z'.toNat), ('A'.toNat, 'Z'.toNat),
          ('0'.toNat, '9'.toNat)]).test c = true)) ∧
      (Validator.rules[1]?.bind
            (Validator.checkRule { pg with validatorPassword := .str (c :: p) }) = some true ∨
        Validator.rules[2]?.bind
            (Validator.checkRule { pg with validatorPassword := .str (c :: p) }) = some true ∨
        Validator.rules[3]?.bind
            (Validator.checkRule { pg with validatorPassword := .str (c :: p) }) = some true ∨
        Validator.rules[4]?.bind
            (Validator.checkRule { pg with validatorPassword := .str (c :: p) }) = some true) ∧
      (Validator.rules[4]?.bind
            (Validator.checkRule { pg with validatorPassword := .str p }) = some false ↔
        ∀ x ∈ p, ('a'.toNat ≤ x ∧ x ≤ 'z'.toNat) ∨ ('A'.toNat ≤ x ∧ x ≤ 'Z'.toNat) ∨
          ('0'.toNat ≤ x ∧ x ≤ '9'.toNat)) := by
  refine ⟨classes_partition c, ?_, ?_⟩
  · obtain ⟨h1, h2, h3, h4⟩ := checkRule_index pg (c :: p)
    rw [h1, h2, h3, h4]
    simp only [reHasLower, reHasUpper, reHasNumber, reHasSpecial, regexMatch_atom,
      List.any_cons, Option.some.injEq, Bool.or_eq_true]
    rcases classes_partition c with h | h | h | h
    · exact Or.inl (Or.inl h.1)
    · exact Or.inr (Or.inl (Or.inl h.2.1))
    · exact Or.inr (Or.inr (Or.inl (Or.inl h.2.2.1)))
    · exact Or.inr (Or.inr (Or.inr (Or.inl h.2.2.2)))
  · rw [(checkRule_index pg p).2.2.2]
    simp only [Option.some.injEq]
    rw [← Bool.not_eq_true, hasSpecial_iff]
    constructor
    · intro h x hx
      by_contra hc
      exact h ⟨x, hx, by omega⟩
    · rintro h ⟨x, hx, h1⟩
      have := h x hx
      omega

theorem checkRule_okLength_long (pg : Page) (p : JSString) (h : 200 < p.length) :
    Validator.rules[0]?.bind (Validator.checkRule { pg with validatorPassword := .str p })
      = some false := by
  rw [checkRule_okLength]
  simp only [Option.some.injEq, decide_eq_false_iff_not]
  intro h2
  omega

theorem checkRule_okLength_fit (pg : Page) (p : JSString) (h1 : 15 ≤ p.length)
    (h2 : p.length ≤ 200) (h3 : ∀ c ∈ p, isLineTerminator c = false) :
    Validator.rules[0]?.bind (Validator.checkRule { pg with validatorPassword := .str p })
      = some true := by
  rw [checkRule_okLength]
  simp only [Option.some.injEq, decide_eq_true_eq]
  exact ⟨h1, h2, h3⟩

theorem replicate_201_length : (List.replicate 201 'a'.toNat).length = 201 :=
  List.length_replicate _ _

/-- Claim C23 fails as stated: 201 letters `a` have a length of at least 15, and
`checkRule` on the rule at index 0 (`OK_LENGTH`) returns false for them. -/
theorem c23_counterexample_201_letters :
    15 ≤ (List.replicate 201 'a'.toNat).length ∧
    Validator.rules[0]?.bind (Validator.checkRule
        { State.new with validatorPassword := .str (List.replicate 201 'a'.toNat) })
      = some false :=
  ⟨by rw [replicate_201_length]; decide,
    checkRule_okLength_long State.new _ (by rw [replicate_201_length]; decide)⟩

/-- Claim C23, amended: for every password whose length is at least 15 and at most
200 and which holds no line terminator, `checkRule` on `OK_LENGTH` returns
true; for every password longer than 200 it returns false. -/
theorem c23_length_between_15_and_200 (pg : Page) (p : JSString) :
    (15 ≤ p.length → p.length ≤ 200 → (∀ c ∈ p, isLineTerminator c = false) →
        Validator.rules[0]?.bind (Validator.checkRule { pg with validatorPassword := .str p })
          = some true) ∧
      (200 < p.length →
        Validator.rules[0]?.bind (Validator.checkRule { pg with validatorPassword := .str p })
          = some false) :=
  ⟨checkRule_okLength_fit pg p, checkRule_okLength_long pg p⟩

/-- Claim C23, witness: fifteen letters `a`, and 201 of them. -/
theorem c23_witness_15_and_201 :
    15 ≤ (List.replicate 15 'a'.toNat).length ∧
    (List.replicate 15 'a'.toNat).length ≤ 200 ∧
    (∀ c ∈ List.replicate 15 'a'.toNat, isLineTerminator c = false) ∧
    Validator.rules[0]?.bind (Validator.checkRule
        { State.new with validatorPassword := .str (List.replicate 15 'a'.toNat) })
      = some true ∧
    200 < (List.replicate 201 'a'.toNat).length ∧
    Validator.rules[0]?.bind (Validator.checkRule
        { State.new with validatorPassword := .str (List.replicate 201 'a'.toNat) })
      = some false :=
  ⟨by decide, by decide, by decide,
    (c23_length_between_15_and_200 State.new (List.replicate 15 'a'.toNat)).1 (by decide)
      (by decide) (by decide),
    by rw [replicate_201_length]; decide,
    (c23_length_between_15_and_200 State.new (List.replicate 201 'a'.toNat)).2
      (by rw [replicate_201_length]; decide)⟩

/-! ## Reachable states of the wired page -/

theorem all_ruleVector (s : JSString) (c : Value)
    (h : ((ruleVector s c).all fun b => b) = true) :
    regexMatch reOkLength s = true ∧ regexMatch reHasLower s = true ∧
      regexMatch reHasUpper s = true ∧ regexMatch reHasNumber s = true ∧
      regexMatch reHasSpecial s = true ∧ s ≠ [] ∧ c = .str s := by
  simp only [ruleVector, List.all_cons, List.all_nil, Bool.and_true, Bool.and_eq_true] at h
  obtain ⟨h1, h2, h3, h4, h5, h6⟩ := h
  have h7 := okConfirm_sixth s c
  rw [h6.1, h6.2] at h7
  have h8 := of_decide_eq_true h7.symm
  exact ⟨h1, h2, h3, h4, h5, h8.1, h8.2⟩

/-- In a reached state the button is enabled only when the stored pair passes
every rule. -/
theorem enabled_only_if_valid (u : JSString) (calls : List (String × JSString))
    (h : ∀ x ∈ calls, x.1 = "password" ∨ x.1 = "confirm")
    (hb : (runCalls calls (wiredPage u)).button = some false) :
    ∃ p, (runCalls calls (wiredPage u)).att "password" = .str p ∧
      15 ≤ p.length ∧ p.length ≤ 200 ∧
      (∃ c ∈ p, 'a'.toNat ≤ c ∧ c ≤ 'z'.toNat) ∧
      (∃ c ∈ p, 'A'.toNat ≤ c ∧ c ≤ 'Z'.toNat) ∧
      (∃ c ∈ p, '0'.toNat ≤ c ∧ c ≤ '9'.toNat) ∧
      (∃ c ∈ p, ¬('a'.toNat ≤ c ∧ c ≤ 'z'.toNat) ∧ ¬('A'.toNat ≤ c ∧ c ≤ 'Z'.toNat) ∧
        ¬('0'.toNat ≤ c ∧ c ≤ '9'.toNat)) ∧
      p ≠ [] ∧ (runCalls calls (wiredPage u)).att "confirm" = .str p := by
  rcases runCalls_track calls h _ (Or.inl (pristine_wiredPage u)) with hp | ⟨s, c, hs⟩
  · obtain ⟨u1, c1, vc, hints, he, -, -⟩ := hp
    rw [he] at hb
    exact absurd hb (by simp [wiredWith])
  · obtain ⟨h1, h2, -, h4, -⟩ := setTo_att _ _ _ hs
    rw [h4] at hb
    have hall : ((ruleVector s c).all fun b => b) = true := by
      cases hq : (ruleVector s c).all fun b => b with
      | true => rfl
      | false => rw [hq] at hb; simp at hb
    obtain ⟨a1, a2, a3, a4, a5, a6, a7⟩ := all_ruleVector s c hall
    have hl := (okLength_iff s).1 a1
    exact ⟨s, h1, hl.1, hl.2.1, (hasLower_iff s).1 a2, (hasUpper_iff s).1 a3,
      (hasNumber_iff s).1 a4, (hasSpecial_iff s).1 a5, a6, by rw [h2, a7]⟩

/-- Claim C24: in every state reached from the wired page (button disabled, vector
`[false]`) by `setValue` calls on `password` and `confirm` with string values,
in any order and so also when the first call sets `password`, the submit
button is enabled only if the stored password is a string of length 15 to 200
with a code unit of each of the four classes, is not empty, and the stored
confirm value is that string. -/
theorem c24_enabled_only_if_pair_valid (u : JSString) (calls : List (String × JSString))
    (h : ∀ x ∈ calls, x.1 = "password" ∨ x.1 = "confirm")
    (hb : (runCalls calls (wiredPage u)).button = some false) :
    ∃ p, (runCalls calls (wiredPage u)).att "password" = .str p ∧
      15 ≤ p.length ∧ p.length ≤ 200 ∧
      (∃ c ∈ p, 'a'.toNat ≤ c ∧ c ≤ 'z'.toNat) ∧
      (∃ c ∈ p, 'A'.toNat ≤ c ∧ c ≤ 'Z'.toNat) ∧
      (∃ c ∈ p, '0'.toNat ≤ c ∧ c ≤ '9'.toNat) ∧
      (∃ c ∈ p, ¬('a'.toNat ≤ c ∧ c ≤ 'z'.toNat) ∧ ¬('A'.toNat ≤ c ∧ c ≤ 'Z'.toNat) ∧
        ¬('0'.toNat ≤ c ∧ c ≤ '9'.toNat)) ∧
      p ≠ [] ∧ (runCalls calls (wiredPage u)).att "confirm" = .str p :=
  enabled_only_if_valid u calls h hb

/-- Claim C24, witness: password then confirm set to `VeryStrongPass123!`, which
enables the button. -/
theorem c24_witness_strong_pair :
    (∀ x ∈ [("password", utf16 "VeryStrongPass123!"), ("confirm", utf16 "VeryStrongPass123!")],
      x.1 = "password" ∨ x.1 = "confirm") ∧
    (runCalls [("password", utf16 "VeryStrongPass123!"),
      ("confirm", utf16 "VeryStrongPass123!")] (wiredPage [])).button = some false ∧
    (∃ p, (runCalls [("password", utf16 "VeryStrongPass123!"),
        ("confirm", utf16 "VeryStrongPass123!")] (wiredPage [])).att "password" = .str p ∧
      15 ≤ p.length ∧ p.length ≤ 200 ∧
      (∃ c ∈ p, 'a'.toNat ≤ c ∧ c ≤ 'z'.toNat) ∧
      (∃ c ∈ p, 'A'.toNat ≤ c ∧ c ≤ 'Z'.toNat) ∧
      (∃ c ∈ p, '0'.toNat ≤ c ∧ c ≤ '9'.toNat) ∧
      (∃ c ∈ p, ¬('a'.toNat ≤ c ∧ c ≤ 'z'.toNat) ∧ ¬('A'.toNat ≤ c ∧ c ≤ 'Z'.toNat) ∧
        ¬('0'.toNat ≤ c ∧ c ≤ '9'.toNat)) ∧
      p ≠ [] ∧
      (runCalls [("password", utf16 "VeryStrongPass123!"),
        ("confirm", utf16 "VeryStrongPass123!")] (wiredPage [])).att "confirm" = .str p) :=
  ⟨by simp, by decide,
    c24_enabled_only_if_pair_valid []
      [("password", utf16 "VeryStrongPass123!"), ("confirm", utf16 "VeryStrongPass123!")]
      (by simp) (by decide)⟩

/-- One `setValue` call on `password` or `confirm` in a reached state: the
validator's copies stay equal to the stored values, and the trace is empty
(unchanged value), or the store and the validator's call that throws (no
password set yet), or the store, the validator's call, the store of the new
vector and the two `validChanged` calls. -/
theorem reach_step (pg : Page) (att : String) (value : JSString)
    (hp : Pristine pg ∨ ∃ s c, SetTo s c pg)
    (hs : pg.validatorPassword = pg.att "password" ∧ pg.validatorConfirm = pg.att "confirm")
    (ha : att = "password" ∨ att = "confirm") :
    ((State.setValue att (.str value) pg).page.validatorPassword
          = (State.setValue att (.str value) pg).page.att "password" ∧
        (State.setValue att (.str value) pg).page.validatorConfirm
          = (State.setValue att (.str value) pg).page.att "confirm") ∧
      (((State.setValue att (.str value) pg).trace = [] ∧
          (State.setValue att (.str value) pg).completion = .returned .undefined) ∨
        ((State.setValue att (.str value) pg).trace
            = [.stored att (.str value), .called .validator (att ++ "Changed") (.str value)] ∧
          (State.setValue att (.str value) pg).completion = .typeError) ∨
        (∃ vid vec, (State.setValue att (.str value) pg).trace
            = [.stored att (.str value), .called .validator (att ++ "Changed") (.str value),
               .stored "valid" (.arr vid vec), .called .form "validChanged" (.arr vid vec),
               .called .hint "validChanged" (.arr vid vec)] ∧
          (State.setValue att (.str value) pg).completion = .returned .state)) := by
  rcases hp with ⟨u, c, vc, hints, rfl, hl, -⟩ | ⟨s, c, u, vid, vc, hints, next, rfl, hid, hl, -⟩
  · have hvc : vc = c := hs.2
    subst hvc
    rcases ha with rfl | rfl
    · rw [password_step u .undefined vc 0 [false] .undefined vc hints true 1 value (by decide) hl
        rfl]
      exact ⟨⟨rfl, rfl⟩, Or.inr (Or.inr ⟨_, _, rfl, rfl⟩)⟩
    · cases hq : strictEq vc (.str value) with
      | true =>
        rw [setValue_same _ _ _ (by simpa [Page.holds, wiredWith, Page.att, List.lookup] using hq)]
        exact ⟨⟨rfl, rfl⟩, Or.inl ⟨rfl, rfl⟩⟩
      | false =>
        rw [confirm_step_unset _ _ _ _ _ _ _ _ _ _ hq]
        exact ⟨⟨rfl, rfl⟩, Or.inr (Or.inl ⟨rfl, rfl⟩)⟩
  · have hvc : vc = c := hs.2
    subst hvc
    rcases ha with rfl | rfl
    · cases hq : strictEq (.str s) (.str value) with
      | true =>
        rw [setValue_same _ _ _ (by simpa [Page.holds, wiredWith, Page.att, List.lookup] using hq)]
        exact ⟨⟨rfl, rfl⟩, Or.inl ⟨rfl, rfl⟩⟩
      | false =>
        rw [password_step _ _ _ _ _ _ _ _ _ _ _ hid hl hq]
        exact ⟨⟨rfl, rfl⟩, Or.inr (Or.inr ⟨_, _, rfl, rfl⟩)⟩
    · cases hq : strictEq vc (.str value) with
      | true =>
        rw [setValue_same _ _ _ (by simpa [Page.holds, wiredWith, Page.att, List.lookup] using hq)]
        exact ⟨⟨rfl, rfl⟩, Or.inl ⟨rfl, rfl⟩⟩
      | false =>
        rw [confirm_step _ _ _ _ _ _ _ _ _ _ _ hid hl hq]
        exact ⟨⟨rfl, rfl⟩, Or.inr (Or.inr ⟨_, _, rfl, rfl⟩)⟩

/-- The validator's copies equal the stored values in every reached state. -/
theorem runCalls_synced (calls : List (String × JSString))
    (h : ∀ x ∈ calls, x.1 = "password" ∨ x.1 = "confirm") (pg : Page)
    (hp : Pristine pg ∨ ∃ s c, SetTo s c pg)
    (hs : pg.validatorPassword = pg.att "password" ∧ pg.validatorConfirm = pg.att "confirm") :
    (runCalls calls pg).validatorPassword = (runCalls calls pg).att "password" ∧
      (runCalls calls pg).validatorConfirm = (runCalls calls pg).att "confirm" := by
  induction calls generalizing pg with
  | nil => exact hs
  | cons x rest ih =>
    obtain ⟨att, value⟩ := x
    have hrest : ∀ x ∈ rest, x.1 = "password" ∨ x.1 = "confirm" :=
      fun x hx => h x (List.mem_cons_of_mem _ hx)
    have ha : att = "password" ∨ att = "confirm" := h (att, value) (List.mem_cons_self _ _)
    have hnext : Pristine (State.setValue att (.str value) pg).page ∨
        ∃ s c, SetTo s c (State.setValue att (.str value) pg).page :=
      runCalls_track [(att, value)] (by simpa using ha) pg hp
    exact ih hrest _ hnext (reach_step pg att value hp hs ha).1

/-- The check of `OK_CONFIRM` on a page whose validator holds the stored
password. -/
theorem checkRule_confirm_synced (pg : Page) (p : JSString)
    (hv : pg.validatorPassword = .str p) :
    Validator.rules[5]?.bind (Validator.checkRule pg)
      = some (decide (p ≠ [] ∧ pg.att "confirm" = .str p)) := by
  simp only [Validator.rules, List.getElem?_cons_zero, List.getElem?_cons_succ,
    Option.some_bind, Validator.checkRule, okConfirm, hv]
  rw [okConfirm_sixth]

/-- Claim C25: in every state reached from the wired page, where the validator is
subscribed from the start, by `setValue` calls on `password` and `confirm`
with string values (calls that throw included), the validator's `password`
equals the stored password and its `confirm` the stored confirm value; so
when the stored password is a string `p`, `checkRule` on `OK_CONFIRM` is
whether `p` is not empty and the stored confirm value is `p`. -/
theorem c25_validator_copies_in_sync (u : JSString) (calls : List (String × JSString))
    (h : ∀ x ∈ calls, x.1 = "password" ∨ x.1 = "confirm") :
    (runCalls calls (wiredPage u)).validatorPassword
        = (runCalls calls (wiredPage u)).att "password" ∧
      (runCalls calls (wiredPage u)).validatorConfirm
        = (runCalls calls (wiredPage u)).att "confirm" ∧
      ∀ p, (runCalls calls (wiredPage u)).att "password" = .str p →
        Validator.rules[5]?.bind (Validator.checkRule (runCalls calls (wiredPage u)))
          = some (decide (p ≠ [] ∧ (runCalls calls (wiredPage u)).att "confirm" = .str p)) := by
  obtain ⟨h1, h2⟩ := runCalls_synced calls h (wiredPage u) (Or.inl (pristine_wiredPage u))
    ⟨rfl, rfl⟩
  exact ⟨h1, h2, fun p hp => checkRule_confirm_synced _ p (h1.trans hp)⟩

/-- Claim C25, witness: confirm set first (the call throws), then the password. -/
theorem c25_witness_confirm_then_password :
    (∀ x ∈ [("confirm", utf16 "x"), ("password", utf16 "x")],
      x.1 = "password" ∨ x.1 = "confirm") ∧
    (runCalls [("confirm", utf16 "x"), ("password", utf16 "x")] (wiredPage [])).validatorPassword
      = .str (utf16 "x") ∧
    (runCalls [("confirm", utf16 "x"), ("password", utf16 "x")] (wiredPage [])).validatorConfirm
      = (runCalls [("confirm", utf16 "x"), ("password", utf16 "x")] (wiredPage [])).att
          "confirm" :=
  ⟨by simp, by decide,
    (c25_validator_copies_in_sync [] [("confirm", utf16 "x"), ("password", utf16 "x")]
      (by simp)).2.1⟩

/-- The bounds on the trace of one `setValue` call on `password` or `confirm` in
a reached state. -/
theorem reach_call_bounds (u : JSString) (calls : List (String × JSString))
    (h : ∀ x ∈ calls, x.1 = "password" ∨ x.1 = "confirm") (att : String) (v : JSString)
    (ha : att = "password" ∨ att = "confirm") :
    (State.setValue att (.str v) (runCalls calls (wiredPage u))).completion ≠ .unfinished ∧
      (∀ n, State.setValueN (n + 2) att (.str v) (runCalls calls (wiredPage u))
        = State.setValue att (.str v) (runCalls calls (wiredPage u))) ∧
      (callsTo .validator
        (State.setValue att (.str v) (runCalls calls (wiredPage u))).trace).length ≤ 1 ∧
      (callsTo .form
        (State.setValue att (.str v) (runCalls calls (wiredPage u))).trace).length ≤ 1 ∧
      (callsTo .hint
        (State.setValue att (.str v) (runCalls calls (wiredPage u))).trace).length ≤ 1 ∧
      (storesOf "password"
          (State.setValue att (.str v) (runCalls calls (wiredPage u))).trace).length +
        (storesOf "confirm"
          (State.setValue att (.str v) (runCalls calls (wiredPage u))).trace).length ≤ 1 ∧
      (storesOf "valid"
        (State.setValue att (.str v) (runCalls calls (wiredPage u))).trace).length ≤ 1 ∧
      (callsOf "password"
          (State.setValue att (.str v) (runCalls calls (wiredPage u))).trace).length +
        (callsOf "confirm"
          (State.setValue att (.str v) (runCalls calls (wiredPage u))).trace).length ≤ 1 := by
  have hp := runCalls_track calls h _ (Or.inl (pristine_wiredPage u))
  have hs := runCalls_synced calls h (wiredPage u) (Or.inl (pristine_wiredPage u)) ⟨rfl, rfl⟩
  obtain ⟨-, ht⟩ := reach_step _ att v hp hs ha
  refine ⟨?_, fun n => setValueN_stable n _ _ _, ?_⟩
  · rcases ht with ⟨-, hc⟩ | ⟨-, hc⟩ | ⟨_, _, -, hc⟩ <;> rw [hc] <;> simp
  · rcases ht with ⟨ht, -⟩ | ⟨ht, -⟩ | ⟨vid, vec, ht, -⟩ <;> rw [ht] <;>
      rcases ha with rfl | rfl <;>
      simp [callsTo, storesOf, callsOf, Event.isCall, List.filter_cons]

/-- Claim C22: in every state reached from the wired page, whose only listeners
are the Validator, the PasswordPolicyHint and the FormUpdate, a call
`setValue('password', v)` or `setValue('confirm', v)` with a string ends (it
returns or throws, whatever the nesting budget from two on): the validator is
called at most once, so `checkValid` runs at most once, each of the two
`validChanged` listeners is called at most once, and the stores are at most
the one into the field itself and one into `valid`: no callback stores into
`password` or `confirm` or calls `passwordChanged` or `confirmChanged` again. -/
theorem c22_one_round_of_notification (u : JSString) (calls : List (String × JSString))
    (h : ∀ x ∈ calls, x.1 = "password" ∨ x.1 = "confirm") (att : String) (v : JSString)
    (ha : att = "password" ∨ att = "confirm") :
    (State.setValue att (.str v) (runCalls calls (wiredPage u))).completion ≠ .unfinished ∧
      (∀ n, State.setValueN (n + 2) att (.str v) (runCalls calls (wiredPage u))
        = State.setValue att (.str v) (runCalls calls (wiredPage u))) ∧
      (callsTo .validator
        (State.setValue att (.str v) (runCalls calls (wiredPage u))).trace).length ≤ 1 ∧
      (callsTo .form
        (State.setValue att (.str v) (runCalls calls (wiredPage u))).trace).length ≤ 1 ∧
      (callsTo .hint
        (State.setValue att (.str v) (runCalls calls (wiredPage u))).trace).length ≤ 1 ∧
      (storesOf "password"
          (State.setValue att (.str v) (runCalls calls (wiredPage u))).trace).length +
        (storesOf "confirm"
          (State.setValue att (.str v) (runCalls calls (wiredPage u))).trace).length ≤ 1 ∧
      (storesOf "valid"
        (State.setValue att (.str v) (runCalls calls (wiredPage u))).trace).length ≤ 1 ∧
      (callsOf "password"
          (State.setValue att (.str v) (runCalls calls (wiredPage u))).trace).length +
        (callsOf "confirm"
          (State.setValue att (.str v) (runCalls calls (wiredPage u))).trace).length ≤ 1 :=
  reach_call_bounds u calls h att v ha

/-- Claim C22, witness: the password `b` set after the password `a`. -/
theorem c22_witness_a_then_b :
    (∀ x ∈ [("password", utf16 "a")], x.1 = "password" ∨ x.1 = "confirm") ∧
    ("password" = "password" ∨ "password" = "confirm") ∧
    (State.setValue "password" (.str (utf16 "b"))
        (runCalls [("password", utf16 "a")] (wiredPage []))).completion = .returned .state ∧
    (callsTo .validator (State.setValue "password" (.str (utf16 "b"))
        (runCalls [("password", utf16 "a")] (wiredPage []))).trace).length = 1 ∧
    (callsTo .form (State.setValue "password" (.str (utf16 "b"))
        (runCalls [("password", utf16 "a")] (wiredPage []))).trace).length ≤ 1 :=
  ⟨by simp, by simp, by decide, by decide,
    (c22_one_round_of_notification [] [("password", utf16 "a")] (by simp) "password"
      (utf16 "b") (by simp)).2.2.2.1⟩

/-! ## The username -/

theorem invoke_username (sv : String → Value → Page → Outcome) (l : Listener) (value : Value)
    (pg : Page) :
    invoke sv l "usernameChanged" value pg = ⟨pg, [], .typeError⟩ ∨
      ∃ i ms, l = .other i ms ∧
        invoke sv l "usernameChanged" value pg
          = ⟨pg, [.called (.other i ms) "usernameChanged" value], .returned .undefined⟩ := by
  cases l with
  | validator => exact Or.inl (by simp [invoke])
  | hint => exact Or.inl (by simp [invoke])
  | form => exact Or.inl (by simp [invoke])
  | other i ms =>
    by_cases h : "usernameChanged" ∈ ms
    · exact Or.inr ⟨i, ms, rfl, by simp [invoke, h]⟩
    · exact Or.inl (by simp [invoke, h])

theorem forEach_username (sv : String → Value → Page → Outcome) (value : Value)
    (ls : List Listener) (pg : Page) :
    (forEach (fun l => invoke sv l "usernameChanged" value) ls pg).page = pg ∧
      ∀ e ∈ (forEach (fun l => invoke sv l "usernameChanged" value) ls pg).trace,
        ∃ i ms, e = .called (.other i ms) "usernameChanged" value := by
  induction ls generalizing pg with
  | nil => exact ⟨rfl, by simp [forEach]⟩
  | cons l rest ih =>
    obtain ⟨i1, i2⟩ := ih pg
    rcases invoke_username sv l value pg with h | ⟨i, ms, -, h⟩
    · simp [forEach, h, Outcome.andThen, Completion.isAbrupt]
    · simp only [forEach, h, Outcome.andThen, Completion.isAbrupt, Bool.false_eq_true, if_false]
      refine ⟨i1, ?_⟩
      intro e he
      simp only [List.singleton_append, List.mem_cons] at he
      rcases he with he | he
      · exact ⟨i, ms, he⟩
      · exact i2 e he

/-- What `setValue('username', u)` does on any page: the page is unchanged or
differs in the stored username only, and the trace holds at most that store
and calls of `usernameChanged` on other objects. -/
theorem setValue_username (pg : Page) (value : Value) :
    ((State.setValue "username" value pg).page = pg ∨
        (State.setValue "username" value pg).page
          = { pg with atts := assign "username" value pg.atts }) ∧
      ∀ e ∈ (State.setValue "username" value pg).trace,
        e = .stored "username" value ∨
          ∃ i ms, e = .called (.other i ms) "usernameChanged" value := by
  cases hv : strictEq (pg.att "username") value with
  | true =>
    rw [setValue_same_field _ _ _ (Or.inl rfl) hv]
    exact ⟨Or.inl rfl, by simp⟩
  | false =>
    rw [show State.setValue "username" value pg = State.setValueN (1 + 1) "username" value pg
      from rfl, setValueN_field _ _ _ _ (Or.inl rfl)]
    have e1 : "username" ++ "Changed" = "usernameChanged" := by decide
    simp only [hv, Bool.false_eq_true, if_false, Outcome.andThen, Completion.isAbrupt, e1]
    cases hl : pg.listener.lookup "username" with
    | none => simp [hl]
    | some ls =>
      simp only [hl]
      obtain ⟨f1, f2⟩ := forEach_username (State.setValueN 1) value ls
        { pg with atts := assign "username" value pg.atts }
      refine ⟨Or.inr ?_, ?_⟩
      · split <;> simp [f1]
      · intro e he
        have he2 : e = .stored "username" value ∨
            e ∈ (forEach (fun l => invoke (State.setValueN 1) l "usernameChanged" value) ls
              { pg with atts := assign "username" value pg.atts }).trace := by
          split at he <;> simpa using he
        rcases he2 with he2 | he2
        · exact Or.inl he2
        · exact Or.inr (f2 e he2)

/-- The effect of `setValue('username', u)` on everything but the username. -/
theorem username_frame (pg : Page) (value : Value) :
    (∀ g, g ≠ "username" → (State.setValue "username" value pg).page.att g = pg.att g) ∧
      (State.setValue "username" value pg).page.listener = pg.listener ∧
      (State.setValue "username" value pg).page.validatorPassword = pg.validatorPassword ∧
      (State.setValue "username" value pg).page.validatorConfirm = pg.validatorConfirm ∧
      (State.setValue "username" value pg).page.hints = pg.hints ∧
      (State.setValue "username" value pg).page.button = pg.button ∧
      callsTo .validator (State.setValue "username" value pg).trace = [] ∧
      callsOf "valid" (State.setValue "username" value pg).trace = [] ∧
      storesOf "valid" (State.setValue "username" value pg).trace = [] := by
  obtain ⟨hpage, htrace⟩ := setValue_username pg value
  have hfilter : ∀ (f : Event → Bool),
      f (.stored "username" value) = false →
      (∀ i ms, f (.called (.other i ms) "usernameChanged" value) = false) →
      (State.setValue "username" value pg).trace.filter f = [] := by
    intro f h1 h2
    rw [List.filter_eq_nil_iff]
    intro e he
    rcases htrace e he with rfl | ⟨i, ms, rfl⟩
    · simp [h1]
    · simp [h2]
  refine ⟨?_, ?_, ?_, ?_, ?_, ?_, hfilter _ rfl (fun _ _ => rfl), hfilter _ rfl ?_,
    hfilter _ rfl (fun _ _ => rfl)⟩
  · intro g hg
    rcases hpage with h | h <;> rw [h]
    exact att_assign_other pg _ g _ hg
  all_goals first
    | (rcases hpage with h | h <;> rw [h])
    | (intro i ms; simp [Event.isCall])

theorem username_step (u p c : Value) (vid : Nat) (vec : List Bool) (vp vc : Value)
    (hints : List Hint) (d : Bool) (next : Nat) (v : JSString) :
    (State.setValue "username" (.str v) (wiredWith u p c vid vec vp vc hints d next)).page
      = wiredWith (.str v) p c vid vec vp vc hints d next ∨
    (State.setValue "username" (.str v) (wiredWith u p c vid vec vp vc hints d next)).page
      = wiredWith u p c vid vec vp vc hints d next := by
  cases hv : strictEq u (.str v) with
  | true =>
    rw [setValue_same _ _ _ (by simpa [Page.holds, wiredWith, Page.att, List.lookup] using hv)]
    exact Or.inr rfl
  | false =>
    refine Or.inl ?_
    simp [State.setValue, State.setValueN, Page.holds, Page.store,
      wiredWith, Page.att, List.lookup, hv, assign, forEach,
      Outcome.andThen, Completion.isAbrupt]

theorem alike_username_left (pg1 pg2 : Page) (v : JSString) (h : Alike pg1 pg2) :
    Alike (State.setValue "username" (.str v) pg1).page pg2 := by
  obtain ⟨u1, u2, p, c, vid, vec, vp, vc, hints, d, next, rfl, rfl, hid, hl, hvp⟩ := h
  rcases username_step u1 p c vid vec vp vc hints d next v with h | h <;> rw [h]
  · exact ⟨_, _, _, _, _, _, _, _, _, _, _, rfl, rfl, hid, hl, hvp⟩
  · exact ⟨_, _, _, _, _, _, _, _, _, _, _, rfl, rfl, hid, hl, hvp⟩

theorem alike_step (pg1 pg2 : Page) (att : String) (v : JSString) (h : Alike pg1 pg2)
    (ha : att = "password" ∨ att = "confirm") :
    Alike (State.setValue att (.str v) pg1).page (State.setValue att (.str v) pg2).page := by
  obtain ⟨u1, u2, p, c, vid, vec, vp, vc, hints, d, next, rfl, rfl, hid, hl, hvp⟩ := h
  rcases ha with rfl | rfl
  · cases hq : strictEq p (.str v) with
    | true =>
      rw [setValue_same _ _ _ (by simpa [Page.holds, wiredWith, Page.att, List.lookup] using hq),
        setValue_same _ _ _ (by simpa [Page.holds, wiredWith, Page.att, List.lookup] using hq)]
      exact ⟨_, _, _, _, _, _, _, _, _, _, _, rfl, rfl, hid, hl, hvp⟩
    | false =>
      rw [password_step _ _ _ _ _ _ _ _ _ _ _ hid hl hq,
        password_step _ _ _ _ _ _ _ _ _ _ _ hid hl hq]
      exact ⟨_, _, _, _, _, _, _, _, _, _, _, rfl, rfl, by omega,
        by simp [hl, ruleVector_length], Or.inr ⟨_, rfl⟩⟩
  · cases hq : strictEq c (.str v) with
    | true =>
      rw [setValue_same _ _ _ (by simpa [Page.holds, wiredWith, Page.att, List.lookup] using hq),
        setValue_same _ _ _ (by simpa [Page.holds, wiredWith, Page.att, List.lookup] using hq)]
      exact ⟨_, _, _, _, _, _, _, _, _, _, _, rfl, rfl, hid, hl, hvp⟩
    | false =>
      rcases hvp with rfl | ⟨s, rfl⟩
      · rw [confirm_step_unset _ _ _ _ _ _ _ _ _ _ hq, confirm_step_unset _ _ _ _ _ _ _ _ _ _ hq]
        exact ⟨_, _, _, _, _, _, _, _, _, _, _, rfl, rfl, hid, hl, Or.inl rfl⟩
      · rw [confirm_step _ _ _ _ _ _ _ _ _ _ _ hid hl hq,
          confirm_step _ _ _ _ _ _ _ _ _ _ _ hid hl hq]
        exact ⟨_, _, _, _, _, _, _, _, _, _, _, rfl, rfl, by omega,
          by simp [hl, ruleVector_length], Or.inr ⟨_, rfl⟩⟩

theorem alike_run (cs : List (String × JSString))
    (h : ∀ x ∈ cs, x.1 = "username" ∨ x.1 = "password" ∨ x.1 = "confirm") (pg1 pg2 : Page)
    (ha : Alike pg1 pg2) :
    Alike (runCalls cs pg1) (runCalls (cs.filter fun x => x.1 != "username") pg2) := by
  induction cs generalizing pg1 pg2 with
  | nil => exact ha
  | cons x rest ih =>
    obtain ⟨att, value⟩ := x
    have hrest : ∀ x ∈ rest, x.1 = "username" ∨ x.1 = "password" ∨ x.1 = "confirm" :=
      fun x hx => h x (List.mem_cons_of_mem _ hx)
    rcases h (att, value) (List.mem_cons_self _ _) with h1 | h1 | h1 <;> simp only at h1 <;>
      subst h1
    · simp only [runCalls, List.filter_cons, bne_self_eq_false, Bool.false_eq_true, if_false]
      exact ih hrest _ _ (alike_username_left pg1 pg2 value ha)
    · have e : (("password" : String) != "username") = true := by decide
      simp only [runCalls, List.filter_cons, e, if_true]
      exact ih hrest _ _ (alike_step pg1 pg2 "password" value ha (Or.inl rfl))
    · have e : (("confirm" : String) != "username") = true := by decide
      simp only [runCalls, List.filter_cons, e, if_true]
      exact ih hrest _ _ (alike_step pg1 pg2 "confirm" value ha (Or.inr rfl))

theorem alike_observed (pg1 pg2 : Page) (h : Alike pg1 pg2) :
    pg1.att "valid" = pg2.att "valid" ∧ pg1.button = pg2.button ∧
      pg1.att "password" = pg2.att "password" ∧ pg1.att "confirm" = pg2.att "confirm" := by
  obtain ⟨u1, u2, p, c, vid, vec, vp, vc, hints, d, next, rfl, rfl, -, -, -⟩ := h
  exact ⟨rfl, rfl, rfl, rfl⟩

/-- Two runs from wired pages that agree once the username calls are left out
end with the same vector and the same button state. -/
theorem username_noninterference (u1 u2 : JSString) (cs1 cs2 : List (String × JSString))
    (h1 : ∀ x ∈ cs1, x.1 = "username" ∨ x.1 = "password" ∨ x.1 = "confirm")
    (h2 : ∀ x ∈ cs2, x.1 = "username" ∨ x.1 = "password" ∨ x.1 = "confirm")
    (he : (cs1.filter fun x => x.1 != "username") = cs2.filter fun x => x.1 != "username") :
    (runCalls cs1 (wiredPage u1)).att "valid" = (runCalls cs2 (wiredPage u2)).att "valid" ∧
      (runCalls cs1 (wiredPage u1)).button = (runCalls cs2 (wiredPage u2)).button := by
  have hinit : ∀ u, Alike (wiredPage u) (wiredPage []) := fun u =>
    ⟨_, _, _, _, _, _, _, _, _, _, _, rfl, rfl, by decide, rfl, Or.inl rfl⟩
  obtain ⟨a1, a2, -, -⟩ := alike_observed _ _ (alike_run cs1 h1 _ _ (hinit u1))
  obtain ⟨b1, b2, -, -⟩ := alike_observed _ _ (alike_run cs2 h2 _ _ (hinit u2))
  rw [a1, a2, b1, b2, he]
  exact ⟨rfl, rfl⟩

/-! ## The two theme variants -/

theorem shared_checkRule : Shared.Validator.checkRule = Validator.checkRule := rfl

theorem shared_rules : Shared.Validator.rules = Validator.rules := rfl

theorem shared_classify : Shared.classify = classify := by
  funext vec
  induction vec with
  | nil => rfl
  | cons v vs ih =>
    funext i pg
    simp only [Shared.classify, classify, ih]

theorem shared_hint_validChanged :
    Shared.PasswordPolicyHint.validChanged = PasswordPolicyHint.validChanged := by
  funext valid pg
  simp only [Shared.PasswordPolicyHint.validChanged, PasswordPolicyHint.validChanged,
    shared_classify]

theorem shared_form_validChanged : Shared.FormUpdate.validChanged = FormUpdate.validChanged :=
  rfl

theorem shared_checkValid : Shared.Validator.checkValid = Validator.checkValid := rfl

theorem shared_invoke : Shared.invoke = invoke := by
  funext sv l method value pg
  simp only [Shared.invoke, invoke, Shared.Validator.passwordChanged, Validator.passwordChanged,
    Shared.Validator.confirmChanged, Validator.confirmChanged, shared_checkValid,
    shared_hint_validChanged, shared_form_validChanged]

theorem shared_setValueN : Shared.State.setValueN = State.setValueN := by
  funext n
  induction n with
  | zero => rfl
  | succ n ih =>
    funext att value pg
    simp only [Shared.State.setValueN, State.setValueN, ih, shared_invoke]

theorem shared_setValue : Shared.State.setValue = State.setValue := by
  funext att value pg
  simp only [Shared.State.setValue, State.setValue, shared_setValueN]

theorem shared_wiredPage : Shared.wiredPage = wiredPage := by
  funext u
  simp only [Shared.wiredPage, wiredPage, Shared.FormUpdate.setItems, FormUpdate.setItems,
    Shared.State.setUsername, State.setUsername, shared_setValue]
  rfl

/-- The two variants of the engine coincide. -/
theorem variants_coincide (u : JSString) (calls : List (String × JSString)) :
    runOutcomes Shared.State.setValue calls (Shared.wiredPage u)
      = runOutcomes State.setValue calls (wiredPage u) := by
  rw [shared_setValue, shared_wiredPage]

/-- Claim C28: the username does not influence validation. On every page and
for every value, `setValue('username', value)` leaves every field but
`username`, the listener lists, the copies held by the validator, the hint
items and the submit control as they were, calls no method of the validator,
calls no `validChanged` and stores no vector; and two runs of calls on
`username`, `password` and `confirm` from wired pages that agree once the
username calls are left out end with the same vector and the same state of the
submit control, whatever the user names were. -/
theorem c28_username_does_not_influence_validation (pg : Page) (value : Value)
    (u1 u2 : JSString) (cs1 cs2 : List (String × JSString))
    (h1 : ∀ x ∈ cs1, x.1 = "username" ∨ x.1 = "password" ∨ x.1 = "confirm")
    (h2 : ∀ x ∈ cs2, x.1 = "username" ∨ x.1 = "password" ∨ x.1 = "confirm")
    (he : (cs1.filter fun x => x.1 != "username") = cs2.filter fun x => x.1 != "username") :
    ((∀ g, g ≠ "username" → (State.setValue "username" value pg).page.att g = pg.att g) ∧
      (State.setValue "username" value pg).page.listener = pg.listener ∧
      (State.setValue "username" value pg).page.validatorPassword = pg.validatorPassword ∧
      (State.setValue "username" value pg).page.validatorConfirm = pg.validatorConfirm ∧
      (State.setValue "username" value pg).page.hints = pg.hints ∧
      (State.setValue "username" value pg).page.button = pg.button ∧
      callsTo .validator (State.setValue "username" value pg).trace = [] ∧
      callsOf "valid" (State.setValue "username" value pg).trace = [] ∧
      storesOf "valid" (State.setValue "username" value pg).trace = []) ∧
    (runCalls cs1 (wiredPage u1)).att "valid" = (runCalls cs2 (wiredPage u2)).att "valid" ∧
    (runCalls cs1 (wiredPage u1)).button = (runCalls cs2 (wiredPage u2)).button :=
  ⟨username_frame pg value, username_noninterference u1 u2 cs1 cs2 h1 h2 he⟩

/-- Claim C28 at a concrete pair of runs: the user names differ, one run sets
the username before the password and the other after it, with another value. -/
theorem c28_witness_bob_and_eve :
    (runCalls [("username", utf16 "bob"), ("password", utf16 "a")] (wiredPage (utf16 "bob"))).att
        "valid"
      = (runCalls [("password", utf16 "a"), ("username", utf16 "eve")]
          (wiredPage (utf16 "al"))).att "valid" ∧
    (State.setValue "username" (.str (utf16 "eve")) (wiredPage (utf16 "al"))).page.att "valid"
      = (wiredPage (utf16 "al")).att "valid" :=
  have h := c28_username_does_not_influence_validation (wiredPage (utf16 "al"))
    (.str (utf16 "eve")) (utf16 "bob") (utf16 "al")
    [("username", utf16 "bob"), ("password", utf16 "a")]
    [("password", utf16 "a"), ("username", utf16 "eve")]
    (by decide) (by decide) (by decide)
  ⟨h.2.1, h.1.1 "valid" (by decide)⟩

/-- Claim C30: the engines of the two theme variants are equivalent. For every
user name and every sequence of `setValue` calls with string values, on
`password`, `confirm` or any other field, the two wired pages answer each call
with the same outcome: the same page after the call, hence the same vector
under `valid` and the same state of the submit control, the same trace of
stores and listener calls, and the same completion. -/
theorem c30_variants_equivalent (u : JSString) (calls : List (String × JSString)) :
    runOutcomes Shared.State.setValue calls (Shared.wiredPage u)
        = runOutcomes State.setValue calls (wiredPage u) ∧
      (runOutcomes Shared.State.setValue calls (Shared.wiredPage u)).map
          (fun o => (o.page.att "valid", o.page.button, callsOf "valid" o.trace))
        = (runOutcomes State.setValue calls (wiredPage u)).map
          (fun o => (o.page.att "valid", o.page.button, callsOf "valid" o.trace)) ∧
      (runOutcomes State.setValue calls (wiredPage u)).length = calls.length := by
  refine ⟨variants_coincide u calls, by rw [variants_coincide], ?_⟩
  generalize wiredPage u = pg
  induction calls generalizing pg with
  | nil => rfl
  | cons c rest ih => simp [runOutcomes, ih]

end PortalIam
